import Mathlib

/-!
# Enrollment lifecycle of the Blixora backend

A shallow embedding of `backend/routes/enrollments.js`, of the `pre('save')`
hook and the `updateProgress` method of `backend/models/Enrollment.js`, of
`validateProgressUpdate`, `validateRegister` and `validateLogin` of
`backend/middleware/validation.js`, of the simulation update of
`backend/routes/admin.js`, and of the register, login and profile handlers of
`backend/routes/auth.js`.

Conventions of the embedding.

* The document store is a record of three lists (users, simulations,
  enrollments). `findById` returns the first document carrying the id, and an
  update by id rewrites that same first document.
* A JavaScript number is the rational it stands for (`ℚ`); counters changed by
  `$inc` are integers. `Math.round x` is `⌊x + 1/2⌋`.
* The progress and the feedback route are embedded twice. `putProgress` and
  `putFeedback` add and divide exactly; they carry the statements on statuses,
  lists, counters, dates and ranges. `putProgress64` and `putFeedback64` read the
  numbers of the body as `JSON.parse` does and round every sum, product and
  quotient to the nearest double (`roundDouble`), as the interpreter does; they
  carry the statements on the values of `progress.timeSpent`,
  `performance.score` and `metrics.averageRating`.
* `undefined` is `none`.
* Every handler takes the authenticated caller (`req.user`), the clock reading
  `now`, and returns the reply together with the new store. A reply that is
  sent before any write returns the store it received.
* The `_id` of a new enrollment is generated outside the handler; the enroll
  handler takes it as the argument `newId`.
* Writes are taken to be accepted by the store; schema validators of the
  persistence layer are not part of the handlers and are not modelled.
-/

namespace Blixora

/-! ## Data model -/

abbrev Id := Nat

abbrev Time := Nat

/-- The `status` enum of `enrollmentSchema`. -/
inductive Status
  | enrolled
  | inProgress
  | completed
  | paused
  | dropped
deriving DecidableEq, Repr

/-- One element of `performance.assessments`. -/
structure Assessment where
  moduleId : String
  score : ℚ
  maxScore : ℚ
  completedAt : Time
  timeSpent : ℚ
deriving DecidableEq, Repr

/-- The `progress` block of an enrollment. -/
structure Progress where
  completedModules : List String
  currentModule : Option String
  percentageComplete : ℚ
  timeSpent : ℚ
  lastAccessed : Option Time
deriving DecidableEq, Repr

/-- The `performance` block of an enrollment. -/
structure Performance where
  score : Option ℚ
  assessments : List Assessment
  strengths : List String
  improvementAreas : List String
deriving DecidableEq, Repr

/-- The `feedback` block of an enrollment. -/
structure Feedback where
  rating : Option ℚ
  review : Option String
  wouldRecommend : Option Bool
  reviewDate : Option Time
deriving DecidableEq, Repr

/-- A document of the `enrollments` collection (`enrollmentSchema`). The
`certificates` array is never read or written by the routes and is left out. -/
structure Enrollment where
  id : Id
  userId : Id
  simulationId : Id
  status : Status
  progress : Progress
  performance : Performance
  feedback : Feedback
  enrolledAt : Time
  startedAt : Option Time
  completedAt : Option Time
  updatedAt : Time
deriving DecidableEq, Repr

/-- The `metrics` block of `simulationSchema`. -/
structure Metrics where
  enrollments : ℤ
  completions : ℤ
  averageRating : ℚ
  totalReviews : ℤ
  averageScore : ℚ
deriving DecidableEq, Repr

/-- A document of the `simulations` collection, restricted to the fields the
enrollment routes read or write (`isActive`, `metrics`). -/
structure Simulation where
  id : Id
  isActive : Bool
  metrics : Metrics
deriving DecidableEq, Repr

/-- The `role` of a user. -/
inductive Role
  | user
  | admin
deriving DecidableEq, Repr

/-- Modelled from the spec: `backend/models/User.js` is not among the sources.
A user has an identity, a role (`user` or `admin`) and lifecycle stats, of
which the routes touch `stats.simulationsCompleted`. -/
structure User where
  id : Id
  role : Role
  simulationsCompleted : ℤ
deriving DecidableEq, Repr

/-- The document store: the three collections. -/
structure Store where
  users : List User
  simulations : List Simulation
  enrollments : List Enrollment
deriving DecidableEq, Repr

/-- What a handler sends: `res.status(code).json(...)` with its `success` flag and `message`,
with `data.enrollment` when the handler includes it. -/
structure Reply where
  code : Nat
  success : Bool
  message : String
  enrollment : Option Enrollment
deriving DecidableEq, Repr

/-! ## Replies of the enrollment routes -/

/-- The 404 of `POST /api/enrollments` (spec: `NotFound`). -/
def simulationNotFound : Reply :=
  { code := 404, success := false, message := "Simulation not found", enrollment := none }

/-- The 400 of `POST /api/enrollments` for an existing record (spec: `AlreadyEnrolled`). -/
def alreadyEnrolled : Reply :=
  { code := 400, success := false, message := "You are already enrolled in this simulation",
    enrollment := none }

/-- The 404 of the `/:id` routes (spec: `NotFound`). -/
def enrollmentNotFound : Reply :=
  { code := 404, success := false, message := "Enrollment not found", enrollment := none }

/-- The 403 of the `/:id` routes (spec: `Forbidden`). -/
def accessDenied : Reply :=
  { code := 403, success := false, message := "Access denied", enrollment := none }

/-- The 400 of `PUT /:id/feedback` for a missing or out-of-range rating. -/
def ratingOutOfRange : Reply :=
  { code := 400, success := false, message := "Rating must be between 1 and 5",
    enrollment := none }

/-- The 400 of `PUT /:id/feedback` on an enrollment that is not completed
(spec: `InvalidTransition`). -/
def reviewNotCompleted : Reply :=
  { code := 400, success := false, message := "You can only review completed simulations",
    enrollment := none }

/-- The 400 of `DELETE /:id` on a completed enrollment (spec: `InvalidTransition`). -/
def withdrawCompleted : Reply :=
  { code := 400, success := false, message := "Cannot withdraw from completed simulations",
    enrollment := none }

/-- The 400 of a validation middleware. The message is the schema library's
text for the first failing key; the model keeps the key. -/
def validationFailed (key : String) : Reply :=
  { code := 400, success := false, message := key, enrollment := none }

/-- Model of `res.status(201).json(...)` of a successful enrollment. -/
def enrolledReply (e : Enrollment) : Reply :=
  { code := 201, success := true, message := "Successfully enrolled in simulation",
    enrollment := some e }

/-- Model of `res.json(...)` of a successful progress update. -/
def progressReply (e : Enrollment) : Reply :=
  { code := 200, success := true, message := "Progress updated successfully",
    enrollment := some e }

/-- Model of `res.json(...)` of a successful completion. -/
def completedReply (e : Enrollment) : Reply :=
  { code := 200, success := true, message := "Simulation completed successfully",
    enrollment := some e }

/-- Model of `res.json(...)` of a successful feedback submission. -/
def feedbackReply (e : Enrollment) : Reply :=
  { code := 200, success := true, message := "Feedback submitted successfully",
    enrollment := some e }

/-- Model of `res.json(...)` of a successful withdrawal (no `data`). -/
def withdrawnReply : Reply :=
  { code := 200, success := true, message := "Successfully withdrawn from simulation",
    enrollment := none }

/-! ## Store primitives -/

/-- Rewrite the first element satisfying `p` with `f`: the effect of an update
by `_id` on a collection. Nothing changes when no element satisfies `p`. -/
def updateFirst {α : Type} (p : α → Bool) (f : α → α) : List α → List α
  | [] => []
  | x :: xs => if p x then f x :: xs else x :: updateFirst p f xs

/-- Model of `Simulation.findById`. -/
def findSimulation (st : Store) (sid : Id) : Option Simulation :=
  st.simulations.find? (fun s => s.id == sid)

/-- Model of `Enrollment.findById`. -/
def findEnrollment (st : Store) (eid : Id) : Option Enrollment :=
  st.enrollments.find? (fun e => e.id == eid)

/-- Model of `User.findById`. -/
def findUser (st : Store) (uid : Id) : Option User :=
  st.users.find? (fun u => u.id == uid)

/-- Model of `Enrollment.findOne` by `userId` and `simulationId`. -/
def findOneEnrollment (st : Store) (uid sid : Id) : Option Enrollment :=
  st.enrollments.find? (fun e => e.userId == uid && e.simulationId == sid)

/-- Model of `Simulation.findByIdAndUpdate(sid, ...)` with an update of the metrics block. -/
def updateMetrics (st : Store) (sid : Id) (f : Metrics → Metrics) : Store :=
  let simulations :=
    updateFirst (fun s => s.id == sid) (fun s => { s with metrics := f s.metrics })
      st.simulations
  { st with simulations := simulations }

/-- Model of `User.findByIdAndUpdate(uid, ...)` with `$inc` of `stats.simulationsCompleted` by 1. -/
def incSimulationsCompleted (st : Store) (uid : Id) : Store :=
  let users :=
    updateFirst (fun u => u.id == uid)
      (fun u => { u with simulationsCompleted := u.simulationsCompleted + 1 }) st.users
  { st with users := users }

/-- The `pre('save')` hook of `enrollmentSchema`. -/
def preSave (now : Time) (e : Enrollment) : Enrollment :=
  let e1 := { e with updatedAt := now }
  let e2 :=
    if e1.status = Status.inProgress ∧ e1.startedAt = none then
      { e1 with startedAt := some now }
    else e1
  if e2.status = Status.completed ∧ e2.completedAt = none then
    { e2 with completedAt := some now,
              progress := { e2.progress with percentageComplete := 100 } }
  else e2

/-- Model of `enrollment.save()` of a document that is already stored: the hook runs,
then the stored document with the same `_id` is rewritten. Returns the saved
document and the new store. -/
def saveEnrollment (now : Time) (e : Enrollment) (st : Store) : Enrollment × Store :=
  let saved := preSave now e
  let enrollments := updateFirst (fun x => x.id == saved.id) (fun _ => saved) st.enrollments
  (saved, { st with enrollments := enrollments })

/-- Model of `new Enrollment(...)` with `userId`, `simulationId`, `status: 'enrolled'` and the
schema defaults; `newId` is the generated `_id`. -/
def newEnrollment (newId : Id) (now : Time) (uid sid : Id) : Enrollment :=
  { id := newId, userId := uid, simulationId := sid, status := Status.enrolled,
    progress := { completedModules := [], currentModule := none, percentageComplete := 0,
                  timeSpent := 0, lastAccessed := none },
    performance := { score := none, assessments := [], strengths := [],
                     improvementAreas := [] },
    feedback := { rating := none, review := none, wouldRecommend := none,
                  reviewDate := none },
    enrolledAt := now, startedAt := none, completedAt := none, updatedAt := now }

/-- Model of `enrollment.save()` of a new document: the hook runs, then the document is
inserted. -/
def insertEnrollment (now : Time) (e : Enrollment) (st : Store) : Enrollment × Store :=
  let saved := preSave now e
  (saved, { st with enrollments := st.enrollments ++ [saved] })

/-- Model of `Math.round`. -/
def jsRound (x : ℚ) : ℤ := ⌊x + 1 / 2⌋

/-! ## `POST /api/enrollments` -/

/-- The handler of `router.post('/')`: enroll the caller in a simulation. -/
def postEnrollment (newId : Id) (now : Time) (caller : User) (simulationId : Id)
    (st : Store) : Reply × Store :=
  match findSimulation st simulationId with
  | none => (simulationNotFound, st)
  | some simulation =>
    if !simulation.isActive then (simulationNotFound, st)
    else
      match findOneEnrollment st caller.id simulationId with
      | some _ => (alreadyEnrolled, st)
      | none =>
        let (enrollment, st1) :=
          insertEnrollment now (newEnrollment newId now caller.id simulationId) st
        let st2 := updateMetrics st1 simulationId
          (fun m => { m with enrollments := m.enrollments + 1 })
        (enrolledReply enrollment, st2)

/-! ## `PUT /api/enrollments/:id/progress` -/

/-- The body of a progress request: `moduleId`, `isCompleted`, `timeSpent`,
`score`; the last three may be absent. -/
structure ProgressBody where
  moduleId : String
  isCompleted : Option Bool
  timeSpent : Option ℚ
  score : Option ℚ
deriving DecidableEq, Repr

/-- The middleware `validateProgressUpdate`: the key of the first schema rule
the body breaks, or `none` when the body passes. `moduleId` is a required,
non-empty string; `timeSpent` is at least 0 and, as every number of the schema
library, at most `Number.MAX_SAFE_INTEGER` = 2^53 - 1; `score` lies in 0..100.
The middleware only inspects `error`: the body it passes on is the body it
received. -/
def validateProgressUpdate (b : ProgressBody) : Option String :=
  if b.moduleId = "" then some "moduleId"
  else if (match b.timeSpent with
      | some t => decide (t < 0 ∨ 9007199254740991 < t)
      | none => false) then
    some "timeSpent"
  else if (match b.score with | some s => decide (s < 0 ∨ 100 < s) | none => false) then
    some "score"
  else none

/-- The sum `assessments.reduce((sum, a) => sum + a.score, 0)`, added exactly
(`totalScore64` rounds every partial sum to a double). -/
def totalScore (as : List Assessment) : ℚ :=
  as.foldl (fun sum a => sum + a.score) 0

/-- The mutations the progress handler applies to the loaded document, in
source order, before `save`. The sum of `timeSpent` and the mean of the scores
are exact here; `applyProgress64` rounds them to doubles as the interpreter
does. -/
def applyProgress (now : Time) (b : ProgressBody) (e : Enrollment) : Enrollment :=
  -- if (isCompleted && !completedModules.includes(moduleId)) completedModules.push(moduleId)
  let modules :=
    if b.isCompleted = some true ∧ ¬ b.moduleId ∈ e.progress.completedModules then
      e.progress.completedModules ++ [b.moduleId]
    else e.progress.completedModules
  -- if (timeSpent) progress.timeSpent += timeSpent
  let spent :=
    match b.timeSpent with
    | some t => if t ≠ 0 then e.progress.timeSpent + t else e.progress.timeSpent
    | none => e.progress.timeSpent
  -- progress.lastAccessed = new Date()
  let progress :=
    { e.progress with completedModules := modules, timeSpent := spent,
                      lastAccessed := some now }
  -- if (status === 'enrolled' && completedModules.length > 0) status = 'in-progress'
  let status :=
    if e.status = Status.enrolled ∧ 0 < modules.length then Status.inProgress else e.status
  -- if (score !== undefined) push the assessment and recompute performance.score
  let performance :=
    match b.score with
    | some s =>
      let assessments := e.performance.assessments ++
        [{ moduleId := b.moduleId, score := s, maxScore := 100, completedAt := now,
           timeSpent := b.timeSpent.getD 0 }]
      { e.performance with
          assessments := assessments,
          score := some ((jsRound (totalScore assessments / assessments.length) : ℤ) : ℚ) }
    | none => e.performance
  { e with progress := progress, status := status, performance := performance }

/-- The handler of `router.put('/:id/progress')`, without its middleware. -/
def progressHandler (now : Time) (caller : User) (eid : Id) (b : ProgressBody)
    (st : Store) : Reply × Store :=
  match findEnrollment st eid with
  | none => (enrollmentNotFound, st)
  | some enrollment =>
    if enrollment.userId ≠ caller.id then (accessDenied, st)
    else
      let (saved, st1) := saveEnrollment now (applyProgress now b enrollment) st
      (progressReply saved, st1)

/-- The route `PUT /:id/progress`: `validateProgressUpdate`, then the handler. -/
def putProgress (now : Time) (caller : User) (eid : Id) (b : ProgressBody)
    (st : Store) : Reply × Store :=
  match validateProgressUpdate b with
  | some key => (validationFailed key, st)
  | none => progressHandler now caller eid b st

/-- The method `enrollmentSchema.methods.updateProgress(moduleId, isCompleted = true)`
up to its `save`: an absent `isCompleted` takes the default `true`. -/
def updateProgress (moduleId : String) (isCompleted : Option Bool) (e : Enrollment) :
    Enrollment :=
  let flag := isCompleted.getD true
  let modules :=
    if flag = true ∧ ¬ moduleId ∈ e.progress.completedModules then
      e.progress.completedModules ++ [moduleId]
    else e.progress.completedModules
  let status :=
    if e.status = Status.enrolled ∧ 0 < modules.length then Status.inProgress else e.status
  { e with progress := { e.progress with completedModules := modules }, status := status }

/-! ## `PUT /api/enrollments/:id/complete` -/

/-- The mutations the completion handler applies before `save`. -/
def applyComplete (now : Time) (e : Enrollment) : Enrollment :=
  { e with status := Status.completed, completedAt := some now,
           progress := { e.progress with percentageComplete := 100 } }

/-- The handler of `router.put('/:id/complete')`. -/
def putComplete (now : Time) (caller : User) (eid : Id) (st : Store) : Reply × Store :=
  match findEnrollment st eid with
  | none => (enrollmentNotFound, st)
  | some enrollment =>
    if enrollment.userId ≠ caller.id then (accessDenied, st)
    else
      let (saved, st1) := saveEnrollment now (applyComplete now enrollment) st
      let st2 := updateMetrics st1 saved.simulationId
        (fun m => { m with completions := m.completions + 1 })
      let st3 := incSimulationsCompleted st2 caller.id
      (completedReply saved, st3)

/-! ## `PUT /api/enrollments/:id/feedback` -/

/-- The body of a feedback request. -/
structure FeedbackBody where
  rating : Option ℚ
  review : Option String
  wouldRecommend : Option Bool
deriving DecidableEq, Repr

/-- Model of `Enrollment.find` by `simulationId` with `feedback.rating` present. -/
def ratedEnrollments (st : Store) (sid : Id) : List Enrollment :=
  st.enrollments.filter (fun e => e.simulationId == sid && e.feedback.rating.isSome)

/-- The sum `allEnrollments.reduce((sum, enr) => sum + enr.feedback.rating, 0)`,
added exactly (`totalRating64` rounds every partial sum to a double). -/
def totalRating (es : List Enrollment) : ℚ :=
  es.foldl (fun sum enr => sum + enr.feedback.rating.getD 0) 0

/-- The assignment `enrollment.feedback = ...` of the feedback handler, with
`reviewDate: new Date()`. -/
def applyFeedback (now : Time) (rating : ℚ) (b : FeedbackBody) (e : Enrollment) : Enrollment :=
  { e with feedback := { rating := some rating, review := b.review,
                         wouldRecommend := b.wouldRecommend, reviewDate := some now } }

/-- The handler of `router.put('/:id/feedback')`. The average is computed
exactly here; `putFeedback64` rounds every sum, quotient and product to a
double as the interpreter does. -/
def putFeedback (now : Time) (caller : User) (eid : Id) (b : FeedbackBody)
    (st : Store) : Reply × Store :=
  -- if (!rating || rating < 1 || rating > 5)
  match b.rating with
  | none => (ratingOutOfRange, st)
  | some rating =>
    if rating = 0 ∨ rating < 1 ∨ 5 < rating then (ratingOutOfRange, st)
    else
      match findEnrollment st eid with
      | none => (enrollmentNotFound, st)
      | some enrollment =>
        if enrollment.userId ≠ caller.id then (accessDenied, st)
        else if enrollment.status ≠ Status.completed then (reviewNotCompleted, st)
        else
          let (saved, st1) := saveEnrollment now (applyFeedback now rating b enrollment) st
          let allEnrollments := ratedEnrollments st1 saved.simulationId
          let averageRating := totalRating allEnrollments / allEnrollments.length
          let st2 := updateMetrics st1 saved.simulationId
            (fun m => { m with averageRating := (jsRound (averageRating * 10) : ℚ) / 10,
                               totalReviews := allEnrollments.length })
          (feedbackReply saved, st2)

/-! ## `DELETE /api/enrollments/:id` -/

/-- The assignment `enrollment.status = 'dropped'` of the withdrawal handler. -/
def applyWithdraw (e : Enrollment) : Enrollment :=
  { e with status := Status.dropped }

/-- The handler of `router.delete('/:id')`: withdraw from a simulation. -/
def deleteEnrollment (now : Time) (caller : User) (eid : Id) (st : Store) : Reply × Store :=
  match findEnrollment st eid with
  | none => (enrollmentNotFound, st)
  | some enrollment =>
    if enrollment.userId ≠ caller.id then (accessDenied, st)
    else if enrollment.status = Status.completed then (withdrawCompleted, st)
    else
      let (saved, st1) := saveEnrollment now (applyWithdraw enrollment) st
      let st2 := updateMetrics st1 saved.simulationId
        (fun m => { m with enrollments := m.enrollments - 1 })
      (withdrawnReply, st2)

/-! ## `GET /api/enrollments/:id` -/

/-- Model of `res.json(...)` of a successful read: `success: true` and
`data.enrollment`, without a `message`. -/
def foundReply (e : Enrollment) : Reply :=
  { code := 200, success := true, message := "", enrollment := some e }

/-- The handler of `router.get('/:id')`. It reads only, so it returns no store.
The document is loaded with `populate('userId', ...)`: `enrollment.userId` is
the owner's user document, or `null` when no such user is stored, and then
`enrollment.userId._id` throws; `none` stands for that throw, whose reply is
produced by the error middleware. -/
def getEnrollment (caller : User) (eid : Id) (st : Store) : Option Reply :=
  match findEnrollment st eid with
  | none => some enrollmentNotFound
  | some enrollment =>
    match findUser st enrollment.userId with
    | none => none
    | some owner =>
      if owner.id ≠ caller.id ∧ caller.role ≠ Role.admin then some accessDenied
      else some (foundReply enrollment)

/-! ## `PUT /api/admin/simulations/:id` -/

/-- The part of the body of an admin update request that addresses the modelled
fields of a simulation: the key `isActive` and the dotted keys
`metrics.enrollments`, `metrics.completions`, `metrics.averageRating`,
`metrics.totalReviews`, `metrics.averageScore`; an absent key is `none`. Keys
for other paths of the schema change nothing that is modelled. -/
structure SimulationUpdate where
  isActive : Option Bool
  enrollments : Option ℤ
  completions : Option ℤ
  averageRating : Option ℚ
  totalReviews : Option ℤ
  averageScore : Option ℚ
deriving DecidableEq, Repr

/-- The update `findByIdAndUpdate(id, req.body, ...)` applies to the document:
every key of the body is set, the other fields are kept. -/
def applySimulationUpdate (u : SimulationUpdate) (s : Simulation) : Simulation :=
  { s with
    isActive := u.isActive.getD s.isActive,
    metrics :=
      { enrollments := u.enrollments.getD s.metrics.enrollments,
        completions := u.completions.getD s.metrics.completions,
        averageRating := u.averageRating.getD s.metrics.averageRating,
        totalReviews := u.totalReviews.getD s.metrics.totalReviews,
        averageScore := u.averageScore.getD s.metrics.averageScore } }

/-- Model of `res.json(...)` of a successful simulation update. -/
def simulationUpdatedReply : Reply :=
  { code := 200, success := true, message := "Simulation updated successfully",
    enrollment := none }

/-- The handler of `router.put('/simulations/:id')` of `routes/admin.js`. The
router is mounted behind `auth` and `isAdmin`, so the caller is an
administrator; the route has no validation middleware and passes `req.body` to
the update as it is. -/
def putSimulation (sid : Id) (u : SimulationUpdate) (st : Store) : Reply × Store :=
  match findSimulation st sid with
  | none => (simulationNotFound, st)
  | some _ =>
    let simulations :=
      updateFirst (fun s => s.id == sid) (applySimulationUpdate u) st.simulations
    (simulationUpdatedReply, { st with simulations := simulations })

/-! ## Registration and login (`routes/auth.js`) -/

/-- Modelled from the spec: `backend/models/User.js` is not among the sources.
The user document as the auth routes read and write it: identity (name, email,
password hash), role, active flag (a new user is active) and the time of the
last login. -/
structure Account where
  id : Id
  name : String
  email : String
  passwordHash : String
  role : Role
  isActive : Bool
  lastLogin : Option Time
deriving DecidableEq, Repr

/-- Modelled from the spec: the collaborators of the auth routes that are not
among the sources. `isEmail` is the email rule of the schema library, `hash` the
hashing of a new `passwordHash` by the pre-save middleware of the user model,
`sign` the token issued for a user id. -/
structure AuthEnv where
  isEmail : String → Bool
  hash : String → String
  sign : Id → String

/-- Modelled from the spec: the method `comparePassword` of the missing user
model. The user stores a password hash; a candidate password is accepted
exactly when hashing it gives the stored hash. The API test of the repository
registers a user and logs in with the same password, expecting success. -/
def comparePassword (env : AuthEnv) (candidate stored : String) : Bool :=
  env.hash candidate == stored

/-- Modelled from the spec: the static `User.findByEmail` of the missing user
model, the stored user with that email. -/
def findByEmail (users : List Account) (email : String) : Option Account :=
  users.find? (fun u => u.email == email)

/-- What an auth handler sends: status code, `success`, `message`, and
`data.user` and `data.token` when present. -/
structure AuthReply where
  code : Nat
  success : Bool
  message : String
  user : Option Account
  token : Option String
deriving DecidableEq, Repr

/-- The body of a registration request. -/
structure RegisterBody where
  name : String
  email : String
  password : String
  role : Option Role
deriving DecidableEq, Repr

/-- The body of a login request. -/
structure LoginBody where
  email : String
  password : String
deriving DecidableEq, Repr

/-- The `length` of a JavaScript string, which counts UTF-16 code units: a
character beyond U+FFFF takes two. Strings are sequences of Unicode characters;
unpaired surrogates are left out. -/
def utf16Length (s : String) : Nat :=
  (s.toList.map (fun c => if c.toNat < 65536 then 1 else 2)).sum

/-- The middleware `validateRegister`: the key of the first rule the body
breaks, or `none`. `name` has a `length` of 2 to 50, `email` is an email,
`password` has a `length` of 6 to 128; the schema library compares the `length`
of the string, in UTF-16 code units. -/
def validateRegister (env : AuthEnv) (b : RegisterBody) : Option String :=
  if utf16Length b.name < 2 ∨ 50 < utf16Length b.name then some "name"
  else if env.isEmail b.email = false then some "email"
  else if utf16Length b.password < 6 ∨ 128 < utf16Length b.password then some "password"
  else none

/-- The middleware `validateLogin`: `email` is an email, `password` is a
non-empty string. -/
def validateLogin (env : AuthEnv) (b : LoginBody) : Option String :=
  if env.isEmail b.email = false then some "email"
  else if b.password = "" then some "password"
  else none

/-- The 400 of a validation middleware of the auth routes; the model keeps the key. -/
def authInvalid (key : String) : AuthReply :=
  { code := 400, success := false, message := key, user := none, token := none }

/-- The 400 of `POST /register` for a taken email. -/
def userExists : AuthReply :=
  { code := 400, success := false, message := "User already exists with this email",
    user := none, token := none }

/-- The 401 of `POST /login` for an unknown email or a wrong password. -/
def invalidCredentials : AuthReply :=
  { code := 401, success := false, message := "Invalid email or password",
    user := none, token := none }

/-- The 401 of `POST /login` for a deactivated account. -/
def accountDeactivated : AuthReply :=
  { code := 401, success := false,
    message := "Account is deactivated. Please contact support.", user := none,
    token := none }

/-- The user document `new User(...)` followed by `save()` stores: the password
is hashed by the pre-save middleware, the role defaults to `user`. -/
def newAccount (env : AuthEnv) (newId : Id) (b : RegisterBody) : Account :=
  { id := newId, name := b.name, email := b.email, passwordHash := env.hash b.password,
    role := b.role.getD Role.user, isActive := true, lastLogin := none }

/-- The route `POST /api/auth/register`: `validateRegister`, then the handler. -/
def postRegister (env : AuthEnv) (newId : Id) (b : RegisterBody) (users : List Account) :
    AuthReply × List Account :=
  match validateRegister env b with
  | some key => (authInvalid key, users)
  | none =>
    match findByEmail users b.email with
    | some _ => (userExists, users)
    | none =>
      let user := newAccount env newId b
      ({ code := 201, success := true, message := "User registered successfully",
         user := some user, token := some (env.sign user.id) }, users ++ [user])

/-- The route `POST /api/auth/login`: `validateLogin`, then the handler. -/
def postLogin (env : AuthEnv) (now : Time) (b : LoginBody) (users : List Account) :
    AuthReply × List Account :=
  match validateLogin env b with
  | some key => (authInvalid key, users)
  | none =>
    match findByEmail users b.email with
    | none => (invalidCredentials, users)
    | some user =>
      if user.isActive = false then (accountDeactivated, users)
      else if comparePassword env b.password user.passwordHash = false then
        (invalidCredentials, users)
      else
        let saved := { user with lastLogin := some now }
        ({ code := 200, success := true, message := "Login successful", user := some saved,
           token := some (env.sign saved.id) },
          updateFirst (fun u => u.id == saved.id) (fun _ => saved) users)

/-! ## `PUT /api/auth/profile` -/

/-- The constant `allowedUpdates` of the profile handler. -/
def allowedUpdates : List String := ["name", "profile", "preferences"]

/-- The assignment `object[key] = value` on an object given by its entries: the
entry of the key is rewritten, or a new entry is added at the end. -/
def objectSet {V : Type} (k : String) (v : V) : List (String × V) → List (String × V)
  | [] => [(k, v)]
  | (k2, v2) :: rest => if k2 = k then (k, v) :: rest else (k2, v2) :: objectSet k v rest

/-- The loop `Object.keys(req.body).forEach(...)` of the profile handler: the
object `updates` it builds from the body, starting from the empty object. -/
def profileUpdates {V : Type} (body : List (String × V)) : List (String × V) :=
  (body.map (fun kv => kv.1)).foldl
    (fun updates key =>
      if key ∈ allowedUpdates then
        match body.lookup key with
        | some v => objectSet key v updates
        | none => updates
      else updates)
    []

/-- The update `findByIdAndUpdate(id, updates, ...)` applies to a user document
given by its fields: every key of `updates` is set. -/
def applyUpdates {V : Type} (updates doc : List (String × V)) : List (String × V) :=
  updates.foldl (fun d kv => objectSet kv.1 kv.2 d) doc

/-- The handler of `router.put('/profile')`: the users are given by their `_id`
and their fields; the reply carries the updated document, or nothing when the
caller's document is not stored. -/
def putProfile {V : Type} (callerId : Id) (body : List (String × V))
    (users : List (Id × List (String × V))) :
    Option (List (String × V)) × List (Id × List (String × V)) :=
  let users2 :=
    updateFirst (fun u => u.1 == callerId)
      (fun u => (u.1, applyUpdates (profileUpdates body) u.2)) users
  ((users2.find? (fun u => u.1 == callerId)).map (fun u => u.2), users2)

/-! ## The ratings of a simulation, in the words of the specification -/

/-- The ratings `feedback.rating` of all enrollments of simulation `sid` that
carry a rating, in store order. -/
def ratingsOf (st : Store) (sid : Id) : List ℚ :=
  (st.enrollments.filter (fun e => e.simulationId == sid)).filterMap
    (fun e => e.feedback.rating)

/-! ## Requests and sequences of requests -/

/-- A request to one of the five enrollment routes. -/
inductive Request
  | enroll (newId : Id) (simulationId : Id)
  | progress (eid : Id) (body : ProgressBody)
  | complete (eid : Id)
  | feedback (eid : Id) (body : FeedbackBody)
  | withdraw (eid : Id)
deriving DecidableEq, Repr

/-- Dispatch of a request to its route. -/
def handle (now : Time) (caller : User) (req : Request) (st : Store) : Reply × Store :=
  match req with
  | Request.enroll newId sid => postEnrollment newId now caller sid st
  | Request.progress eid body => putProgress now caller eid body st
  | Request.complete eid => putComplete now caller eid st
  | Request.feedback eid body => putFeedback now caller eid body st
  | Request.withdraw eid => deleteEnrollment now caller eid st

/-- A sequence of progress requests by one caller on one enrollment, each with
its clock reading: the replies in order and the final store. -/
def runProgress (caller : User) (eid : Id) :
    List (Time × ProgressBody) → Store → List Reply × Store
  | [], st => ([], st)
  | (now, b) :: rest, st =>
    let r := putProgress now caller eid b st
    let rs := runProgress caller eid rest r.2
    (r.1 :: rs.1, rs.2)

/-- A sequence of requests, each with its clock reading and its caller: the
store after all of them. -/
def runRequests : List (Time × User × Request) → Store → Store
  | [], st => st
  | (now, caller, req) :: rest, st => runRequests rest (handle now caller req st).2

/-- The (user, simulation) pairs of the stored enrollments, in store order. -/
def enrollmentPairs (st : Store) : List (Id × Id) :=
  st.enrollments.map (fun e => (e.userId, e.simulationId))

/-- The store after the caller has enrolled in `sid` (new enrollment `newId`, at
`now1`) and then withdrawn from that enrollment (at `now2`). -/
def enrollThenWithdraw (newId : Id) (now1 now2 : Time) (caller : User) (sid : Id)
    (st : Store) : Store :=
  (deleteEnrollment now2 caller newId (postEnrollment newId now1 caller sid st).2).2

/-! ## Invariants of a stored enrollment -/

/-- The percentage invariant: `progress.percentageComplete` is 100 only in status
`completed`, and a completed enrollment has `completedAt` set. -/
def percentInv (e : Enrollment) : Prop :=
  (e.progress.percentageComplete = 100 → e.status = Status.completed)
    ∧ (e.status = Status.completed → e.completedAt ≠ none)

/-- The score invariant: every assessment score lies in 0..100, and
`performance.score`, when present, is an integer in 0..100 (the `min`/`max` of
the schema). -/
def scoresInRange (e : Enrollment) : Prop :=
  (∀ a ∈ e.performance.assessments, 0 ≤ a.score ∧ a.score ≤ 100)
    ∧ (∀ s, e.performance.score = some s → ∃ n : ℤ, s = (n : ℚ) ∧ 0 ≤ n ∧ n ≤ 100)

/-! ## The arithmetic of JavaScript numbers -/

/-- The quotient `n / d` of two naturals rounded to the nearest natural, a tie
going to the even neighbour. -/
def divRoundEven (n d : Nat) : Nat :=
  let k := n / d
  let r := n % d
  if 2 * r < d then k else if d < 2 * r then k + 1 else if k % 2 = 0 then k else k + 1

/-- Binary logarithm by repeated halving, at most `fuel` times. -/
def log2Fuel : Nat → Nat → Nat
  | 0, _ => 0
  | fuel + 1, n => if 2 ≤ n then log2Fuel fuel (n / 2) + 1 else 0

/-- The binary logarithm of a positive natural, rounded down: the position of
its leading bit. -/
def natLog2 (n : Nat) : Nat := log2Fuel n n

/-- The exponent of the binade of `p / q` for positive `p` and `q`: the integer
`e` with `2 ^ e ≤ p / q < 2 ^ (e + 1)`. -/
def floorLog2 (p q : Nat) : Int :=
  let d : Int := (natLog2 p : Int) - (natLog2 q : Int)
  if (if 0 ≤ d then 2 ^ d.toNat * q ≤ p else q ≤ p * 2 ^ (-d).toNat) then d else d - 1

/-- The double nearest to a rational (IEEE 754 binary64, round to nearest, ties
to even): the magnitude is rounded to a multiple of `2 ^ g`, where `g` is the
exponent of the binade less 52 and at least -1074 (the subnormal spacing).
The exponent is not bounded above: a magnitude beyond the largest double, which
the interpreter turns into `Infinity`, is rounded like any other. -/
def roundDouble (x : ℚ) : ℚ :=
  if x = 0 then 0
  else
    let p := x.num.natAbs
    let q := x.den
    let g := max (floorLog2 p q) (-1022) - 52
    let k :=
      if 0 ≤ g then divRoundEven p (q * 2 ^ g.toNat) else divRoundEven (p * 2 ^ (-g).toNat) q
    let mag : ℚ :=
      if 0 ≤ g then ((k * 2 ^ g.toNat : Nat) : ℚ) else (k : ℚ) / ((2 ^ (-g).toNat : Nat) : ℚ)
    if x < 0 then -mag else mag

/-- The sum `a + b` of two doubles, as the interpreter computes it. -/
def addDouble (a b : ℚ) : ℚ := roundDouble (a + b)

/-- The product `a * b` of two doubles, as the interpreter computes it. -/
def mulDouble (a b : ℚ) : ℚ := roundDouble (a * b)

/-- The quotient `a / b` of two doubles, as the interpreter computes it. -/
def divDouble (a b : ℚ) : ℚ := roundDouble (a / b)

/-- The sum of a list of doubles taken from the left, starting from 0, every
partial sum rounded: `list.reduce((sum, x) => sum + x, 0)`. -/
def sumDouble (l : List ℚ) : ℚ := l.foldl addDouble 0

/-- The expression `Math.round(total / count)` for the left-to-right sum `total`
of a list of doubles and its length `count`. -/
def roundedMean64 (l : List ℚ) : ℤ := jsRound (divDouble (sumDouble l) l.length)

/-- The expression `Math.round(average * 10) / 10` for `average = total / count`,
with `total` the left-to-right sum of a list of doubles and `count` its length. -/
def oneDecimalMean64 (l : List ℚ) : ℚ :=
  divDouble ((jsRound (mulDouble (divDouble (sumDouble l) l.length) 10) : ℤ) : ℚ) 10

/-! ## `PUT /api/enrollments/:id/progress`, computing with doubles -/

/-- The body of a progress request as the handler receives it: `JSON.parse`
reads every number of the request text as the nearest double. -/
def parseProgressBody (b : ProgressBody) : ProgressBody :=
  { b with timeSpent := b.timeSpent.map roundDouble, score := b.score.map roundDouble }

/-- The sum `assessments.reduce((sum, a) => sum + a.score, 0)`, every partial sum
rounded to a double. -/
def totalScore64 (as : List Assessment) : ℚ :=
  as.foldl (fun sum a => addDouble sum a.score) 0

/-- The mutations the progress handler applies to the loaded document, in
source order, before `save`; sums and quotients are rounded to doubles. -/
def applyProgress64 (now : Time) (b : ProgressBody) (e : Enrollment) : Enrollment :=
  -- if (isCompleted && !completedModules.includes(moduleId)) completedModules.push(moduleId)
  let modules :=
    if b.isCompleted = some true ∧ ¬ b.moduleId ∈ e.progress.completedModules then
      e.progress.completedModules ++ [b.moduleId]
    else e.progress.completedModules
  -- if (timeSpent) progress.timeSpent += timeSpent
  let spent :=
    match b.timeSpent with
    | some t => if t ≠ 0 then addDouble e.progress.timeSpent t else e.progress.timeSpent
    | none => e.progress.timeSpent
  -- progress.lastAccessed = new Date()
  let progress :=
    { e.progress with completedModules := modules, timeSpent := spent,
                      lastAccessed := some now }
  -- if (status === 'enrolled' && completedModules.length > 0) status = 'in-progress'
  let status :=
    if e.status = Status.enrolled ∧ 0 < modules.length then Status.inProgress else e.status
  -- if (score !== undefined) push the assessment and recompute performance.score
  let performance :=
    match b.score with
    | some s =>
      let assessments := e.performance.assessments ++
        [{ moduleId := b.moduleId, score := s, maxScore := 100, completedAt := now,
           timeSpent := b.timeSpent.getD 0 }]
      { e.performance with
          assessments := assessments,
          score :=
            some ((jsRound (divDouble (totalScore64 assessments) assessments.length) : ℤ) : ℚ) }
    | none => e.performance
  { e with progress := progress, status := status, performance := performance }

/-- The handler of `router.put('/:id/progress')`, without its middleware,
computing with doubles. -/
def progressHandler64 (now : Time) (caller : User) (eid : Id) (b : ProgressBody)
    (st : Store) : Reply × Store :=
  match findEnrollment st eid with
  | none => (enrollmentNotFound, st)
  | some enrollment =>
    if enrollment.userId ≠ caller.id then (accessDenied, st)
    else
      let (saved, st1) := saveEnrollment now (applyProgress64 now b enrollment) st
      (progressReply saved, st1)

/-- The route `PUT /:id/progress` on the text of a request: the body is parsed,
`validateProgressUpdate` inspects the parsed body, then the handler runs on it. -/
def putProgress64 (now : Time) (caller : User) (eid : Id) (b : ProgressBody)
    (st : Store) : Reply × Store :=
  match validateProgressUpdate (parseProgressBody b) with
  | some key => (validationFailed key, st)
  | none => progressHandler64 now caller eid (parseProgressBody b) st

/-! ## `PUT /api/enrollments/:id/feedback`, computing with doubles -/

/-- The body of a feedback request as the handler receives it: `JSON.parse`
reads the rating of the request text as the nearest double. -/
def parseFeedbackBody (b : FeedbackBody) : FeedbackBody :=
  { b with rating := b.rating.map roundDouble }

/-- The sum `allEnrollments.reduce((sum, enr) => sum + enr.feedback.rating, 0)`,
every partial sum rounded to a double. -/
def totalRating64 (es : List Enrollment) : ℚ :=
  es.foldl (fun sum enr => addDouble sum (enr.feedback.rating.getD 0)) 0

/-- The handler of `router.put('/:id/feedback')` on the text of a request,
computing with doubles. -/
def putFeedback64 (now : Time) (caller : User) (eid : Id) (b : FeedbackBody)
    (st : Store) : Reply × Store :=
  -- if (!rating || rating < 1 || rating > 5)
  match (parseFeedbackBody b).rating with
  | none => (ratingOutOfRange, st)
  | some rating =>
    if rating = 0 ∨ rating < 1 ∨ 5 < rating then (ratingOutOfRange, st)
    else
      match findEnrollment st eid with
      | none => (enrollmentNotFound, st)
      | some enrollment =>
        if enrollment.userId ≠ caller.id then (accessDenied, st)
        else if enrollment.status ≠ Status.completed then (reviewNotCompleted, st)
        else
          let (saved, st1) :=
            saveEnrollment now (applyFeedback now rating (parseFeedbackBody b) enrollment) st
          let allEnrollments := ratedEnrollments st1 saved.simulationId
          let averageRating := divDouble (totalRating64 allEnrollments) allEnrollments.length
          let st2 := updateMetrics st1 saved.simulationId
            (fun m => { m with
              averageRating := divDouble ((jsRound (mulDouble averageRating 10) : ℤ) : ℚ) 10,
              totalReviews := allEnrollments.length })
          (feedbackReply saved, st2)

/-! ## Concrete stores used to evaluate the handlers -/

/-- Metrics of a simulation nobody has enrolled in. -/
def zeroMetrics : Metrics :=
  { enrollments := 0, completions := 0, averageRating := 0, totalReviews := 0,
    averageScore := 0 }

/-- A first user. -/
def userOne : User := { id := 1, role := Role.user, simulationsCompleted := 0 }

/-- A second user. -/
def userTwo : User := { id := 2, role := Role.user, simulationsCompleted := 0 }

/-- A store with two users, one active simulation (id 10) and no enrollment. -/
def emptyStore : Store :=
  { users := [userOne, userTwo],
    simulations := [{ id := 10, isActive := true, metrics := zeroMetrics }],
    enrollments := [] }

/-- The store after `userOne` has enrolled in simulation 10 at time 1; the
enrollment has id 100. -/
def enrolledStore : Store := (postEnrollment 100 1 userOne 10 emptyStore).2

/-- The store after `userOne` has completed enrollment 100 at time 2. -/
def completedStore : Store := (putComplete 2 userOne 100 enrolledStore).2

/-- The store after `userOne` has withdrawn from enrollment 100 at time 2. -/
def droppedStore : Store := (deleteEnrollment 2 userOne 100 enrolledStore).2

/-- Three progress requests with `isCompleted = true`: `m1`, `m2`, then `m1` again. -/
def progressCalls : List (Time × ProgressBody) :=
  [(2, { moduleId := "m1", isCompleted := some true, timeSpent := none, score := none }),
   (3, { moduleId := "m2", isCompleted := some true, timeSpent := some 5, score := none }),
   (4, { moduleId := "m1", isCompleted := some true, timeSpent := none, score := none })]

/-- A progress request for module `m` carrying score `s`. -/
def scoreBody (m : String) (s : ℚ) : ProgressBody :=
  { moduleId := m, isCompleted := some true, timeSpent := none, score := some s }

/-- The store after `userOne` has submitted scores 80 and 90 on enrollment 100. -/
def scoredStore : Store :=
  (putProgress 3 userOne 100 (scoreBody "m2" 90)
    (putProgress 2 userOne 100 (scoreBody "m1" 80) enrolledStore).2).2

/-- Enrollment 100 as stored in `scoredStore`. -/
def scoredEnrollment : Enrollment :=
  preSave 3 (applyProgress 3 (scoreBody "m2" 90)
    (preSave 2 (applyProgress 2 (scoreBody "m1" 80) (newEnrollment 100 1 1 10))))

/-- A feedback request with rating `r` and nothing else. -/
def ratingBody (r : ℚ) : FeedbackBody :=
  { rating := some r, review := none, wouldRecommend := none }

/-- Enrollment 100 as stored in `completedStore`. -/
def completedEnrollment : Enrollment :=
  preSave 2 (applyComplete 2 (newEnrollment 100 1 1 10))

/-- Simulation 10 as stored in `completedStore`. -/
def completedSimulation : Simulation :=
  { id := 10, isActive := true,
    metrics := { enrollments := 1, completions := 1, averageRating := 0, totalReviews := 0,
                 averageScore := 0 } }

/-! ### The scenario of the specification, step by step from `emptyStore` -/

/-- Step 1: `userOne` enrolls in simulation 10 (enrollment 100). -/
def scenario1 : Reply × Store := handle 1 userOne (Request.enroll 100 10) emptyStore

/-- Step 2: `userOne` submits progress for module `m1` with score 80. -/
def scenario2 : Reply × Store :=
  handle 2 userOne (Request.progress 100 (scoreBody "m1" 80)) scenario1.2

/-- Step 3: `userOne` completes. -/
def scenario3 : Reply × Store := handle 3 userOne (Request.complete 100) scenario2.2

/-- Step 4: `userOne` submits feedback with rating 5. -/
def scenario4 : Reply × Store :=
  handle 4 userOne (Request.feedback 100 (ratingBody 5)) scenario3.2

/-- Step 5: `userTwo` enrolls in simulation 10 (enrollment 101). -/
def scenario5 : Reply × Store := handle 5 userTwo (Request.enroll 101 10) scenario4.2

/-- Step 6: `userTwo` completes. -/
def scenario6 : Reply × Store := handle 6 userTwo (Request.complete 101) scenario5.2

/-- Step 7: `userTwo` submits feedback with rating 3. -/
def scenario7 : Reply × Store :=
  handle 7 userTwo (Request.feedback 101 (ratingBody 3)) scenario6.2

/-! ### Further concrete inputs -/

/-- An administrator who owns no enrollment. -/
def adminUser : User := { id := 9, role := Role.admin, simulationsCompleted := 0 }

/-- The requests enroll, withdraw, withdraw of `userOne` on simulation 10. -/
def withdrawTwice : List (Time × User × Request) :=
  [(1, userOne, Request.enroll 100 10), (2, userOne, Request.withdraw 100),
   (3, userOne, Request.withdraw 100)]

/-- A progress request for module `m` that leaves `isCompleted` out. -/
def bareBody (m : String) : ProgressBody :=
  { moduleId := m, isCompleted := none, timeSpent := none, score := none }

/-- The store `enrolledStore` after simulation 10 has been deactivated. -/
def inactiveStore : Store :=
  { enrolledStore with
    simulations := enrolledStore.simulations.map (fun s => { s with isActive := false }) }

/-- Enrollment 100 as stored in `enrolledStore`. -/
def freshEnrollment : Enrollment := newEnrollment 100 1 1 10

/-- The store after `userOne` has completed module `m1` of enrollment 100 at time 2. -/
def startedStore : Store := (putProgress 2 userOne 100 (scoreBody "m1" 80) enrolledStore).2

/-- Enrollment 100 as stored in `startedStore`. -/
def startedEnrollment : Enrollment :=
  preSave 2 (applyProgress 2 (scoreBody "m1" 80) (newEnrollment 100 1 1 10))

/-- An admin update that sets `metrics.enrollments` to 999 and nothing else. -/
def metricsEdit : SimulationUpdate :=
  { isActive := none, enrollments := some 999, completions := none, averageRating := none,
    totalReviews := none, averageScore := none }

/-- An environment for the auth routes: an email contains `@`, the hash
prefixes the password, the token repeats a letter as many times as the id
says. -/
def sampleEnv : AuthEnv :=
  { isEmail := fun s => decide ('@' ∈ s.toList),
    hash := fun p => "hashed:" ++ p,
    sign := fun uid => String.mk (List.replicate uid 't') }

/-- The registration body of the API test. -/
def sampleRegister : RegisterBody :=
  { name := "Test User", email := "test@example.com", password := "password123",
    role := none }

/-- A second registration body with the email of `sampleRegister` and another
name, password and role. -/
def sampleRegisterAgain : RegisterBody :=
  { name := "Another User", email := "test@example.com", password := "different456",
    role := some Role.admin }

/-- A registration body whose name is the one character U+1F600, of `length` 2. -/
def emojiRegister : RegisterBody :=
  { name := String.mk [Char.ofNat 128512], email := "test@example.com",
    password := "password123", role := none }

/-- A registration body whose name is 26 times the character U+1F600, of
`length` 52. -/
def longEmojiRegister : RegisterBody :=
  { name := String.mk (List.replicate 26 (Char.ofNat 128512)), email := "test@example.com",
    password := "password123", role := none }

/-- A profile body with an allowed key and two keys that are not allowed. -/
def sampleProfileBody : List (String × String) :=
  [("name", "New Name"), ("role", "admin"), ("email", "other@example.com")]

/-- A user document by its fields. -/
def sampleUserDoc : List (String × String) :=
  [("name", "Test User"), ("email", "test@example.com"), ("role", "user"),
   ("isActive", "true"), ("passwordHash", "hashed:password123")]

/-! ### Inputs of the routes that compute with doubles -/

/-- A progress request for module `m1` that reports `t` minutes and no score. -/
def timeBody (t : ℚ) : ProgressBody :=
  { moduleId := "m1", isCompleted := some true, timeSpent := some t, score := none }

/-- The store after `userOne` has reported 0.1 minutes on module `m1` of
enrollment 100 at time 2. -/
def tenthStore : Store := (putProgress64 2 userOne 100 (timeBody (1 / 10)) enrolledStore).2

/-- Enrollment 100 as stored in `tenthStore`. -/
def tenthEnrollment : Enrollment :=
  preSave 2 (applyProgress64 2 (parseProgressBody (timeBody (1 / 10))) (newEnrollment 100 1 1 10))

/-- The store after `userOne` has submitted the score 1 on enrollment 100. -/
def onePointStore : Store := (putProgress64 2 userOne 100 (scoreBody "m1" 1) enrolledStore).2

/-- A progress request for module `m2` whose score is written 1.9999999999999998. -/
def nearTwoBody : ProgressBody := scoreBody "m2" (19999999999999998 / 10000000000000000)

/-- The store after `userOne` has submitted scores 80 and 90 on enrollment 100. -/
def scoredStore64 : Store :=
  (putProgress64 3 userOne 100 (scoreBody "m2" 90)
    (putProgress64 2 userOne 100 (scoreBody "m1" 80) enrolledStore).2).2

/-- Enrollment 100 as stored in `scoredStore64`. -/
def scoredEnrollment64 : Enrollment :=
  preSave 3 (applyProgress64 3 (parseProgressBody (scoreBody "m2" 90))
    (preSave 2 (applyProgress64 2 (parseProgressBody (scoreBody "m1" 80))
      (newEnrollment 100 1 1 10))))

/-- The store after `userOne` and `userTwo` have each enrolled in simulation 10
(enrollments 100 and 101) and completed. -/
def twoCompletedStore : Store :=
  runRequests
    [(1, userOne, Request.enroll 100 10), (2, userOne, Request.complete 100),
     (3, userTwo, Request.enroll 101 10), (4, userTwo, Request.complete 101)]
    emptyStore

/-- The store `twoCompletedStore` after `userOne` has rated enrollment 100 with
a rating written 1.1017834439738432. -/
def firstRatedStore : Store :=
  (putFeedback64 5 userOne 100 (ratingBody (11017834439738432 / 10000000000000000))
    twoCompletedStore).2

/-- A feedback request whose rating is written 1.1982165560261564. -/
def secondRatingBody : FeedbackBody := ratingBody (11982165560261564 / 10000000000000000)

/-! ## Lemmas on the store primitives -/

theorem find_updateFirst_same {α : Type} (p : α → Bool) (f : α → α)
    (hf : ∀ x, p x = true → p (f x) = true) (l : List α) :
    (updateFirst p f l).find? p = (l.find? p).map f := by
  induction l with
  | nil => rfl
  | cons x xs ih =>
    unfold updateFirst
    by_cases h : p x = true
    · simp [h, hf x h]
    · simp [h, ih]

theorem find_updateFirst_other {α : Type} (p q : α → Bool) (f : α → α)
    (h1 : ∀ x, p x = true → q x = false) (h2 : ∀ x, p x = true → q (f x) = false)
    (l : List α) : (updateFirst p f l).find? q = l.find? q := by
  induction l with
  | nil => rfl
  | cons x xs ih =>
    unfold updateFirst
    by_cases h : p x = true
    · simp [h, h1 x h, h2 x h]
    · simp [h, List.find?_cons, ih]

theorem preSave_id (now : Time) (e : Enrollment) : (preSave now e).id = e.id := by
  unfold preSave
  dsimp only
  split_ifs <;> rfl

theorem preSave_userId (now : Time) (e : Enrollment) : (preSave now e).userId = e.userId := by
  unfold preSave
  dsimp only
  split_ifs <;> rfl

theorem preSave_simulationId (now : Time) (e : Enrollment) :
    (preSave now e).simulationId = e.simulationId := by
  unfold preSave
  dsimp only
  split_ifs <;> rfl

theorem preSave_status (now : Time) (e : Enrollment) : (preSave now e).status = e.status := by
  unfold preSave
  dsimp only
  split_ifs <;> rfl

theorem preSave_feedback (now : Time) (e : Enrollment) :
    (preSave now e).feedback = e.feedback := by
  unfold preSave
  dsimp only
  split_ifs <;> rfl

theorem preSave_performance (now : Time) (e : Enrollment) :
    (preSave now e).performance = e.performance := by
  unfold preSave
  dsimp only
  split_ifs <;> rfl

theorem preSave_completedModules (now : Time) (e : Enrollment) :
    (preSave now e).progress.completedModules = e.progress.completedModules := by
  unfold preSave
  dsimp only
  split_ifs <;> rfl

theorem preSave_newEnrollment (newId : Id) (now : Time) (uid sid : Id) :
    preSave now (newEnrollment newId now uid sid) = newEnrollment newId now uid sid := by
  simp [preSave, newEnrollment]

/-- After a save of a document whose id is stored, `findById` returns the saved
document. -/
theorem findEnrollment_save (now : Time) (e e0 : Enrollment) (st : Store)
    (h : findEnrollment st e.id = some e0) :
    findEnrollment (saveEnrollment now e st).2 e.id = some (preSave now e) := by
  unfold findEnrollment at h
  simp only [findEnrollment, saveEnrollment, preSave_id]
  rw [find_updateFirst_same _ _ (fun x hx => by simp [preSave_id]) , h]
  rfl

/-- A save leaves the documents with another id as they are. -/
theorem findEnrollment_save_other (now : Time) (e : Enrollment) (st : Store) (eid : Id)
    (h : eid ≠ e.id) :
    findEnrollment (saveEnrollment now e st).2 eid = findEnrollment st eid := by
  simp only [findEnrollment, saveEnrollment, preSave_id]
  apply find_updateFirst_other
  · intro x hx
    have : x.id = e.id := by simpa using hx
    simp [this, Ne.symm h]
  · intro x _
    simp [preSave_id, Ne.symm h]

theorem findEnrollment_updateMetrics (st : Store) (sid : Id) (f : Metrics → Metrics)
    (eid : Id) : findEnrollment (updateMetrics st sid f) eid = findEnrollment st eid := rfl

theorem findEnrollment_incSimulationsCompleted (st : Store) (uid eid : Id) :
    findEnrollment (incSimulationsCompleted st uid) eid = findEnrollment st eid := rfl

theorem findSimulation_updateMetrics (st : Store) (sid : Id) (f : Metrics → Metrics) :
    findSimulation (updateMetrics st sid f) sid =
      (findSimulation st sid).map (fun s => { s with metrics := f s.metrics }) := by
  simp only [findSimulation, updateMetrics]
  exact find_updateFirst_same (fun s : Simulation => s.id == sid)
    (fun s : Simulation => { s with metrics := f s.metrics }) (fun x hx => hx) _

theorem findSimulation_save (now : Time) (e : Enrollment) (st : Store) (sid : Id) :
    findSimulation (saveEnrollment now e st).2 sid = findSimulation st sid := rfl

theorem findSimulation_incSimulationsCompleted (st : Store) (uid sid : Id) :
    findSimulation (incSimulationsCompleted st uid) sid = findSimulation st sid := rfl

/-! ## What each handler does to a stored enrollment -/

theorem findEnrollment_id (st : Store) (eid : Id) (e : Enrollment)
    (h : findEnrollment st eid = some e) : e.id = eid := by
  have := List.find?_some h
  simpa using this

theorem applyProgress_id (now : Time) (b : ProgressBody) (e : Enrollment) :
    (applyProgress now b e).id = e.id := by
  unfold applyProgress
  rfl

/-- The progress handler on a stored enrollment, called by its owner. -/
theorem progressHandler_owner (now : Time) (caller : User) (eid : Id) (b : ProgressBody)
    (st : Store) (e : Enrollment) (hfind : findEnrollment st eid = some e)
    (howner : e.userId = caller.id) :
    progressHandler now caller eid b st =
      (progressReply (preSave now (applyProgress now b e)),
        (saveEnrollment now (applyProgress now b e) st).2) := by
  simp [progressHandler, hfind, howner, saveEnrollment]

/-- The progress route on a stored enrollment, called by its owner with a body
that passes validation. -/
theorem putProgress_owner (now : Time) (caller : User) (eid : Id) (b : ProgressBody)
    (st : Store) (e : Enrollment) (hfind : findEnrollment st eid = some e)
    (howner : e.userId = caller.id) (hvalid : validateProgressUpdate b = none) :
    putProgress now caller eid b st =
      (progressReply (preSave now (applyProgress now b e)),
        (saveEnrollment now (applyProgress now b e) st).2) := by
  simp [putProgress, hvalid, progressHandler_owner now caller eid b st e hfind howner]

/-- The completion handler on a stored enrollment, called by its owner. -/
theorem putComplete_owner (now : Time) (caller : User) (eid : Id) (st : Store)
    (e : Enrollment) (hfind : findEnrollment st eid = some e)
    (howner : e.userId = caller.id) :
    putComplete now caller eid st =
      (completedReply (preSave now (applyComplete now e)),
        incSimulationsCompleted
          (updateMetrics (saveEnrollment now (applyComplete now e) st).2 e.simulationId
            (fun m => { m with completions := m.completions + 1 }))
          caller.id) := by
  simp [putComplete, hfind, howner, saveEnrollment, preSave_simulationId, applyComplete]

/-- The withdrawal handler on a stored enrollment that is not completed, called
by its owner. -/
theorem deleteEnrollment_owner (now : Time) (caller : User) (eid : Id) (st : Store)
    (e : Enrollment) (hfind : findEnrollment st eid = some e)
    (howner : e.userId = caller.id) (hstatus : e.status ≠ Status.completed) :
    deleteEnrollment now caller eid st =
      (withdrawnReply,
        updateMetrics (saveEnrollment now (applyWithdraw e) st).2
          e.simulationId (fun m => { m with enrollments := m.enrollments - 1 })) := by
  simp [deleteEnrollment, hfind, howner, hstatus, saveEnrollment, preSave_simulationId,
    applyWithdraw]

/-- The feedback handler on a stored, completed enrollment, called by its owner
with a rating in 1..5. -/
theorem putFeedback_owner (now : Time) (caller : User) (eid : Id) (b : FeedbackBody)
    (st : Store) (e : Enrollment) (r : ℚ) (hfind : findEnrollment st eid = some e)
    (howner : e.userId = caller.id) (hstatus : e.status = Status.completed)
    (hrating : b.rating = some r) (hlo : 1 ≤ r) (hhi : r ≤ 5) :
    putFeedback now caller eid b st =
      (feedbackReply (preSave now (applyFeedback now r b e)),
        updateMetrics (saveEnrollment now (applyFeedback now r b e) st).2 e.simulationId
          (fun m => { m with
            averageRating :=
              (jsRound
                (totalRating
                    (ratedEnrollments (saveEnrollment now (applyFeedback now r b e) st).2
                      e.simulationId) /
                  (ratedEnrollments (saveEnrollment now (applyFeedback now r b e) st).2
                      e.simulationId).length * 10) : ℚ) / 10,
            totalReviews :=
              (ratedEnrollments (saveEnrollment now (applyFeedback now r b e) st).2
                e.simulationId).length })) := by
  have hne : r ≠ 0 := by
    intro h0
    rw [h0] at hlo
    exact absurd hlo (by norm_num)
  simp [putFeedback, hrating, hfind, howner, hstatus, hne, not_lt.mpr hlo, not_lt.mpr hhi,
    saveEnrollment, preSave_simulationId, applyFeedback]

/-- Enrolling never changes what `findById` returns for a stored enrollment. -/
theorem postEnrollment_find (newId : Id) (now : Time) (caller : User) (sid : Id)
    (st : Store) (eid : Id) (e : Enrollment) (h : findEnrollment st eid = some e) :
    findEnrollment (postEnrollment newId now caller sid st).2 eid = some e := by
  unfold postEnrollment
  split
  · exact h
  · split
    · exact h
    · split
      · exact h
      · simp only [insertEnrollment, findEnrollment_updateMetrics]
        unfold findEnrollment at h ⊢
        rw [List.find?_append, h]
        rfl

/-- A progress request either leaves a stored enrollment as it is, or it is a
valid request of the owner on that enrollment and stores the updated document. -/
theorem putProgress_find (now : Time) (caller : User) (eid2 : Id) (b : ProgressBody)
    (st : Store) (eid : Id) (e : Enrollment) (h : findEnrollment st eid = some e) :
    findEnrollment (putProgress now caller eid2 b st).2 eid = some e
      ∨ (eid2 = eid ∧ e.userId = caller.id ∧ validateProgressUpdate b = none
          ∧ findEnrollment (putProgress now caller eid2 b st).2 eid
              = some (preSave now (applyProgress now b e))) := by
  cases hv : validateProgressUpdate b with
  | some key => left; simpa [putProgress, hv] using h
  | none =>
    cases h2 : findEnrollment st eid2 with
    | none => left; simpa [putProgress, hv, progressHandler, h2] using h
    | some e2 =>
      by_cases how : e2.userId = caller.id
      · rw [putProgress_owner now caller eid2 b st e2 h2 how hv]
        have hid2 := findEnrollment_id st eid2 e2 h2
        by_cases heq : eid2 = eid
        · right
          subst heq
          have he : e2 = e := by
            rw [h2] at h
            exact Option.some.inj h
          subst he
          refine ⟨rfl, how, rfl, ?_⟩
          have := findEnrollment_save now (applyProgress now b e2) e2 st
            (by rw [applyProgress_id, hid2]; exact h2)
          rwa [applyProgress_id, hid2] at this
        · left
          rw [findEnrollment_save_other now (applyProgress now b e2) st eid
            (by rw [applyProgress_id, hid2]; exact fun h => heq h.symm)]
          exact h
      · left
        simpa [putProgress, hv, progressHandler, h2, how] using h

/-- A completion request either leaves a stored enrollment as it is, or it is a
request of the owner on that enrollment and stores the completed document. -/
theorem putComplete_find (now : Time) (caller : User) (eid2 : Id) (st : Store) (eid : Id)
    (e : Enrollment) (h : findEnrollment st eid = some e) :
    findEnrollment (putComplete now caller eid2 st).2 eid = some e
      ∨ (eid2 = eid ∧ e.userId = caller.id
          ∧ findEnrollment (putComplete now caller eid2 st).2 eid
              = some (preSave now (applyComplete now e))) := by
  cases h2 : findEnrollment st eid2 with
  | none => left; simpa [putComplete, h2] using h
  | some e2 =>
    by_cases how : e2.userId = caller.id
    · rw [putComplete_owner now caller eid2 st e2 h2 how]
      simp only [findEnrollment_incSimulationsCompleted, findEnrollment_updateMetrics]
      have hid2 := findEnrollment_id st eid2 e2 h2
      have hid : (applyComplete now e2).id = eid2 := hid2
      by_cases heq : eid2 = eid
      · right
        subst heq
        have he : e2 = e := by
          rw [h2] at h
          exact Option.some.inj h
        subst he
        refine ⟨rfl, how, ?_⟩
        have := findEnrollment_save now (applyComplete now e2) e2 st (by rw [hid]; exact h2)
        rwa [hid] at this
      · left
        rw [findEnrollment_save_other now (applyComplete now e2) st eid
          (by rw [hid]; exact fun h => heq h.symm)]
        exact h
    · left
      simpa [putComplete, h2, how] using h

/-- A feedback request either leaves a stored enrollment as it is, or it is a
request of the owner on that completed enrollment with a rating in 1..5 and
stores the document with the new feedback. -/
theorem putFeedback_find (now : Time) (caller : User) (eid2 : Id) (b : FeedbackBody)
    (st : Store) (eid : Id) (e : Enrollment) (h : findEnrollment st eid = some e) :
    findEnrollment (putFeedback now caller eid2 b st).2 eid = some e
      ∨ (eid2 = eid ∧ e.userId = caller.id ∧ e.status = Status.completed
          ∧ ∃ r, b.rating = some r ∧ 1 ≤ r ∧ r ≤ 5
            ∧ findEnrollment (putFeedback now caller eid2 b st).2 eid
                = some (preSave now (applyFeedback now r b e))) := by
  cases hr : b.rating with
  | none => left; simpa [putFeedback, hr] using h
  | some r =>
    by_cases hbad : r = 0 ∨ r < 1 ∨ 5 < r
    · left; simpa [putFeedback, hr, hbad] using h
    · have hlo : 1 ≤ r := not_lt.mp (fun hlt => hbad (Or.inr (Or.inl hlt)))
      have hhi : r ≤ 5 := not_lt.mp (fun hlt => hbad (Or.inr (Or.inr hlt)))
      cases h2 : findEnrollment st eid2 with
      | none => left; simpa [putFeedback, hr, hbad, h2] using h
      | some e2 =>
        by_cases how : e2.userId = caller.id
        · by_cases hst : e2.status = Status.completed
          · rw [putFeedback_owner now caller eid2 b st e2 r h2 how hst hr hlo hhi]
            simp only [findEnrollment_updateMetrics]
            have hid2 := findEnrollment_id st eid2 e2 h2
            have hid : (applyFeedback now r b e2).id = eid2 := hid2
            by_cases heq : eid2 = eid
            · right
              subst heq
              have he : e2 = e := by
                rw [h2] at h
                exact Option.some.inj h
              subst he
              refine ⟨rfl, how, hst, r, rfl, hlo, hhi, ?_⟩
              have := findEnrollment_save now (applyFeedback now r b e2) e2 st
                (by rw [hid]; exact h2)
              rwa [hid] at this
            · left
              rw [findEnrollment_save_other now (applyFeedback now r b e2) st eid
                (by rw [hid]; exact fun h => heq h.symm)]
              exact h
          · left
            simpa [putFeedback, hr, hbad, h2, how, hst] using h
        · left
          simpa [putFeedback, hr, hbad, h2, how] using h

/-- A withdrawal request either leaves a stored enrollment as it is, or it is a
request of the owner on that enrollment, which is not completed, and stores the
dropped document. -/
theorem deleteEnrollment_find (now : Time) (caller : User) (eid2 : Id) (st : Store)
    (eid : Id) (e : Enrollment) (h : findEnrollment st eid = some e) :
    findEnrollment (deleteEnrollment now caller eid2 st).2 eid = some e
      ∨ (eid2 = eid ∧ e.userId = caller.id ∧ e.status ≠ Status.completed
          ∧ findEnrollment (deleteEnrollment now caller eid2 st).2 eid
              = some (preSave now (applyWithdraw e))) := by
  cases h2 : findEnrollment st eid2 with
  | none => left; simpa [deleteEnrollment, h2] using h
  | some e2 =>
    by_cases how : e2.userId = caller.id
    · by_cases hst : e2.status = Status.completed
      · left
        simpa [deleteEnrollment, h2, how, hst] using h
      · rw [deleteEnrollment_owner now caller eid2 st e2 h2 how hst]
        simp only [findEnrollment_updateMetrics]
        have hid2 := findEnrollment_id st eid2 e2 h2
        have hid : (applyWithdraw e2).id = eid2 := hid2
        by_cases heq : eid2 = eid
        · right
          subst heq
          have he : e2 = e := by
            rw [h2] at h
            exact Option.some.inj h
          subst he
          refine ⟨rfl, how, hst, ?_⟩
          have := findEnrollment_save now (applyWithdraw e2) e2 st (by rw [hid]; exact h2)
          rwa [hid] at this
        · left
          rw [findEnrollment_save_other now (applyWithdraw e2) st eid
            (by rw [hid]; exact fun h => heq h.symm)]
          exact h
    · left
      simpa [deleteEnrollment, h2, how] using h

/-! ## Enrolling -/

theorem findOneEnrollment_eq_none_iff (st : Store) (uid sid : Id) :
    findOneEnrollment st uid sid = none ↔
      st.enrollments.filter (fun e => e.userId == uid && e.simulationId == sid) = [] := by
  simp [findOneEnrollment, List.filter_eq_nil_iff]

/-- C1. For every store, caller `U` and active simulation `S` with no enrollment
for `(U, S)`: the first `POST /api/enrollments` answers 201 with the new
enrollment, a second one answers 400 "already enrolled" and changes nothing;
after both calls `S.metrics.enrollments` is its old value plus 1 and the
enrollments of `(U, S)` are exactly one record, in status `enrolled`. -/
theorem enroll_twice (st : Store) (caller : User) (sid : Id) (S : Simulation)
    (newId newId2 : Id) (now now2 : Time)
    (hS : findSimulation st sid = some S) (hactive : S.isActive = true)
    (hnone : findOneEnrollment st caller.id sid = none) :
    (postEnrollment newId now caller sid st).1
        = enrolledReply (newEnrollment newId now caller.id sid)
      ∧ (postEnrollment newId2 now2 caller sid (postEnrollment newId now caller sid st).2).1
        = alreadyEnrolled
      ∧ (findSimulation
          (postEnrollment newId2 now2 caller sid (postEnrollment newId now caller sid st).2).2
          sid).map (fun s => s.metrics.enrollments) = some (S.metrics.enrollments + 1)
      ∧ (postEnrollment newId2 now2 caller sid
          (postEnrollment newId now caller sid st).2).2.enrollments.filter
          (fun e => e.userId == caller.id && e.simulationId == sid)
        = [newEnrollment newId now caller.id sid]
      ∧ (newEnrollment newId now caller.id sid).status = Status.enrolled := by
  have hfilter := (findOneEnrollment_eq_none_iff st caller.id sid).mp hnone
  have h1 : postEnrollment newId now caller sid st =
      (enrolledReply (newEnrollment newId now caller.id sid),
        updateMetrics
          { st with enrollments := st.enrollments ++ [newEnrollment newId now caller.id sid] }
          sid (fun m => { m with enrollments := m.enrollments + 1 })) := by
    simp [postEnrollment, hS, hactive, hnone, insertEnrollment, preSave_newEnrollment]
  have hS2 : findSimulation (postEnrollment newId now caller sid st).2 sid =
      some { S with metrics := { S.metrics with enrollments := S.metrics.enrollments + 1 } } := by
    rw [h1]
    simp only [findSimulation_updateMetrics]
    have : findSimulation
        { st with enrollments := st.enrollments ++ [newEnrollment newId now caller.id sid] }
        sid = some S := hS
    rw [this]
    rfl
  have hE2 : findOneEnrollment (postEnrollment newId now caller sid st).2 caller.id sid =
      some (newEnrollment newId now caller.id sid) := by
    rw [h1]
    unfold findOneEnrollment at hnone ⊢
    simp only [updateMetrics]
    rw [List.find?_append, hnone]
    simp [newEnrollment]
  have h2 : postEnrollment newId2 now2 caller sid (postEnrollment newId now caller sid st).2 =
      (alreadyEnrolled, (postEnrollment newId now caller sid st).2) := by
    generalize postEnrollment newId now caller sid st = r at hS2 hE2 ⊢
    simp [postEnrollment, hS2, hE2, hactive]
  refine ⟨by rw [h1], by rw [h2], ?_, ?_, rfl⟩
  · rw [h2]
    simp [hS2]
  · rw [h2, h1]
    simp only [updateMetrics]
    rw [List.filter_append, hfilter]
    simp [newEnrollment]

/-- Witness of `enroll_twice`: `userOne` enrolling twice in simulation 10 of `emptyStore`. -/
theorem enroll_twice_witness :
    (postEnrollment 101 2 userOne 10 (postEnrollment 100 1 userOne 10 emptyStore).2).1
        = alreadyEnrolled
      ∧ (findSimulation
          (postEnrollment 101 2 userOne 10 (postEnrollment 100 1 userOne 10 emptyStore).2).2
          10).map (fun s => s.metrics.enrollments) = some 1 :=
  have h := enroll_twice emptyStore userOne 10
    { id := 10, isActive := true, metrics := zeroMetrics } 100 101 1 2
    (by decide) (by decide) (by decide)
  ⟨h.2.1, h.2.2.1⟩

/-! ## Completing twice -/

/-- C2, evaluated on the code. In `completedStore` enrollment 100 is already
`completed` and both counters stand at 1; a second `PUT /:id/complete` by the
owner answers 200 and leaves `metrics.completions` and the owner's
`stats.simulationsCompleted` at 2: the handler increments on every call. -/
theorem complete_twice_counts_twice :
    (findEnrollment completedStore 100).map (fun e => e.status) = some Status.completed
      ∧ (findSimulation completedStore 10).map (fun s => s.metrics.completions) = some 1
      ∧ (findUser completedStore 1).map (fun u => u.simulationsCompleted) = some 1
      ∧ (putComplete 3 userOne 100 completedStore).1.code = 200
      ∧ (findSimulation (putComplete 3 userOne 100 completedStore).2 10).map
          (fun s => s.metrics.completions) = some 2
      ∧ (findUser (putComplete 3 userOne 100 completedStore).2 1).map
          (fun u => u.simulationsCompleted) = some 2 := by
  decide

/-! ## Terminal states -/

theorem applyProgress_status_of_ne (now : Time) (b : ProgressBody) (e : Enrollment)
    (h : e.status ≠ Status.enrolled) : (applyProgress now b e).status = e.status := by
  simp [applyProgress, h]

/-- C3 as stated fails: `PUT /:id/complete` by the owner moves the `dropped`
enrollment 100 of `droppedStore` to `completed`. -/
theorem complete_leaves_dropped :
    (findEnrollment droppedStore 100).map (fun e => e.status) = some Status.dropped
      ∧ (findEnrollment (handle 3 userOne (Request.complete 100) droppedStore).2 100).map
          (fun e => e.status) = some Status.completed := by
  decide

/-- C3, amended. For every stored enrollment whose status is `completed`, every
request (enroll, progress, complete, feedback, withdraw; any caller, any
arguments) leaves its status `completed`; for every stored enrollment whose
status is `dropped`, every request other than a completion of that enrollment
leaves its status `dropped`. -/
theorem terminal_status_kept (now : Time) (caller : User) (req : Request) (st : Store)
    (eid : Id) (e : Enrollment) (hfind : findEnrollment st eid = some e)
    (hterm : e.status = Status.completed
      ∨ (e.status = Status.dropped ∧ req ≠ Request.complete eid)) :
    (findEnrollment (handle now caller req st).2 eid).map (fun x => x.status)
      = some e.status := by
  have hne : e.status ≠ Status.enrolled := by
    rcases hterm with h | h
    · rw [h]; decide
    · rw [h.1]; decide
  cases req with
  | enroll newId sid =>
    simp only [handle]
    rw [postEnrollment_find newId now caller sid st eid e hfind]
    rfl
  | progress eid2 b =>
    simp only [handle]
    rcases putProgress_find now caller eid2 b st eid e hfind with h | ⟨_, _, _, h⟩
    · rw [h]; rfl
    · rw [h]
      simp [preSave_status, applyProgress_status_of_ne now b e hne]
  | complete eid2 =>
    simp only [handle]
    rcases putComplete_find now caller eid2 st eid e hfind with h | ⟨heq, _, h⟩
    · rw [h]; rfl
    · rw [h]
      rcases hterm with hc | ⟨_, hreq⟩
      · simp [preSave_status, applyComplete, hc]
      · exact absurd (by rw [heq]) hreq
  | feedback eid2 b =>
    simp only [handle]
    rcases putFeedback_find now caller eid2 b st eid e hfind with h | ⟨_, _, _, r, _, _, _, h⟩
    · rw [h]; rfl
    · rw [h]
      simp [preSave_status, applyFeedback]
  | withdraw eid2 =>
    simp only [handle]
    rcases deleteEnrollment_find now caller eid2 st eid e hfind with h | ⟨_, _, hnc, h⟩
    · rw [h]; rfl
    · rw [h]
      rcases hterm with hc | ⟨hd, _⟩
      · exact absurd hc hnc
      · simp [preSave_status, applyWithdraw, hd]

/-- Witness of `terminal_status_kept`: a progress request on the `dropped`
enrollment 100 leaves it `dropped`. -/
theorem terminal_status_kept_witness :
    (findEnrollment
        (handle 3 userOne
          (Request.progress 100
            { moduleId := "m1", isCompleted := some true, timeSpent := none, score := none })
          droppedStore).2 100).map (fun x => x.status)
      = some Status.dropped :=
  terminal_status_kept 3 userOne
    (Request.progress 100
      { moduleId := "m1", isCompleted := some true, timeSpent := none, score := none })
    droppedStore 100 (preSave 2 (applyWithdraw (newEnrollment 100 1 1 10)))
    (by decide) (Or.inr ⟨by decide, by decide⟩)

/-! ## The completed-module list -/

theorem applyProgress_userId (now : Time) (b : ProgressBody) (e : Enrollment) :
    (applyProgress now b e).userId = e.userId := by
  unfold applyProgress
  rfl

theorem applyProgress_completedModules (now : Time) (b : ProgressBody) (e : Enrollment) :
    (applyProgress now b e).progress.completedModules =
      if b.isCompleted = some true ∧ ¬ b.moduleId ∈ e.progress.completedModules then
        e.progress.completedModules ++ [b.moduleId]
      else e.progress.completedModules := by
  unfold applyProgress
  rfl

/-- One push guarded by `includes` keeps the list free of duplicates and adds
the submitted id to the set of its elements. -/
theorem push_unless_included (ms : List String) (m : String) (h : ms.Nodup) :
    (if ¬ m ∈ ms then ms ++ [m] else ms).Nodup
      ∧ (if ¬ m ∈ ms then ms ++ [m] else ms).toFinset = ms.toFinset ∪ {m} := by
  by_cases hm : m ∈ ms
  · simp only [hm, not_true_eq_false, if_false]
    refine ⟨h, ?_⟩
    ext x
    simp only [List.mem_toFinset, Finset.mem_union, Finset.mem_singleton]
    constructor
    · exact fun hx => Or.inl hx
    · rintro (hx | hx)
      · exact hx
      · rw [hx]; exact hm
  · simp only [hm, not_false_eq_true, if_true]
    refine ⟨?_, ?_⟩
    · rw [List.nodup_append]
      refine ⟨h, List.nodup_singleton m, ?_⟩
      intro a ha hb
      rw [List.mem_singleton] at hb
      exact hm (hb ▸ ha)
    · ext x
      simp [List.mem_toFinset]

/-- Along a sequence of valid progress requests of the owner with
`isCompleted = true`, every request is answered 200 and the stored list stays
free of duplicates, its elements being the old ones and the submitted ids. -/
theorem runProgress_modules (caller : User) (eid : Id) (calls : List (Time × ProgressBody)) :
    ∀ (st : Store) (e : Enrollment), findEnrollment st eid = some e →
      e.userId = caller.id →
      (∀ c ∈ calls, validateProgressUpdate c.2 = none) →
      (∀ c ∈ calls, c.2.isCompleted = some true) →
      e.progress.completedModules.Nodup →
      (∀ r ∈ (runProgress caller eid calls st).1, r.code = 200)
        ∧ ∃ e2, findEnrollment (runProgress caller eid calls st).2 eid = some e2
          ∧ e2.progress.completedModules.Nodup
          ∧ e2.progress.completedModules.toFinset =
              e.progress.completedModules.toFinset
                ∪ (calls.map (fun c => c.2.moduleId)).toFinset := by
  induction calls with
  | nil =>
    intro st e hfind _ _ _ hnodup
    refine ⟨by simp [runProgress], e, hfind, hnodup, ?_⟩
    simp
  | cons c rest ih =>
    intro st e hfind howner hvalid hflag hnodup
    obtain ⟨now, b⟩ := c
    have hv : validateProgressUpdate b = none := hvalid (now, b) (List.mem_cons_self _ _)
    have hf : b.isCompleted = some true := hflag (now, b) (List.mem_cons_self _ _)
    have hstep := putProgress_owner now caller eid b st e hfind howner hv
    have hid := findEnrollment_id st eid e hfind
    have hfind2 : findEnrollment (putProgress now caller eid b st).2 eid
        = some (preSave now (applyProgress now b e)) := by
      rw [hstep]
      have := findEnrollment_save now (applyProgress now b e) e st
        (by rw [applyProgress_id, hid]; exact hfind)
      rwa [applyProgress_id, hid] at this
    have hmods : (preSave now (applyProgress now b e)).progress.completedModules
        = if ¬ b.moduleId ∈ e.progress.completedModules then
            e.progress.completedModules ++ [b.moduleId]
          else e.progress.completedModules := by
      rw [preSave_completedModules, applyProgress_completedModules]
      simp [hf]
    have hpush := push_unless_included e.progress.completedModules b.moduleId hnodup
    rw [← hmods] at hpush
    obtain ⟨hcodes, e2, he2, hnd2, hset2⟩ :=
      ih (putProgress now caller eid b st).2 (preSave now (applyProgress now b e)) hfind2
        (by rw [preSave_userId, applyProgress_userId]; exact howner)
        (fun c hc => hvalid c (List.mem_cons_of_mem _ hc))
        (fun c hc => hflag c (List.mem_cons_of_mem _ hc)) hpush.1
    refine ⟨?_, e2, he2, hnd2, ?_⟩
    · intro r hr
      simp only [runProgress, List.mem_cons] at hr
      rcases hr with hr | hr
      · rw [hr, hstep]; rfl
      · exact hcodes r hr
    · rw [hset2, hpush.2]
      ext x
      simp only [Finset.mem_union, Finset.mem_singleton, List.mem_toFinset, List.map_cons,
        List.mem_cons]
      tauto

/-- C4. For every sequence of valid progress requests of the owner with
`isCompleted = true` on one stored enrollment whose completed-module list has
no duplicate (it is empty at creation): every request is answered 200, the
resulting list has no duplicate, and its length is the number of distinct ids
among those already present and those submitted. -/
theorem completed_modules_distinct (caller : User) (eid : Id)
    (calls : List (Time × ProgressBody)) (st : Store) (e : Enrollment)
    (hfind : findEnrollment st eid = some e) (howner : e.userId = caller.id)
    (hvalid : ∀ c ∈ calls, validateProgressUpdate c.2 = none)
    (hflag : ∀ c ∈ calls, c.2.isCompleted = some true)
    (hnodup : e.progress.completedModules.Nodup) :
    (∀ r ∈ (runProgress caller eid calls st).1, r.code = 200)
      ∧ ∃ e2, findEnrollment (runProgress caller eid calls st).2 eid = some e2
        ∧ e2.progress.completedModules.Nodup
        ∧ e2.progress.completedModules.length =
            (e.progress.completedModules.toFinset
              ∪ (calls.map (fun c => c.2.moduleId)).toFinset).card := by
  obtain ⟨hcodes, e2, he2, hnd2, hset2⟩ :=
    runProgress_modules caller eid calls st e hfind howner hvalid hflag hnodup
  refine ⟨hcodes, e2, he2, hnd2, ?_⟩
  rw [← hset2, List.toFinset_card_of_nodup hnd2]

/-- Witness of `completed_modules_distinct`: `m1`, `m2`, `m1` submitted on the
fresh enrollment 100 give a list of length 2. -/
theorem completed_modules_distinct_witness :
    ∃ e2, findEnrollment (runProgress userOne 100 progressCalls enrolledStore).2 100 = some e2
      ∧ e2.progress.completedModules.Nodup
      ∧ e2.progress.completedModules.length = 2 :=
  have h := completed_modules_distinct userOne 100 progressCalls enrolledStore
    (newEnrollment 100 1 1 10) (by decide) (by decide) (by decide) (by decide)
    (by decide)
  h.2

/-! ## From `enrolled` to `in-progress` -/

theorem applyProgress_status (now : Time) (b : ProgressBody) (e : Enrollment) :
    (applyProgress now b e).status =
      if e.status = Status.enrolled
          ∧ 0 < (applyProgress now b e).progress.completedModules.length then
        Status.inProgress
      else e.status := by
  unfold applyProgress
  rfl

/-- C5. Let `e` be a stored enrollment and take any progress request (any
caller, any target, any body). If `e` is `enrolled` with an empty
completed-module list, then afterwards it is `in-progress` when its list is
non-empty and still `enrolled` when its list is empty; if `e` is `in-progress`,
it is `in-progress` afterwards. -/
theorem progress_status (now : Time) (caller : User) (eid2 : Id) (b : ProgressBody)
    (st : Store) (eid : Id) (e : Enrollment) (hfind : findEnrollment st eid = some e) :
    ∃ e2, findEnrollment (putProgress now caller eid2 b st).2 eid = some e2
      ∧ (e.status = Status.enrolled → e.progress.completedModules = [] →
          (e2.progress.completedModules ≠ [] → e2.status = Status.inProgress)
            ∧ (e2.progress.completedModules = [] → e2.status = Status.enrolled))
      ∧ (e.status = Status.inProgress → e2.status = Status.inProgress) := by
  rcases putProgress_find now caller eid2 b st eid e hfind with h | ⟨_, _, _, h⟩
  · refine ⟨e, h, ?_, fun hs => hs⟩
    intro hs hm
    exact ⟨fun hne => absurd hm hne, fun _ => hs⟩
  · refine ⟨preSave now (applyProgress now b e), h, ?_, ?_⟩
    · intro hs _
      rw [preSave_status, preSave_completedModules, applyProgress_status]
      constructor
      · intro hne
        have hlen : 0 < (applyProgress now b e).progress.completedModules.length :=
          List.length_pos.mpr hne
        simp [hs, hlen]
      · intro hnil
        simp [hs, hnil]
    · intro hs
      rw [preSave_status, applyProgress_status]
      simp [hs]

/-- Witness of `progress_status`: the first completed module moves the fresh
enrollment 100 to `in-progress`. -/
theorem progress_status_witness :
    ∃ e2, findEnrollment
        (putProgress 2 userOne 100
          { moduleId := "m1", isCompleted := some true, timeSpent := none, score := none }
          enrolledStore).2 100 = some e2
      ∧ e2.status = Status.inProgress :=
  have h := progress_status 2 userOne 100
    { moduleId := "m1", isCompleted := some true, timeSpent := none, score := none }
    enrolledStore 100 (newEnrollment 100 1 1 10) (by decide)
  match h with
  | ⟨e2, hfind2, hfirst, _⟩ =>
    ⟨e2, hfind2, (hfirst rfl rfl).1 (by
      have h3 : findEnrollment
          (putProgress 2 userOne 100
            { moduleId := "m1", isCompleted := some true, timeSpent := none, score := none }
            enrolledStore).2 100
          = some (preSave 2 (applyProgress 2
              { moduleId := "m1", isCompleted := some true, timeSpent := none,
                score := none } (newEnrollment 100 1 1 10))) := by decide
      rw [h3] at hfind2
      rw [← Option.some.inj hfind2]
      decide)⟩

/-! ## The sum of the assessment scores, in exact arithmetic -/

theorem foldl_add_score (as : List Assessment) (init : ℚ) :
    as.foldl (fun sum a => sum + a.score) init = init + (as.map (fun a => a.score)).sum := by
  induction as generalizing init with
  | nil => simp
  | cons a rest ih =>
    simp only [List.foldl_cons, List.map_cons, List.sum_cons]
    rw [ih]
    ring

theorem totalScore_eq_sum (as : List Assessment) :
    totalScore as = (as.map (fun a => a.score)).sum := by
  unfold totalScore
  rw [foldl_add_score]
  ring

theorem applyProgress_performance_some (now : Time) (b : ProgressBody) (e : Enrollment)
    (s : ℚ) (hs : b.score = some s) :
    (applyProgress now b e).performance.assessments =
        e.performance.assessments ++
          [{ moduleId := b.moduleId, score := s, maxScore := 100, completedAt := now,
             timeSpent := b.timeSpent.getD 0 }]
      ∧ (applyProgress now b e).performance.score =
        some ((jsRound (totalScore (applyProgress now b e).performance.assessments /
          (applyProgress now b e).performance.assessments.length) : ℤ) : ℚ) := by
  unfold applyProgress
  simp [hs]

theorem applyProgress_performance_none (now : Time) (b : ProgressBody) (e : Enrollment)
    (hs : b.score = none) : (applyProgress now b e).performance = e.performance := by
  unfold applyProgress
  simp only [hs]

/-! ## The rated enrollments of a simulation -/

theorem rated_map_rating (sid : Id) (l : List Enrollment) :
    (l.filter (fun e => e.simulationId == sid && e.feedback.rating.isSome)).map
        (fun e => e.feedback.rating.getD 0)
      = (l.filter (fun e => e.simulationId == sid)).filterMap (fun e => e.feedback.rating) := by
  induction l with
  | nil => rfl
  | cons x xs ih =>
    by_cases hs : x.simulationId = sid
    · cases hr : x.feedback.rating with
      | none => simp [List.filter_cons, List.filterMap_cons, hs, hr, ih]
      | some q => simp [List.filter_cons, List.filterMap_cons, hs, hr, ih]
    · simp [List.filter_cons, hs, ih]

theorem foldl_add_rating (es : List Enrollment) (init : ℚ) :
    es.foldl (fun sum enr => sum + enr.feedback.rating.getD 0) init
      = init + (es.map (fun e => e.feedback.rating.getD 0)).sum := by
  induction es generalizing init with
  | nil => simp
  | cons a rest ih =>
    simp only [List.foldl_cons, List.map_cons, List.sum_cons]
    rw [ih]
    ring

theorem totalRating_rated (st : Store) (sid : Id) :
    totalRating (ratedEnrollments st sid) = (ratingsOf st sid).sum := by
  unfold totalRating ratedEnrollments ratingsOf
  rw [foldl_add_rating, rated_map_rating]
  ring

theorem length_rated (st : Store) (sid : Id) :
    (ratedEnrollments st sid).length = (ratingsOf st sid).length := by
  unfold ratedEnrollments ratingsOf
  rw [← rated_map_rating, List.length_map]

/-- An enrollment that `findById` returns is one of the rated enrollments of its
simulation as soon as it carries a rating. -/
theorem mem_rated_of_find (st : Store) (eid : Id) (e : Enrollment)
    (h : findEnrollment st eid = some e) (hr : e.feedback.rating.isSome = true) :
    e ∈ ratedEnrollments st e.simulationId := by
  unfold ratedEnrollments
  rw [List.mem_filter]
  exact ⟨List.mem_of_find?_eq_some h, by simp [hr]⟩

/-! ## The scenario of the specification -/

/-- C8. From a simulation with all metrics 0: after `userOne` enrolls,
`enrollments = 1` and the status is `enrolled`; after progress on `m1` with
score 80 the status is `in-progress` and `performance.score = 80`; after
completion the status is `completed`, `completions = 1` and
`percentageComplete = 100`; after feedback 5, `averageRating = 5` and
`totalReviews = 1`; after `userTwo` enrolls, completes and submits feedback 3,
`averageRating = 4` and `totalReviews = 2`. Every request is answered with
success. -/
theorem scenario_metrics :
    (findSimulation emptyStore 10).map (fun s => s.metrics) = some zeroMetrics
      ∧ scenario1.1.code = 201
      ∧ (findSimulation scenario1.2 10).map (fun s => s.metrics.enrollments) = some 1
      ∧ (findEnrollment scenario1.2 100).map (fun e => e.status) = some Status.enrolled
      ∧ scenario2.1.code = 200
      ∧ (findEnrollment scenario2.2 100).map (fun e => e.status) = some Status.inProgress
      ∧ (findEnrollment scenario2.2 100).map (fun e => e.performance.score) = some (some 80)
      ∧ scenario3.1.code = 200
      ∧ (findEnrollment scenario3.2 100).map (fun e => e.status) = some Status.completed
      ∧ (findSimulation scenario3.2 10).map (fun s => s.metrics.completions) = some 1
      ∧ (findEnrollment scenario3.2 100).map (fun e => e.progress.percentageComplete)
          = some 100
      ∧ scenario4.1.code = 200
      ∧ (findSimulation scenario4.2 10).map (fun s => s.metrics.averageRating) = some 5
      ∧ (findSimulation scenario4.2 10).map (fun s => s.metrics.totalReviews) = some 1
      ∧ scenario5.1.code = 201
      ∧ scenario6.1.code = 200
      ∧ scenario7.1.code = 200
      ∧ (findSimulation scenario7.2 10).map (fun s => s.metrics.averageRating) = some 4
      ∧ (findSimulation scenario7.2 10).map (fun s => s.metrics.totalReviews) = some 2 := by
  with_unfolding_all decide

/-! ## Guards of feedback and withdrawal -/

/-- C9. For every enrollment whose status is not `completed` and every rating
in 1..5, `PUT /:id/feedback` by the owner answers 400 "You can only review
completed simulations" and returns the store it received: the enrollment's
feedback and the simulation's `averageRating` and `totalReviews` are unchanged. -/
theorem feedback_not_completed (now : Time) (caller : User) (eid : Id) (b : FeedbackBody)
    (st : Store) (e : Enrollment) (r : ℚ)
    (hfind : findEnrollment st eid = some e) (howner : e.userId = caller.id)
    (hstatus : e.status ≠ Status.completed)
    (hrating : b.rating = some r) (hlo : 1 ≤ r) (hhi : r ≤ 5) :
    putFeedback now caller eid b st = (reviewNotCompleted, st)
      ∧ findEnrollment (putFeedback now caller eid b st).2 eid = some e
      ∧ findSimulation (putFeedback now caller eid b st).2 e.simulationId
          = findSimulation st e.simulationId := by
  have hne : r ≠ 0 := by
    intro h0
    rw [h0] at hlo
    exact absurd hlo (by norm_num)
  have h : putFeedback now caller eid b st = (reviewNotCompleted, st) := by
    simp [putFeedback, hrating, hfind, howner, hstatus, hne, not_lt.mpr hlo, not_lt.mpr hhi]
  rw [h]
  exact ⟨rfl, hfind, rfl⟩

/-- Witness of `feedback_not_completed`: a rating of 4 on the freshly enrolled
(status `enrolled`) enrollment 100. -/
theorem feedback_not_completed_witness :
    putFeedback 2 userOne 100 { rating := some 4, review := none, wouldRecommend := none }
        enrolledStore = (reviewNotCompleted, enrolledStore) :=
  (feedback_not_completed 2 userOne 100
    { rating := some 4, review := none, wouldRecommend := none } enrolledStore
    (newEnrollment 100 1 1 10) 4 (by decide) (by decide) (by decide) rfl
    (by norm_num) (by norm_num)).1

/-- C10. For every enrollment whose status is `completed`, `DELETE /:id` by the
owner answers 400 "Cannot withdraw from completed simulations" and returns the
store it received: the status and the simulation's `metrics.enrollments` are
unchanged. -/
theorem withdraw_completed (now : Time) (caller : User) (eid : Id) (st : Store)
    (e : Enrollment) (hfind : findEnrollment st eid = some e)
    (howner : e.userId = caller.id) (hstatus : e.status = Status.completed) :
    deleteEnrollment now caller eid st = (withdrawCompleted, st)
      ∧ (findEnrollment (deleteEnrollment now caller eid st).2 eid).map (fun x => x.status)
          = some Status.completed
      ∧ (findSimulation (deleteEnrollment now caller eid st).2 e.simulationId).map
            (fun s => s.metrics.enrollments)
          = (findSimulation st e.simulationId).map (fun s => s.metrics.enrollments) := by
  have h : deleteEnrollment now caller eid st = (withdrawCompleted, st) := by
    simp [deleteEnrollment, hfind, howner, hstatus]
  rw [h]
  exact ⟨rfl, by simp [hfind, hstatus], rfl⟩

/-- Witness of `withdraw_completed`: withdrawing from enrollment 100 after its
owner has completed it. -/
theorem withdraw_completed_witness :
    deleteEnrollment 3 userOne 100 completedStore = (withdrawCompleted, completedStore) :=
  (withdraw_completed 3 userOne 100 completedStore
    (preSave 2 (applyComplete 2 (newEnrollment 100 1 1 10)))
    (by decide) (by decide) (by decide)).1

/-! ## Further lemmas on the store primitives -/

theorem updateFirst_length {α : Type} (p : α → Bool) (f : α → α) (l : List α) :
    (updateFirst p f l).length = l.length := by
  induction l with
  | nil => rfl
  | cons x xs ih =>
    unfold updateFirst
    by_cases h : p x = true
    · simp [h]
    · simp [h, ih]

theorem saveEnrollment_length (now : Time) (e : Enrollment) (st : Store) :
    (saveEnrollment now e st).2.enrollments.length = st.enrollments.length := by
  simp [saveEnrollment, updateFirst_length]

theorem findUser_incSimulationsCompleted (st : Store) (uid : Id) :
    findUser (incSimulationsCompleted st uid) uid =
      (findUser st uid).map
        (fun u => { u with simulationsCompleted := u.simulationsCompleted + 1 }) := by
  simp only [findUser, incSimulationsCompleted]
  exact find_updateFirst_same (fun u : User => u.id == uid)
    (fun u : User => { u with simulationsCompleted := u.simulationsCompleted + 1 })
    (fun x hx => hx) _

theorem findUser_updateMetrics (st : Store) (sid : Id) (f : Metrics → Metrics) (uid : Id) :
    findUser (updateMetrics st sid f) uid = findUser st uid := rfl

theorem findUser_save (now : Time) (e : Enrollment) (st : Store) (uid : Id) :
    findUser (saveEnrollment now e st).2 uid = findUser st uid := rfl

theorem preSave_startedAt (now : Time) (e : Enrollment) :
    (preSave now e).startedAt =
      if e.status = Status.inProgress ∧ e.startedAt = none then some now else e.startedAt := by
  unfold preSave
  dsimp only
  split_ifs <;> rfl

theorem preSave_completedAt (now : Time) (e : Enrollment) :
    (preSave now e).completedAt =
      if e.status = Status.completed ∧ e.completedAt = none then some now
      else e.completedAt := by
  unfold preSave
  dsimp only
  split_ifs <;> rfl

/-- What any request does to a stored enrollment: nothing, or it is a request of
the owner on that enrollment that passes the guards of its route, and the
document it stores is the hook applied to the route's mutation of the old one. -/
theorem handle_find (now : Time) (caller : User) (req : Request) (st : Store) (eid : Id)
    (e : Enrollment) (h : findEnrollment st eid = some e) :
    findEnrollment (handle now caller req st).2 eid = some e
      ∨ ∃ x, findEnrollment (handle now caller req st).2 eid = some (preSave now x)
          ∧ e.userId = caller.id
          ∧ ((∃ b, req = Request.progress eid b ∧ validateProgressUpdate b = none
                ∧ x = applyProgress now b e)
            ∨ (req = Request.complete eid ∧ x = applyComplete now e)
            ∨ (∃ b r, req = Request.feedback eid b ∧ b.rating = some r ∧ 1 ≤ r ∧ r ≤ 5
                ∧ e.status = Status.completed ∧ x = applyFeedback now r b e)
            ∨ (req = Request.withdraw eid ∧ e.status ≠ Status.completed
                ∧ x = applyWithdraw e)) := by
  cases req with
  | enroll newId sid =>
    left
    exact postEnrollment_find newId now caller sid st eid e h
  | progress eid2 b =>
    rcases putProgress_find now caller eid2 b st eid e h with h2 | ⟨heq, how, hv, h2⟩
    · left; exact h2
    · right
      subst heq
      exact ⟨applyProgress now b e, h2, how, Or.inl ⟨b, rfl, hv, rfl⟩⟩
  | complete eid2 =>
    rcases putComplete_find now caller eid2 st eid e h with h2 | ⟨heq, how, h2⟩
    · left; exact h2
    · right
      subst heq
      exact ⟨applyComplete now e, h2, how, Or.inr (Or.inl ⟨rfl, rfl⟩)⟩
  | feedback eid2 b =>
    rcases putFeedback_find now caller eid2 b st eid e h with
      h2 | ⟨heq, how, hst, r, hr, hlo, hhi, h2⟩
    · left; exact h2
    · right
      subst heq
      exact ⟨applyFeedback now r b e, h2, how,
        Or.inr (Or.inr (Or.inl ⟨b, r, rfl, hr, hlo, hhi, hst, rfl⟩))⟩
  | withdraw eid2 =>
    rcases deleteEnrollment_find now caller eid2 st eid e h with h2 | ⟨heq, how, hst, h2⟩
    · left; exact h2
    · right
      subst heq
      exact ⟨applyWithdraw e, h2, how, Or.inr (Or.inr (Or.inr ⟨rfl, hst, rfl⟩))⟩

/-! ## Withdrawing -/

/-- C11, evaluated on the code. In `droppedStore` enrollment 100 is already
`dropped` and `metrics.enrollments` of simulation 10 is back at 0; a second
`DELETE /:id` by the owner answers 200 "Successfully withdrawn" and decrements
again, to -1: the handler guards on `completed` only. -/
theorem withdraw_dropped_decrements :
    (findEnrollment droppedStore 100).map (fun e => e.status) = some Status.dropped
      ∧ (findSimulation droppedStore 10).map (fun s => s.metrics.enrollments) = some 0
      ∧ (deleteEnrollment 3 userOne 100 droppedStore).1 = withdrawnReply
      ∧ (findSimulation (deleteEnrollment 3 userOne 100 droppedStore).2 10).map
          (fun s => s.metrics.enrollments) = some (-1) := by
  decide

/-- C12, evaluated on the code. `emptyStore` has no enrollment and
`metrics.enrollments = 0` everywhere; after the requests enroll, withdraw,
withdraw of one user the simulation has `metrics.enrollments = -1`. -/
theorem enrollments_negative_reachable :
    emptyStore.enrollments = []
      ∧ (∀ s ∈ emptyStore.simulations, s.metrics.enrollments = 0)
      ∧ (findSimulation (runRequests withdrawTwice emptyStore) 10).map
          (fun s => s.metrics.enrollments) = some (-1) := by
  decide

/-- C13. For every stored enrollment in status `enrolled` or `in-progress` of a
stored simulation, `DELETE /:id` by the owner answers 200, stores the status
`dropped`, leaves `metrics.enrollments` of the simulation at its old value
minus 1, and keeps the number of enrollment records. -/
theorem withdraw_active (now : Time) (caller : User) (eid : Id) (st : Store)
    (e : Enrollment) (S : Simulation) (hfind : findEnrollment st eid = some e)
    (howner : e.userId = caller.id)
    (hstatus : e.status = Status.enrolled ∨ e.status = Status.inProgress)
    (hS : findSimulation st e.simulationId = some S) :
    (deleteEnrollment now caller eid st).1 = withdrawnReply
      ∧ (findEnrollment (deleteEnrollment now caller eid st).2 eid).map (fun x => x.status)
          = some Status.dropped
      ∧ (findSimulation (deleteEnrollment now caller eid st).2 e.simulationId).map
          (fun s => s.metrics.enrollments) = some (S.metrics.enrollments - 1)
      ∧ (deleteEnrollment now caller eid st).2.enrollments.length = st.enrollments.length := by
  have hne : e.status ≠ Status.completed := by
    rcases hstatus with h | h <;> rw [h] <;> decide
  have hid := findEnrollment_id st eid e hfind
  have hidw : (applyWithdraw e).id = eid := hid
  rw [deleteEnrollment_owner now caller eid st e hfind howner hne]
  refine ⟨rfl, ?_, ?_, ?_⟩
  · rw [findEnrollment_updateMetrics]
    have := findEnrollment_save now (applyWithdraw e) e st (by rw [hidw]; exact hfind)
    rw [hidw] at this
    rw [this]
    simp [preSave_status, applyWithdraw]
  · rw [findSimulation_updateMetrics, findSimulation_save, hS]
    rfl
  · exact saveEnrollment_length now (applyWithdraw e) st

/-- Witness of `withdraw_active`: `userOne` withdraws from the fresh enrollment 100. -/
theorem withdraw_active_witness :
    (deleteEnrollment 2 userOne 100 enrolledStore).1 = withdrawnReply
      ∧ (findEnrollment (deleteEnrollment 2 userOne 100 enrolledStore).2 100).map
          (fun x => x.status) = some Status.dropped
      ∧ (findSimulation (deleteEnrollment 2 userOne 100 enrolledStore).2 10).map
          (fun s => s.metrics.enrollments) = some 0 :=
  have h := withdraw_active 2 userOne 100 enrolledStore freshEnrollment
    { id := 10, isActive := true, metrics := { zeroMetrics with enrollments := 1 } }
    (by decide) (by decide) (Or.inl (by decide)) (by decide)
  ⟨h.1, h.2.1, h.2.2.1⟩

/-! ## The default of `isCompleted` -/

/-- C14, evaluated on the code. A progress request for `m1` that leaves
`isCompleted` out passes `validateProgressUpdate` and is answered 200, but the
handler reads the body as received: the completed-module list of the fresh
enrollment 100 stays empty and the status stays `enrolled`. The same request
with `isCompleted = true` stores `["m1"]` and `in-progress`, and so does the
model method `updateProgress` called without the flag. -/
theorem progress_without_flag_adds_nothing :
    validateProgressUpdate (bareBody "m1") = none
      ∧ (putProgress 2 userOne 100 (bareBody "m1") enrolledStore).1.code = 200
      ∧ (findEnrollment (putProgress 2 userOne 100 (bareBody "m1") enrolledStore).2 100).map
          (fun e => (e.progress.completedModules, e.status)) = some ([], Status.enrolled)
      ∧ (findEnrollment
          (putProgress 2 userOne 100 { bareBody "m1" with isCompleted := some true }
            enrolledStore).2 100).map
          (fun e => (e.progress.completedModules, e.status))
          = some (["m1"], Status.inProgress)
      ∧ ((updateProgress "m1" none freshEnrollment).progress.completedModules,
          (updateProgress "m1" none freshEnrollment).status) = (["m1"], Status.inProgress) := by
  decide

/-! ## `completedAt` -/

/-- C15, evaluated on the code. Enrollment 100 of `completedStore` has
`completedAt = 2`; a second `PUT /:id/complete` by the owner at time 3 stores
`completedAt = 3`: the handler assigns `new Date()` before the hook, whose own
guard `!this.completedAt` then has nothing left to protect. -/
theorem second_complete_rewrites_completedAt :
    (findEnrollment completedStore 100).map (fun e => e.completedAt) = some (some 2)
      ∧ (putComplete 3 userOne 100 completedStore).1.code = 200
      ∧ (findEnrollment (putComplete 3 userOne 100 completedStore).2 100).map
          (fun e => e.completedAt) = some (some 3) := by
  decide

/-! ## `startedAt` -/

/-- The document a request stores has the `startedAt` of the old one before the
hook runs: no route assigns `startedAt`. -/
theorem handle_find_startedAt (now : Time) (caller : User) (req : Request) (st : Store)
    (eid : Id) (e : Enrollment) (h : findEnrollment st eid = some e) :
    findEnrollment (handle now caller req st).2 eid = some e
      ∨ ∃ x, findEnrollment (handle now caller req st).2 eid = some (preSave now x)
          ∧ x.startedAt = e.startedAt := by
  rcases handle_find now caller req st eid e h with h2 | ⟨x, h2, _, hx⟩
  · left; exact h2
  · right
    refine ⟨x, h2, ?_⟩
    rcases hx with ⟨b, _, _, hx⟩ | ⟨_, hx⟩ | ⟨b, r, _, _, _, _, _, hx⟩ | ⟨_, _, hx⟩
    · rw [hx]; unfold applyProgress; rfl
    · rw [hx]; rfl
    · rw [hx]; rfl
    · rw [hx]; rfl

/-- One request and `startedAt`: a set value is kept; an unset value becomes
`now` when the request leaves the enrollment `in-progress` and it was not
before; an unset value stays unset when the request leaves the enrollment in
another status. -/
theorem startedAt_step (now : Time) (caller : User) (req : Request) (st : Store) (eid : Id)
    (e : Enrollment) (hfind : findEnrollment st eid = some e) :
    ∃ e2, findEnrollment (handle now caller req st).2 eid = some e2
      ∧ (∀ t, e.startedAt = some t → e2.startedAt = some t)
      ∧ (e.startedAt = none → e.status ≠ Status.inProgress → e2.status = Status.inProgress →
          e2.startedAt = some now)
      ∧ (e.startedAt = none → e2.status ≠ Status.inProgress → e2.startedAt = none) := by
  rcases handle_find_startedAt now caller req st eid e hfind with h | ⟨x, h, hx⟩
  · refine ⟨e, h, fun t ht => ht, ?_, fun hn _ => hn⟩
    intro _ hne hin
    exact absurd hin hne
  · refine ⟨preSave now x, h, ?_, ?_, ?_⟩
    · intro t ht
      rw [preSave_startedAt, hx, ht]
      simp
    · intro hn _ hin
      rw [preSave_status] at hin
      rw [preSave_startedAt, hx, hn]
      simp [hin]
    · intro hn hne
      rw [preSave_status] at hne
      rw [preSave_startedAt, hx, hn]
      simp [hne]

/-- Along a sequence of requests in which the enrollment is never `in-progress`,
an unset `startedAt` stays unset. -/
theorem startedAt_unset_along (eid : Id) (reqs : List (Time × User × Request)) :
    ∀ (st : Store) (e : Enrollment), findEnrollment st eid = some e → e.startedAt = none →
      (∀ k, k ≤ reqs.length →
        (findEnrollment (runRequests (reqs.take k) st) eid).map (fun x => x.status)
          ≠ some Status.inProgress) →
      (findEnrollment (runRequests reqs st) eid).map (fun x => x.startedAt) = some none := by
  induction reqs with
  | nil =>
    intro st e hfind hn _
    simp [runRequests, hfind, hn]
  | cons r rest ih =>
    intro st e hfind hn hnever
    obtain ⟨now, caller, req⟩ := r
    obtain ⟨e2, h2, _, _, hkeep⟩ := startedAt_step now caller req st eid e hfind
    have hstat : e2.status ≠ Status.inProgress := by
      have h1 := hnever 1 (by simp)
      simp only [List.take_succ_cons, List.take_zero, runRequests, h2, Option.map_some'] at h1
      exact fun hc => h1 (by rw [hc])
    have hrest : ∀ k, k ≤ rest.length →
        (findEnrollment (runRequests (rest.take k) (handle now caller req st).2) eid).map
          (fun x => x.status) ≠ some Status.inProgress := by
      intro k hk
      have := hnever (k + 1) (by simpa using hk)
      simpa only [List.take_succ_cons, runRequests] using this
    simpa only [runRequests] using
      ih (handle now caller req st).2 e2 h2 (hkeep hn hstat) hrest

/-- C16. For every stored enrollment and every request (any route, caller and
arguments): a `startedAt` that is set is not changed; when `startedAt` is unset
and the request moves the enrollment into `in-progress`, the save sets
`startedAt` to the current time; when the enrollment is not `in-progress`
afterwards, an unset `startedAt` stays unset. A new enrollment has `startedAt`
unset, and along every sequence of requests during which the enrollment is
never `in-progress`, `startedAt` is still unset at the end. -/
theorem startedAt_once (now : Time) (caller : User) (req : Request)
    (reqs : List (Time × User × Request)) (st : Store) (eid : Id) (e : Enrollment)
    (hfind : findEnrollment st eid = some e) :
    (∃ e2, findEnrollment (handle now caller req st).2 eid = some e2
        ∧ (∀ t, e.startedAt = some t → e2.startedAt = some t)
        ∧ (e.startedAt = none → e.status ≠ Status.inProgress →
            e2.status = Status.inProgress → e2.startedAt = some now)
        ∧ (e.startedAt = none → e2.status ≠ Status.inProgress → e2.startedAt = none))
      ∧ (∀ newId uid sid, (preSave now (newEnrollment newId now uid sid)).startedAt = none)
      ∧ (e.startedAt = none →
          (∀ k, k ≤ reqs.length →
            (findEnrollment (runRequests (reqs.take k) st) eid).map (fun x => x.status)
              ≠ some Status.inProgress) →
          (findEnrollment (runRequests reqs st) eid).map (fun x => x.startedAt)
            = some none) := by
  refine ⟨startedAt_step now caller req st eid e hfind, ?_, ?_⟩
  · intro newId uid sid
    rw [preSave_newEnrollment]
    rfl
  · exact startedAt_unset_along eid reqs st e hfind

/-- Witness of `startedAt_once`: the first completed module of the fresh
enrollment 100 at time 2 stores `startedAt = 2`, and a later progress request
at time 5 keeps it. -/
theorem startedAt_once_witness :
    (findEnrollment startedStore 100).map (fun x => x.startedAt) = some (some 2)
      ∧ ∃ e2, findEnrollment
          (handle 5 userOne (Request.progress 100 (scoreBody "m2" 90)) startedStore).2 100
            = some e2
        ∧ e2.startedAt = some 2 :=
  have h := startedAt_once 5 userOne (Request.progress 100 (scoreBody "m2" 90)) []
    startedStore 100 startedEnrollment (by with_unfolding_all decide)
  match h with
  | ⟨⟨e2, h2, hkeep, _, _⟩, _, _⟩ =>
    ⟨by with_unfolding_all decide, e2, h2, hkeep 2 (by with_unfolding_all decide)⟩

/-! ## Completing -/

/-- C17. For every stored enrollment of a stored simulation, whatever its
status (in particular any status other than `completed`), `PUT /:id/complete`
by its owner, a stored user, answers 200 and stores status `completed`,
`percentageComplete = 100` and `completedAt = now`; the simulation's
`metrics.completions` and the caller's `stats.simulationsCompleted` are their
old values plus 1 and `metrics.enrollments` is unchanged. -/
theorem complete_effects (now : Time) (caller : User) (eid : Id) (st : Store)
    (e : Enrollment) (S : Simulation) (u : User)
    (hfind : findEnrollment st eid = some e) (howner : e.userId = caller.id)
    (hS : findSimulation st e.simulationId = some S)
    (hU : findUser st caller.id = some u) :
    (putComplete now caller eid st).1.code = 200
      ∧ (∃ e2, findEnrollment (putComplete now caller eid st).2 eid = some e2
          ∧ (putComplete now caller eid st).1 = completedReply e2
          ∧ e2.status = Status.completed
          ∧ e2.progress.percentageComplete = 100
          ∧ e2.completedAt = some now)
      ∧ (findSimulation (putComplete now caller eid st).2 e.simulationId).map
          (fun s => s.metrics.completions) = some (S.metrics.completions + 1)
      ∧ (findSimulation (putComplete now caller eid st).2 e.simulationId).map
          (fun s => s.metrics.enrollments) = some S.metrics.enrollments
      ∧ (findUser (putComplete now caller eid st).2 caller.id).map
          (fun x => x.simulationsCompleted) = some (u.simulationsCompleted + 1) := by
  have hid := findEnrollment_id st eid e hfind
  have hidc : (applyComplete now e).id = eid := hid
  rw [putComplete_owner now caller eid st e hfind howner]
  refine ⟨rfl, ⟨preSave now (applyComplete now e), ?_, rfl, ?_, ?_, ?_⟩, ?_, ?_, ?_⟩
  · rw [findEnrollment_incSimulationsCompleted, findEnrollment_updateMetrics]
    have := findEnrollment_save now (applyComplete now e) e st (by rw [hidc]; exact hfind)
    rwa [hidc] at this
  · rw [preSave_status]
    rfl
  · simp [preSave, applyComplete]
  · rw [preSave_completedAt]
    simp [applyComplete]
  · rw [findSimulation_incSimulationsCompleted, findSimulation_updateMetrics,
      findSimulation_save, hS]
    rfl
  · rw [findSimulation_incSimulationsCompleted, findSimulation_updateMetrics,
      findSimulation_save, hS]
    rfl
  · rw [findUser_incSimulationsCompleted, findUser_updateMetrics, findUser_save, hU]
    rfl

/-- Witness of `complete_effects`: `userOne` completes the fresh enrollment 100
at time 2. -/
theorem complete_effects_witness :
    (putComplete 2 userOne 100 enrolledStore).1.code = 200
      ∧ (findSimulation (putComplete 2 userOne 100 enrolledStore).2 10).map
          (fun s => s.metrics.completions) = some 1
      ∧ (findUser (putComplete 2 userOne 100 enrolledStore).2 1).map
          (fun x => x.simulationsCompleted) = some 1 :=
  have h := complete_effects 2 userOne 100 enrolledStore freshEnrollment
    { id := 10, isActive := true, metrics := { zeroMetrics with enrollments := 1 } } userOne
    (by decide) (by decide) (by decide) (by decide)
  ⟨h.1, h.2.2.1, h.2.2.2.2⟩

/-! ## Ownership -/

/-- The replies of the four mutating routes to a caller who is not the owner. -/
theorem not_owner_denied (now : Time) (caller : User) (eid : Id) (st : Store)
    (e : Enrollment) (hfind : findEnrollment st eid = some e)
    (hnot : e.userId ≠ caller.id) :
    (∀ b, validateProgressUpdate b = none →
        (putProgress now caller eid b st).1 = accessDenied)
      ∧ (putComplete now caller eid st).1 = accessDenied
      ∧ (∀ b r, b.rating = some r → 1 ≤ r → r ≤ 5 →
          (putFeedback now caller eid b st).1 = accessDenied)
      ∧ (deleteEnrollment now caller eid st).1 = accessDenied := by
  refine ⟨?_, ?_, ?_, ?_⟩
  · intro b hv
    simp [putProgress, hv, progressHandler, hfind, hnot]
  · simp [putComplete, hfind, hnot]
  · intro b r hr hlo hhi
    have hne : r ≠ 0 := by
      intro h0
      rw [h0] at hlo
      exact absurd hlo (by norm_num)
    simp [putFeedback, hr, hne, not_lt.mpr hlo, not_lt.mpr hhi, hfind, hnot]
  · simp [deleteEnrollment, hfind, hnot]

/-- C18. When the caller is not the owner of a stored enrollment: progress,
completion, feedback and withdrawal requests on it return the store they
received, whatever the body; completion and withdrawal answer 403 "Access
denied", and so do a progress request whose body passes
`validateProgressUpdate` and a feedback request whose rating lies in 1..5. -/
theorem not_owner_forbidden (now : Time) (caller : User) (eid : Id) (st : Store)
    (e : Enrollment) (hfind : findEnrollment st eid = some e)
    (hnot : e.userId ≠ caller.id) :
    (∀ b, (putProgress now caller eid b st).2 = st
        ∧ (validateProgressUpdate b = none →
            (putProgress now caller eid b st).1 = accessDenied))
      ∧ putComplete now caller eid st = (accessDenied, st)
      ∧ (∀ b, (putFeedback now caller eid b st).2 = st
          ∧ (∀ r, b.rating = some r → 1 ≤ r → r ≤ 5 →
              (putFeedback now caller eid b st).1 = accessDenied))
      ∧ deleteEnrollment now caller eid st = (accessDenied, st) := by
  refine ⟨?_, ?_, ?_, ?_⟩
  · intro b
    cases hv : validateProgressUpdate b with
    | some key => simp [putProgress, hv]
    | none => simp [putProgress, hv, progressHandler, hfind, hnot]
  · simp [putComplete, hfind, hnot]
  · intro b
    constructor
    · cases hr : b.rating with
      | none => simp [putFeedback, hr]
      | some r =>
        by_cases hbad : r = 0 ∨ r < 1 ∨ 5 < r
        · simp [putFeedback, hr, hbad]
        · simp [putFeedback, hr, hbad, hfind, hnot]
    · intro r hr hlo hhi
      have hne : r ≠ 0 := by
        intro h0
        rw [h0] at hlo
        exact absurd hlo (by norm_num)
      simp [putFeedback, hr, hne, not_lt.mpr hlo, not_lt.mpr hhi, hfind, hnot]
  · simp [deleteEnrollment, hfind, hnot]

/-- Witness of `not_owner_forbidden`: `userTwo` on enrollment 100 of `userOne`. -/
theorem not_owner_forbidden_witness :
    putComplete 2 userTwo 100 enrolledStore = (accessDenied, enrolledStore)
      ∧ deleteEnrollment 2 userTwo 100 enrolledStore = (accessDenied, enrolledStore) :=
  have h := not_owner_forbidden 2 userTwo 100 enrolledStore freshEnrollment
    (by decide) (by decide)
  ⟨h.2.1, h.2.2.2⟩

/-! ## Who is answered "Access denied" -/

theorem findUser_id (st : Store) (uid : Id) (u : User) (h : findUser st uid = some u) :
    u.id = uid := by
  have := List.find?_some h
  simpa using this

/-- C19 as stated fails: an administrator who does not own enrollment 100 is
answered 403 "Access denied" by the completion, progress, feedback and
withdrawal routes, while the read route answers 200. -/
theorem admin_is_denied :
    adminUser.role = Role.admin
      ∧ (putComplete 2 adminUser 100 enrolledStore).1 = accessDenied
      ∧ (putProgress 2 adminUser 100 (scoreBody "m1" 80) enrolledStore).1 = accessDenied
      ∧ (putFeedback 2 adminUser 100 (ratingBody 5) completedStore).1 = accessDenied
      ∧ (deleteEnrollment 2 adminUser 100 enrolledStore).1 = accessDenied
      ∧ getEnrollment adminUser 100 enrolledStore = some (foundReply freshEnrollment) := by
  with_unfolding_all decide

/-- C19, amended. For every stored enrollment: the read route answers 403
exactly when the caller is neither the owner nor an administrator (the owner
being a stored user); the progress route (body passing validation), the
completion route, the feedback route (rating in 1..5) and the withdrawal route
answer 403 exactly when the caller is not the owner, administrator or not. -/
theorem forbidden_iff (now : Time) (caller : User) (eid : Id) (st : Store) (e : Enrollment)
    (hfind : findEnrollment st eid = some e) :
    (∀ owner, findUser st e.userId = some owner →
        (getEnrollment caller eid st = some accessDenied
          ↔ (e.userId ≠ caller.id ∧ caller.role ≠ Role.admin)))
      ∧ (∀ b, validateProgressUpdate b = none →
          ((putProgress now caller eid b st).1 = accessDenied ↔ e.userId ≠ caller.id))
      ∧ ((putComplete now caller eid st).1 = accessDenied ↔ e.userId ≠ caller.id)
      ∧ (∀ b r, b.rating = some r → 1 ≤ r → r ≤ 5 →
          ((putFeedback now caller eid b st).1 = accessDenied ↔ e.userId ≠ caller.id))
      ∧ ((deleteEnrollment now caller eid st).1 = accessDenied ↔ e.userId ≠ caller.id) := by
  have hdenied := fun hnot => not_owner_denied now caller eid st e hfind hnot
  refine ⟨?_, ?_, ?_, ?_, ?_⟩
  · intro owner howner
    have hid := findUser_id st e.userId owner howner
    by_cases hc : owner.id ≠ caller.id ∧ caller.role ≠ Role.admin
    · have hc2 : e.userId ≠ caller.id ∧ caller.role ≠ Role.admin := by rwa [hid] at hc
      simp [getEnrollment, hfind, howner, hc, hc2]
    · have hc2 : ¬ (e.userId ≠ caller.id ∧ caller.role ≠ Role.admin) := by rwa [hid] at hc
      simp only [getEnrollment, hfind, howner, if_neg hc, hc2, iff_false]
      intro h
      simp [foundReply, accessDenied] at h
  · intro b hv
    constructor
    · intro h hown
      rw [putProgress_owner now caller eid b st e hfind hown hv] at h
      simp [progressReply, accessDenied] at h
    · intro hnot
      exact (hdenied hnot).1 b hv
  · constructor
    · intro h hown
      rw [putComplete_owner now caller eid st e hfind hown] at h
      simp [completedReply, accessDenied] at h
    · intro hnot
      exact (hdenied hnot).2.1
  · intro b r hr hlo hhi
    constructor
    · intro h hown
      by_cases hst : e.status = Status.completed
      · rw [putFeedback_owner now caller eid b st e r hfind hown hst hr hlo hhi] at h
        simp [feedbackReply, accessDenied] at h
      · have hne : r ≠ 0 := by
          intro h0
          rw [h0] at hlo
          exact absurd hlo (by norm_num)
        have h2 : putFeedback now caller eid b st = (reviewNotCompleted, st) := by
          simp [putFeedback, hr, hfind, hown, hst, hne, not_lt.mpr hlo, not_lt.mpr hhi]
        rw [h2] at h
        simp [reviewNotCompleted, accessDenied] at h
    · intro hnot
      exact (hdenied hnot).2.2.1 b r hr hlo hhi
  · constructor
    · intro h hown
      by_cases hst : e.status = Status.completed
      · have h2 : deleteEnrollment now caller eid st = (withdrawCompleted, st) := by
          simp [deleteEnrollment, hfind, hown, hst]
        rw [h2] at h
        simp [withdrawCompleted, accessDenied] at h
      · rw [deleteEnrollment_owner now caller eid st e hfind hown hst] at h
        simp [withdrawnReply, accessDenied] at h
    · intro hnot
      exact (hdenied hnot).2.2.2

/-- Witness of `forbidden_iff`: `userTwo`, neither owner nor administrator, is
denied the completion of enrollment 100. -/
theorem forbidden_iff_witness :
    (putComplete 2 userTwo 100 enrolledStore).1 = accessDenied :=
  (forbidden_iff 2 userTwo 100 enrolledStore freshEnrollment (by decide)).2.2.1.mpr
    (by decide)

/-! ## Enrolling in a missing or inactive simulation -/

/-- C20. When simulation `sid` is not stored, or is stored with
`isActive = false`, `POST /api/enrollments` answers 404 "Simulation not found"
and returns the store it received: no enrollment is created and no metrics
change. This holds whether or not the caller already has an enrollment for
`sid`: the reply is never the 400 "already enrolled". -/
theorem enroll_not_found (newId : Id) (now : Time) (caller : User) (sid : Id) (st : Store)
    (h : findSimulation st sid = none
      ∨ ∃ S, findSimulation st sid = some S ∧ S.isActive = false) :
    postEnrollment newId now caller sid st = (simulationNotFound, st)
      ∧ (postEnrollment newId now caller sid st).2.enrollments = st.enrollments
      ∧ (postEnrollment newId now caller sid st).2.simulations = st.simulations
      ∧ (postEnrollment newId now caller sid st).1 ≠ alreadyEnrolled := by
  have hpost : postEnrollment newId now caller sid st = (simulationNotFound, st) := by
    rcases h with h | ⟨S, hS, hoff⟩
    · simp [postEnrollment, h]
    · simp [postEnrollment, hS, hoff]
  rw [hpost]
  refine ⟨rfl, rfl, rfl, ?_⟩
  simp [simulationNotFound, alreadyEnrolled]

/-- Witness of `enroll_not_found`: `userOne`, who already has enrollment 100 for
simulation 10, enrolls again after the simulation has been deactivated. -/
theorem enroll_not_found_witness :
    (findOneEnrollment inactiveStore 1 10).isSome = true
      ∧ postEnrollment 101 2 userOne 10 inactiveStore = (simulationNotFound, inactiveStore) :=
  ⟨by decide,
    (enroll_not_found 101 2 userOne 10 inactiveStore
      (Or.inr ⟨{ id := 10, isActive := false, metrics := { zeroMetrics with enrollments := 1 } },
        by decide, rfl⟩)).1⟩

/-! ## What each request does to the list of enrollments -/

theorem saveEnrollment_enrollments (now : Time) (x : Enrollment) (st : Store) :
    (saveEnrollment now x st).2.enrollments =
      updateFirst (fun y => y.id == x.id) (fun _ => preSave now x) st.enrollments := by
  simp [saveEnrollment, preSave_id]

/-- The list of enrollments after any request: unchanged, or extended by the new
enrollment of a successful enroll request, or with the first document of the
target id rewritten by the hook applied to the route's mutation. -/
theorem handle_enrollments (now : Time) (caller : User) (req : Request) (st : Store) :
    (handle now caller req st).2.enrollments = st.enrollments
      ∨ (∃ newId sid, req = Request.enroll newId sid
          ∧ findOneEnrollment st caller.id sid = none
          ∧ (handle now caller req st).2.enrollments
              = st.enrollments ++ [newEnrollment newId now caller.id sid])
      ∨ (∃ eid e x, findEnrollment st eid = some e
          ∧ (handle now caller req st).2.enrollments
              = updateFirst (fun y => y.id == eid) (fun _ => preSave now x) st.enrollments
          ∧ ((∃ b, req = Request.progress eid b ∧ validateProgressUpdate b = none
                ∧ x = applyProgress now b e)
            ∨ (req = Request.complete eid ∧ x = applyComplete now e)
            ∨ (∃ b r, req = Request.feedback eid b ∧ b.rating = some r ∧ 1 ≤ r ∧ r ≤ 5
                ∧ e.status = Status.completed ∧ x = applyFeedback now r b e)
            ∨ (req = Request.withdraw eid ∧ e.status ≠ Status.completed
                ∧ x = applyWithdraw e))) := by
  cases req with
  | enroll newId sid =>
    simp only [handle]
    cases hS : findSimulation st sid with
    | none => left; simp [postEnrollment, hS]
    | some S =>
      by_cases hact : S.isActive = true
      · cases hE : findOneEnrollment st caller.id sid with
        | some x => left; simp [postEnrollment, hS, hact, hE]
        | none =>
          right; left
          refine ⟨newId, sid, rfl, hE, ?_⟩
          simp [postEnrollment, hS, hact, hE, insertEnrollment, preSave_newEnrollment,
            updateMetrics]
      · left; simp [postEnrollment, hS, hact]
  | progress eid b =>
    simp only [handle]
    cases hv : validateProgressUpdate b with
    | some key => left; simp [putProgress, hv]
    | none =>
      cases hf : findEnrollment st eid with
      | none => left; simp [putProgress, hv, progressHandler, hf]
      | some e =>
        by_cases how : e.userId = caller.id
        · right; right
          refine ⟨eid, e, applyProgress now b e, hf, ?_, Or.inl ⟨b, rfl, hv, rfl⟩⟩
          rw [putProgress_owner now caller eid b st e hf how hv, saveEnrollment_enrollments,
            applyProgress_id, findEnrollment_id st eid e hf]
        · left; simp [putProgress, hv, progressHandler, hf, how]
  | complete eid =>
    simp only [handle]
    cases hf : findEnrollment st eid with
    | none => left; simp [putComplete, hf]
    | some e =>
      by_cases how : e.userId = caller.id
      · right; right
        refine ⟨eid, e, applyComplete now e, hf, ?_, Or.inr (Or.inl ⟨rfl, rfl⟩)⟩
        rw [putComplete_owner now caller eid st e hf how]
        have hid : (applyComplete now e).id = eid := findEnrollment_id st eid e hf
        show (saveEnrollment now (applyComplete now e) st).2.enrollments = _
        rw [saveEnrollment_enrollments, hid]
      · left; simp [putComplete, hf, how]
  | feedback eid b =>
    simp only [handle]
    cases hr : b.rating with
    | none => left; simp [putFeedback, hr]
    | some r =>
      by_cases hbad : r = 0 ∨ r < 1 ∨ 5 < r
      · left; simp [putFeedback, hr, hbad]
      · have hlo : 1 ≤ r := not_lt.mp (fun hlt => hbad (Or.inr (Or.inl hlt)))
        have hhi : r ≤ 5 := not_lt.mp (fun hlt => hbad (Or.inr (Or.inr hlt)))
        cases hf : findEnrollment st eid with
        | none => left; simp [putFeedback, hr, hbad, hf]
        | some e =>
          by_cases how : e.userId = caller.id
          · by_cases hst : e.status = Status.completed
            · right; right
              refine ⟨eid, e, applyFeedback now r b e, hf, ?_,
                Or.inr (Or.inr (Or.inl ⟨b, r, rfl, hr, hlo, hhi, hst, rfl⟩))⟩
              rw [putFeedback_owner now caller eid b st e r hf how hst hr hlo hhi]
              have hid : (applyFeedback now r b e).id = eid := findEnrollment_id st eid e hf
              show (saveEnrollment now (applyFeedback now r b e) st).2.enrollments = _
              rw [saveEnrollment_enrollments, hid]
            · left; simp [putFeedback, hr, hbad, hf, how, hst]
          · left; simp [putFeedback, hr, hbad, hf, how]
  | withdraw eid =>
    simp only [handle]
    cases hf : findEnrollment st eid with
    | none => left; simp [deleteEnrollment, hf]
    | some e =>
      by_cases how : e.userId = caller.id
      · by_cases hst : e.status = Status.completed
        · left; simp [deleteEnrollment, hf, how, hst]
        · right; right
          refine ⟨eid, e, applyWithdraw e, hf, ?_, Or.inr (Or.inr (Or.inr ⟨rfl, hst, rfl⟩))⟩
          rw [deleteEnrollment_owner now caller eid st e hf how hst]
          have hid : (applyWithdraw e).id = eid := findEnrollment_id st eid e hf
          show (saveEnrollment now (applyWithdraw e) st).2.enrollments = _
          rw [saveEnrollment_enrollments, hid]
      · left; simp [deleteEnrollment, hf, how]

/-- Rewriting the first match of `find?` by a document with the same image
under `g` leaves the list of images as it is. -/
theorem map_updateFirst_of_find {α β : Type} (p : α → Bool) (g : α → β) (s : α) :
    ∀ (l : List α) (e : α), l.find? p = some e → g s = g e →
      (updateFirst p (fun _ => s) l).map g = l.map g := by
  intro l
  induction l with
  | nil => intro e h; simp at h
  | cons x xs ih =>
    intro e h hg
    unfold updateFirst
    by_cases hp : p x = true
    · have hx : x = e := by simpa [List.find?_cons, hp] using h
      subst hx
      simp [hp, hg]
    · have h2 : xs.find? p = some e := by simpa [List.find?_cons, hp] using h
      simp [hp, ih e h2 hg]

/-- Every element of a list with its first match rewritten is an old element or
the new document. -/
theorem mem_updateFirst {α : Type} (p : α → Bool) (s : α) (l : List α) (y : α)
    (h : y ∈ updateFirst p (fun _ => s) l) : y ∈ l ∨ y = s := by
  induction l with
  | nil => simp [updateFirst] at h
  | cons x xs ih =>
    unfold updateFirst at h
    by_cases hp : p x = true
    · simp only [hp, if_true, List.mem_cons] at h
      rcases h with h | h
      · right; exact h
      · left; exact List.mem_cons_of_mem _ h
    · simp only [hp, Bool.false_eq_true, if_false, List.mem_cons] at h
      rcases h with h | h
      · left; rw [h]; exact List.mem_cons_self _ _
      · rcases ih h with h2 | h2
        · left; exact List.mem_cons_of_mem _ h2
        · right; exact h2

/-! ## One enrollment per user and simulation -/

theorem findOneEnrollment_eq_none_iff_pairs (st : Store) (uid sid : Id) :
    findOneEnrollment st uid sid = none ↔ (uid, sid) ∉ enrollmentPairs st := by
  simp only [findOneEnrollment, enrollmentPairs, List.find?_eq_none, List.mem_map, not_exists,
    not_and]
  constructor
  · intro h x hx hpair
    have h1 := h x hx
    have h2 := Prod.mk.inj hpair
    simp [h2.1, h2.2] at h1
  · intro h x hx
    have h1 := h x hx
    intro hc
    simp only [Bool.and_eq_true, beq_iff_eq] at hc
    exact h1 (by rw [hc.1, hc.2])

/-- A successful enroll request: reply and store. -/
theorem postEnrollment_new (newId : Id) (now : Time) (caller : User) (sid : Id) (st : Store)
    (S : Simulation) (hS : findSimulation st sid = some S) (hactive : S.isActive = true)
    (hnone : findOneEnrollment st caller.id sid = none) :
    postEnrollment newId now caller sid st =
      (enrolledReply (newEnrollment newId now caller.id sid),
        updateMetrics
          { st with enrollments := st.enrollments ++ [newEnrollment newId now caller.id sid] }
          sid (fun m => { m with enrollments := m.enrollments + 1 })) := by
  simp [postEnrollment, hS, hactive, hnone, insertEnrollment, preSave_newEnrollment]

/-- An enroll request for an active simulation in which the caller already has
an enrollment, in whatever status. -/
theorem postEnrollment_existing (newId : Id) (now : Time) (caller : User) (sid : Id)
    (st : Store) (S : Simulation) (x : Enrollment) (hS : findSimulation st sid = some S)
    (hactive : S.isActive = true) (hsome : findOneEnrollment st caller.id sid = some x) :
    postEnrollment newId now caller sid st = (alreadyEnrolled, st) := by
  simp [postEnrollment, hS, hactive, hsome]

/-- Every request keeps the list of (user, simulation) pairs, or appends a pair
that was not in it. -/
theorem handle_pairs (now : Time) (caller : User) (req : Request) (st : Store) :
    enrollmentPairs (handle now caller req st).2 = enrollmentPairs st
      ∨ ∃ sid, (caller.id, sid) ∉ enrollmentPairs st
          ∧ enrollmentPairs (handle now caller req st).2
              = enrollmentPairs st ++ [(caller.id, sid)] := by
  rcases handle_enrollments now caller req st with h | ⟨newId, sid, _, hnone, h⟩ |
    ⟨eid, e, x, hfind, h, hx⟩
  · left
    simp only [enrollmentPairs, h]
  · right
    refine ⟨sid, (findOneEnrollment_eq_none_iff_pairs st caller.id sid).mp hnone, ?_⟩
    simp [enrollmentPairs, h, newEnrollment]
  · left
    simp only [enrollmentPairs, h]
    apply map_updateFirst_of_find _ _ _ _ e hfind
    rw [preSave_userId, preSave_simulationId]
    rcases hx with ⟨b, _, _, hx⟩ | ⟨_, hx⟩ | ⟨b, r, _, _, _, _, _, hx⟩ | ⟨_, _, hx⟩
    · rw [hx]; unfold applyProgress; rfl
    · rw [hx]; rfl
    · rw [hx]; rfl
    · rw [hx]; rfl

/-- Along every sequence of requests the (user, simulation) pairs stay distinct. -/
theorem runRequests_pairs_nodup (reqs : List (Time × User × Request)) :
    ∀ st : Store, (enrollmentPairs st).Nodup → (enrollmentPairs (runRequests reqs st)).Nodup := by
  induction reqs with
  | nil => intro st h; exact h
  | cons r rest ih =>
    intro st h
    obtain ⟨now, caller, req⟩ := r
    simp only [runRequests]
    apply ih
    rcases handle_pairs now caller req st with h2 | ⟨sid, hnot, h2⟩
    · rw [h2]; exact h
    · rw [h2, List.nodup_append]
      refine ⟨h, List.nodup_singleton _, ?_⟩
      intro a ha hb
      rw [List.mem_singleton] at hb
      exact hnot (hb ▸ ha)

/-- C21. Let the caller have no enrollment for the active simulation `sid`, and
let `newId` be a fresh id. After enroll and withdraw the enrollment is stored
with status `dropped`, and a further enroll request answers 400 "already
enrolled" and returns the store it received (no second record, metrics
unchanged). More generally an existing enrollment of the caller for `sid`, in
any status, makes the enroll request answer 400 and change nothing; and along
every sequence of requests from a store whose (user, simulation) pairs are
distinct, in particular from a store without enrollments, the pairs stay
distinct. -/
theorem reenroll_blocked (st : Store) (caller : User) (sid : Id) (S : Simulation)
    (newId newId2 : Id) (now1 now2 now3 : Time) (reqs : List (Time × User × Request))
    (hS : findSimulation st sid = some S) (hactive : S.isActive = true)
    (hnone : findOneEnrollment st caller.id sid = none)
    (hfresh : findEnrollment st newId = none) :
    (findEnrollment (enrollThenWithdraw newId now1 now2 caller sid st) newId).map
        (fun e => e.status) = some Status.dropped
      ∧ postEnrollment newId2 now3 caller sid (enrollThenWithdraw newId now1 now2 caller sid st)
          = (alreadyEnrolled, enrollThenWithdraw newId now1 now2 caller sid st)
      ∧ (∀ (st2 : Store) (S2 : Simulation) (x : Enrollment),
          findSimulation st2 sid = some S2 → S2.isActive = true →
          findOneEnrollment st2 caller.id sid = some x →
          postEnrollment newId2 now3 caller sid st2 = (alreadyEnrolled, st2))
      ∧ ((enrollmentPairs st).Nodup → (enrollmentPairs (runRequests reqs st)).Nodup)
      ∧ (enrollmentPairs { st with enrollments := [] }).Nodup := by
  have hpost := postEnrollment_new newId now1 caller sid st S hS hactive hnone
  have hfind1 : findEnrollment (postEnrollment newId now1 caller sid st).2 newId
      = some (newEnrollment newId now1 caller.id sid) := by
    rw [hpost]
    unfold findEnrollment at hfresh ⊢
    simp only [updateMetrics]
    rw [List.find?_append, hfresh]
    simp [newEnrollment]
  have hdel := deleteEnrollment_owner now2 caller newId
    (postEnrollment newId now1 caller sid st).2 (newEnrollment newId now1 caller.id sid) hfind1
    rfl (by simp [newEnrollment])
  have hfind2 : findEnrollment (enrollThenWithdraw newId now1 now2 caller sid st) newId
      = some (preSave now2 (applyWithdraw (newEnrollment newId now1 caller.id sid))) := by
    unfold enrollThenWithdraw
    rw [hdel, findEnrollment_updateMetrics]
    exact findEnrollment_save now2 (applyWithdraw (newEnrollment newId now1 caller.id sid))
      (newEnrollment newId now1 caller.id sid) _ hfind1
  have hsim : ∃ S2, findSimulation (enrollThenWithdraw newId now1 now2 caller sid st) sid
      = some S2 ∧ S2.isActive = true := by
    unfold enrollThenWithdraw
    rw [hdel]
    have h1 : findSimulation (postEnrollment newId now1 caller sid st).2 sid
        = some { S with metrics := { S.metrics with enrollments := S.metrics.enrollments + 1 } } := by
      rw [hpost, findSimulation_updateMetrics]
      have : findSimulation
          { st with enrollments := st.enrollments ++ [newEnrollment newId now1 caller.id sid] }
          sid = some S := hS
      rw [this]
      rfl
    have hsid : (newEnrollment newId now1 caller.id sid).simulationId = sid := rfl
    rw [hsid, findSimulation_updateMetrics, findSimulation_save, h1]
    exact ⟨_, rfl, hactive⟩
  have hpairs : (caller.id, sid) ∈
      enrollmentPairs (enrollThenWithdraw newId now1 now2 caller sid st) := by
    have hp1 : (caller.id, sid) ∈ enrollmentPairs (postEnrollment newId now1 caller sid st).2 := by
      rw [hpost]
      simp [enrollmentPairs, updateMetrics, newEnrollment]
    have hstep := handle_pairs now2 caller (Request.withdraw newId)
      (postEnrollment newId now1 caller sid st).2
    have heq : (handle now2 caller (Request.withdraw newId)
        (postEnrollment newId now1 caller sid st).2).2
        = enrollThenWithdraw newId now1 now2 caller sid st := rfl
    rw [heq] at hstep
    rcases hstep with h | ⟨sid2, _, h⟩
    · rw [h]; exact hp1
    · rw [h]; exact List.mem_append_left _ hp1
  have hexists : ∃ x, findOneEnrollment (enrollThenWithdraw newId now1 now2 caller sid st)
      caller.id sid = some x := by
    cases hx : findOneEnrollment (enrollThenWithdraw newId now1 now2 caller sid st)
        caller.id sid with
    | none => exact absurd hpairs ((findOneEnrollment_eq_none_iff_pairs _ _ _).mp hx)
    | some x => exact ⟨x, rfl⟩
  refine ⟨?_, ?_, ?_, runRequests_pairs_nodup reqs st, ?_⟩
  · rw [hfind2]
    simp [preSave_status, applyWithdraw]
  · obtain ⟨S2, hS2, hact2⟩ := hsim
    obtain ⟨x, hx⟩ := hexists
    exact postEnrollment_existing newId2 now3 caller sid _ S2 x hS2 hact2 hx
  · intro st2 S2 x hS2 hact2 hx
    exact postEnrollment_existing newId2 now3 caller sid st2 S2 x hS2 hact2 hx
  · simp [enrollmentPairs]

/-- Witness of `reenroll_blocked`: `userOne` enrolls in simulation 10, withdraws
and enrolls again. -/
theorem reenroll_blocked_witness :
    postEnrollment 101 3 userOne 10 (enrollThenWithdraw 100 1 2 userOne 10 emptyStore)
      = (alreadyEnrolled, enrollThenWithdraw 100 1 2 userOne 10 emptyStore) :=
  (reenroll_blocked emptyStore userOne 10 { id := 10, isActive := true, metrics := zeroMetrics }
    100 101 1 2 3 [] (by decide) (by decide) (by decide) (by decide)).2.1

/-! ## The result of a feedback request, in exact arithmetic -/

/-- A successful feedback request: the stored enrollment, the list of
enrollments, and the recomputed metrics of the stored simulation. -/
theorem putFeedback_result (now : Time) (caller : User) (eid : Id) (b : FeedbackBody)
    (st : Store) (e : Enrollment) (r : ℚ) (S : Simulation)
    (hfind : findEnrollment st eid = some e) (howner : e.userId = caller.id)
    (hstatus : e.status = Status.completed)
    (hrating : b.rating = some r) (hlo : 1 ≤ r) (hhi : r ≤ 5)
    (hS : findSimulation st e.simulationId = some S) :
    (putFeedback now caller eid b st).1 = feedbackReply (preSave now (applyFeedback now r b e))
      ∧ findEnrollment (putFeedback now caller eid b st).2 eid
          = some (preSave now (applyFeedback now r b e))
      ∧ (putFeedback now caller eid b st).2.enrollments
          = updateFirst (fun y => y.id == eid) (fun _ => preSave now (applyFeedback now r b e))
              st.enrollments
      ∧ findSimulation (putFeedback now caller eid b st).2 e.simulationId
          = some { S with metrics := { S.metrics with
              averageRating :=
                ((⌊10 * ((ratingsOf (putFeedback now caller eid b st).2 e.simulationId).sum /
                    (ratingsOf (putFeedback now caller eid b st).2 e.simulationId).length)
                  + 1 / 2⌋ : ℤ) : ℚ) / 10,
              totalReviews :=
                ((ratingsOf (putFeedback now caller eid b st).2 e.simulationId).length : ℤ) } } := by
  have hstep := putFeedback_owner now caller eid b st e r hfind howner hstatus hrating hlo hhi
  have hid : (applyFeedback now r b e).id = eid := findEnrollment_id st eid e hfind
  have hsaved : findEnrollment (saveEnrollment now (applyFeedback now r b e) st).2 eid
      = some (preSave now (applyFeedback now r b e)) := by
    have := findEnrollment_save now (applyFeedback now r b e) e st (by rw [hid]; exact hfind)
    rwa [hid] at this
  have hratings : ratingsOf (putFeedback now caller eid b st).2 e.simulationId
      = ratingsOf (saveEnrollment now (applyFeedback now r b e) st).2 e.simulationId := by
    rw [hstep]
    rfl
  rw [hratings]
  rw [hstep]
  refine ⟨rfl, ?_, ?_, ?_⟩
  · rw [findEnrollment_updateMetrics]
    exact hsaved
  · show (saveEnrollment now (applyFeedback now r b e) st).2.enrollments = _
    rw [saveEnrollment_enrollments, hid]
  · simp only [findSimulation_updateMetrics, findSimulation_save, hS, Option.map_some',
      length_rated, totalRating_rated, jsRound]
    congr 5
    ring_nf

/-! ## `percentageComplete` -/

theorem preSave_percentage (now : Time) (x : Enrollment) :
    (preSave now x).progress.percentageComplete =
      if x.status = Status.completed ∧ x.completedAt = none then 100
      else x.progress.percentageComplete := by
  unfold preSave
  dsimp only
  split_ifs <;> rfl

theorem preSave_timeSpent (now : Time) (x : Enrollment) :
    (preSave now x).progress.timeSpent = x.progress.timeSpent := by
  unfold preSave
  dsimp only
  split_ifs <;> rfl

theorem preSave_lastAccessed (now : Time) (x : Enrollment) :
    (preSave now x).progress.lastAccessed = x.progress.lastAccessed := by
  unfold preSave
  dsimp only
  split_ifs <;> rfl

/-- The hook establishes the percentage invariant on every document whose
percentage is 100 only in status `completed`. -/
theorem percentInv_preSave (now : Time) (x : Enrollment)
    (h : x.progress.percentageComplete = 100 → x.status = Status.completed) :
    percentInv (preSave now x) := by
  unfold percentInv
  rw [preSave_percentage, preSave_status, preSave_completedAt]
  by_cases hc : x.status = Status.completed ∧ x.completedAt = none
  · simp [hc]
  · simp only [hc, if_false]
    refine ⟨h, ?_⟩
    intro hst hnone
    exact hc ⟨hst, hnone⟩

theorem percentInv_newEnrollment (newId : Id) (now : Time) (uid sid : Id) :
    percentInv (newEnrollment newId now uid sid) := by
  unfold percentInv
  simp [newEnrollment]

/-- The document a request stores satisfies the percentage invariant when the
old one does. -/
theorem percentInv_mutation (now : Time) (req : Request) (eid : Id) (e x : Enrollment)
    (hinv : percentInv e)
    (hx : (∃ b, req = Request.progress eid b ∧ validateProgressUpdate b = none
            ∧ x = applyProgress now b e)
        ∨ (req = Request.complete eid ∧ x = applyComplete now e)
        ∨ (∃ b r, req = Request.feedback eid b ∧ b.rating = some r ∧ 1 ≤ r ∧ r ≤ 5
            ∧ e.status = Status.completed ∧ x = applyFeedback now r b e)
        ∨ (req = Request.withdraw eid ∧ e.status ≠ Status.completed
            ∧ x = applyWithdraw e)) :
    percentInv (preSave now x) := by
  apply percentInv_preSave
  rcases hx with ⟨b, _, _, hx⟩ | ⟨_, hx⟩ | ⟨b, r, _, _, _, _, _, hx⟩ | ⟨_, hnc, hx⟩
  · intro hp
    have hp2 : e.progress.percentageComplete = 100 := by
      rw [hx] at hp
      unfold applyProgress at hp
      exact hp
    have hst := hinv.1 hp2
    rw [hx, applyProgress_status_of_ne now b e (by rw [hst]; decide)]
    exact hst
  · intro _
    rw [hx]
    rfl
  · intro hp
    rw [hx] at hp ⊢
    exact hinv.1 hp
  · intro hp
    rw [hx] at hp
    exact absurd (hinv.1 hp) hnc

/-- Every request keeps the percentage invariant on all stored enrollments. -/
theorem percentInv_handle (now : Time) (caller : User) (req : Request) (st : Store)
    (hinv : ∀ e ∈ st.enrollments, percentInv e) :
    ∀ e ∈ (handle now caller req st).2.enrollments, percentInv e := by
  intro y hy
  rcases handle_enrollments now caller req st with h | ⟨newId, sid, _, _, h⟩ |
    ⟨eid, e, x, hfind, h, hx⟩
  · rw [h] at hy
    exact hinv y hy
  · rw [h, List.mem_append, List.mem_singleton] at hy
    rcases hy with hy | hy
    · exact hinv y hy
    · rw [hy]
      exact percentInv_newEnrollment newId now caller.id sid
  · rw [h] at hy
    rcases mem_updateFirst _ _ _ _ hy with hy | hy
    · exact hinv y hy
    · rw [hy]
      exact percentInv_mutation now req eid e x (hinv e (List.mem_of_find?_eq_some hfind)) hx

theorem percentInv_runRequests (reqs : List (Time × User × Request)) :
    ∀ st : Store, (∀ e ∈ st.enrollments, percentInv e) →
      ∀ e ∈ (runRequests reqs st).enrollments, percentInv e := by
  induction reqs with
  | nil => intro st h; exact h
  | cons r rest ih =>
    intro st h
    obtain ⟨now, caller, req⟩ := r
    simp only [runRequests]
    exact ih _ (percentInv_handle now caller req st h)

/-- C23. From a store in which every enrollment satisfies the percentage
invariant (in particular a store without enrollments; a new enrollment
satisfies it), after every sequence of requests every stored enrollment has
`percentageComplete = 100` only if its status is `completed`; and a progress or
withdrawal request (any caller, target and body) leaves the
`percentageComplete` of every stored enrollment as it is. -/
theorem percentage_only_completed (now : Time) (caller : User) (req : Request)
    (reqs : List (Time × User × Request)) (st : Store)
    (hinv : ∀ e ∈ st.enrollments, percentInv e) :
    (∀ e ∈ (runRequests reqs st).enrollments,
        e.progress.percentageComplete = 100 → e.status = Status.completed)
      ∧ (∀ newId uid sid, percentInv (newEnrollment newId now uid sid))
      ∧ (∀ e ∈ ({ st with enrollments := [] } : Store).enrollments, percentInv e)
      ∧ (((∃ eid2 b, req = Request.progress eid2 b) ∨ (∃ eid2, req = Request.withdraw eid2)) →
          ∀ eid e, findEnrollment st eid = some e →
            ∃ e2, findEnrollment (handle now caller req st).2 eid = some e2
              ∧ e2.progress.percentageComplete = e.progress.percentageComplete) := by
  refine ⟨fun e he => (percentInv_runRequests reqs st hinv e he).1,
    fun newId uid sid => percentInv_newEnrollment newId now uid sid, ?_, ?_⟩
  · intro e he
    simp at he
  · intro hreq eid e hfind
    have hinve := hinv e (List.mem_of_find?_eq_some hfind)
    rcases handle_find now caller req st eid e hfind with h | ⟨x, h, _, hx⟩
    · exact ⟨e, h, rfl⟩
    · refine ⟨preSave now x, h, ?_⟩
      rw [preSave_percentage]
      rcases hx with ⟨b, _, _, hx⟩ | ⟨hc, _⟩ | ⟨b, r, hf, _⟩ | ⟨_, _, hx⟩
      · have hpct : x.progress.percentageComplete = e.progress.percentageComplete := by
          rw [hx]; unfold applyProgress; rfl
        by_cases hst : e.status = Status.completed
        · have hxs : x.status = Status.completed := by
            rw [hx, applyProgress_status_of_ne now b e (by rw [hst]; decide)]
            exact hst
          have hca : x.completedAt = e.completedAt := by
            rw [hx]; unfold applyProgress; rfl
          have : ¬ (x.status = Status.completed ∧ x.completedAt = none) := by
            intro hc
            exact hinve.2 hst (hca ▸ hc.2)
          simp only [this, if_false, hpct]
        · have hxs : x.status ≠ Status.completed := by
            rw [hx, applyProgress_status]
            split_ifs
            · decide
            · exact hst
          simp [hxs, hpct]
      · rcases hreq with ⟨eid2, b, hreq⟩ | ⟨eid2, hreq⟩
        · rw [hreq] at hc; cases hc
        · rw [hreq] at hc; cases hc
      · rcases hreq with ⟨eid2, b2, hreq⟩ | ⟨eid2, hreq⟩
        · rw [hreq] at hf; cases hf
        · rw [hreq] at hf; cases hf
      · rw [hx]
        simp [applyWithdraw]

/-- Witness of `percentage_only_completed`: a progress request on the completed
enrollment 100 leaves its `percentageComplete` at 100. -/
theorem percentage_only_completed_witness :
    ∃ e2, findEnrollment
        (handle 3 userOne (Request.progress 100 (scoreBody "m1" 80)) completedStore).2 100
          = some e2
      ∧ e2.progress.percentageComplete = 100 :=
  have h := percentage_only_completed 3 userOne (Request.progress 100 (scoreBody "m1" 80)) []
    completedStore (by
      intro e he
      have he2 : e = completedEnrollment := by
        have : completedStore.enrollments = [completedEnrollment] := by decide
        rw [this] at he
        simpa using he
      rw [he2]
      unfold percentInv
      exact ⟨fun _ => by decide, fun _ => by decide⟩)
  match h.2.2.2 (Or.inl ⟨100, scoreBody "m1" 80, rfl⟩) 100 completedEnrollment (by decide) with
  | ⟨e2, hfind2, hpct⟩ => ⟨e2, hfind2, hpct.trans (by with_unfolding_all decide)⟩

/-! ## Time spent and last access, in exact arithmetic -/

theorem applyProgress_timeSpent (now : Time) (b : ProgressBody) (e : Enrollment) :
    (applyProgress now b e).progress.timeSpent = e.progress.timeSpent + b.timeSpent.getD 0 := by
  unfold applyProgress
  cases ht : b.timeSpent with
  | none => simp
  | some t =>
    by_cases h0 : t = 0
    · simp [h0]
    · simp [h0]

theorem applyProgress_lastAccessed (now : Time) (b : ProgressBody) (e : Enrollment) :
    (applyProgress now b e).progress.lastAccessed = some now := by
  unfold applyProgress
  rfl

/-! ## The model method and the route -/

/-- C30. For every stored enrollment, `moduleId` and Boolean `isCompleted`: the
progress handler called by the owner with that `moduleId` and `isCompleted` and
without `timeSpent` and `score` stores the completed-module list and the status
that the model method `updateProgress(moduleId, isCompleted)` followed by its
`save` produces from the same enrollment. -/
theorem updateProgress_agrees (now now2 : Time) (caller : User) (eid : Id)
    (moduleId : String) (flag : Bool) (st : Store) (e : Enrollment)
    (hfind : findEnrollment st eid = some e) (howner : e.userId = caller.id) :
    ∃ e2, findEnrollment
        (progressHandler now caller eid
          { moduleId := moduleId, isCompleted := some flag, timeSpent := none, score := none }
          st).2 eid = some e2
      ∧ e2.progress.completedModules
          = (preSave now2 (updateProgress moduleId (some flag) e)).progress.completedModules
      ∧ e2.status = (preSave now2 (updateProgress moduleId (some flag) e)).status := by
  have hid := findEnrollment_id st eid e hfind
  have hfind2 : findEnrollment
      (progressHandler now caller eid
        { moduleId := moduleId, isCompleted := some flag, timeSpent := none, score := none }
        st).2 eid
      = some (preSave now (applyProgress now
          { moduleId := moduleId, isCompleted := some flag, timeSpent := none, score := none }
          e)) := by
    rw [progressHandler_owner now caller eid _ st e hfind howner]
    have := findEnrollment_save now (applyProgress now
      { moduleId := moduleId, isCompleted := some flag, timeSpent := none, score := none } e)
      e st (by rw [applyProgress_id, hid]; exact hfind)
    rwa [applyProgress_id, hid] at this
  refine ⟨_, hfind2, ?_, ?_⟩
  · rw [preSave_completedModules, preSave_completedModules]
    unfold applyProgress updateProgress
    simp
  · rw [preSave_status, preSave_status]
    unfold applyProgress updateProgress
    simp

/-- Witness of `updateProgress_agrees`: module `m1` with `isCompleted = true` on
the fresh enrollment 100. -/
theorem updateProgress_agrees_witness :
    ∃ e2, findEnrollment
        (progressHandler 2 userOne 100
          { moduleId := "m1", isCompleted := some true, timeSpent := none, score := none }
          enrolledStore).2 100 = some e2
      ∧ e2.progress.completedModules = ["m1"]
      ∧ e2.status = Status.inProgress :=
  have h := updateProgress_agrees 2 2 userOne 100 "m1" true enrolledStore freshEnrollment
    (by decide) (by decide)
  match h with
  | ⟨e2, hfind2, hlist, hstatus⟩ =>
    ⟨e2, hfind2, hlist.trans (by decide), hstatus.trans (by decide)⟩

/-! ## Bounds on means and on their rounding -/

theorem sum_bounds (a b : ℚ) (l : List ℚ) (h : ∀ x ∈ l, a ≤ x ∧ x ≤ b) :
    a * l.length ≤ l.sum ∧ l.sum ≤ b * l.length := by
  induction l with
  | nil => simp
  | cons x xs ih =>
    have hx := h x (List.mem_cons_self _ _)
    have hxs := ih (fun y hy => h y (List.mem_cons_of_mem _ hy))
    simp only [List.length_cons, List.sum_cons, Nat.cast_add, Nat.cast_one]
    constructor
    · linarith [hx.1, hxs.1]
    · linarith [hx.2, hxs.2]

theorem mean_bounds (a b : ℚ) (l : List ℚ) (h : ∀ x ∈ l, a ≤ x ∧ x ≤ b)
    (hpos : 0 < l.length) : a ≤ l.sum / l.length ∧ l.sum / l.length ≤ b := by
  have hn : (0 : ℚ) < (l.length : ℚ) := by exact_mod_cast hpos
  obtain ⟨h1, h2⟩ := sum_bounds a b l h
  constructor
  · rw [le_div_iff₀ hn]
    exact h1
  · rw [div_le_iff₀ hn]
    exact h2

/-- The rounding `⌊x + 1/2⌋` of a rational between two integers lies between them. -/
theorem jsRound_bounds (m n : ℤ) (x : ℚ) (h1 : (m : ℚ) ≤ x) (h2 : x ≤ (n : ℚ)) :
    m ≤ jsRound x ∧ jsRound x ≤ n := by
  unfold jsRound
  constructor
  · apply Int.le_floor.mpr
    linarith
  · have : ⌊x + 1 / 2⌋ < n + 1 := by
      apply Int.floor_lt.mpr
      push_cast
      linarith
    omega

/-! ## The divisor and the range of the recomputed rating -/

theorem mem_ratingsOf (st : Store) (sid : Id) (q : ℚ) (h : q ∈ ratingsOf st sid) :
    ∃ e ∈ st.enrollments, e.feedback.rating = some q := by
  unfold ratingsOf at h
  rw [List.mem_filterMap] at h
  obtain ⟨e, he, hq⟩ := h
  exact ⟨e, (List.mem_filter.mp he).1, hq⟩

/-- C28. For every feedback request with a rating in 1..5 by the owner of a
stored, completed enrollment of a stored simulation: the saved enrollment is
one of the rated enrollments the handler reads back, so the divisor
`allEnrollments.length` is not zero; and when every rating stored before lies
in 1..5, the stored `metrics.averageRating` lies in 1..5 and
`metrics.totalReviews` is at least 1. -/
theorem rating_divisor_positive (now : Time) (caller : User) (eid : Id) (b : FeedbackBody)
    (st : Store) (e : Enrollment) (r : ℚ) (S : Simulation)
    (hfind : findEnrollment st eid = some e) (howner : e.userId = caller.id)
    (hstatus : e.status = Status.completed)
    (hrating : b.rating = some r) (hlo : 1 ≤ r) (hhi : r ≤ 5)
    (hS : findSimulation st e.simulationId = some S) :
    preSave now (applyFeedback now r b e)
        ∈ ratedEnrollments (saveEnrollment now (applyFeedback now r b e) st).2 e.simulationId
      ∧ (ratedEnrollments (saveEnrollment now (applyFeedback now r b e) st).2
          e.simulationId).length ≠ 0
      ∧ ratedEnrollments (putFeedback now caller eid b st).2 e.simulationId
          = ratedEnrollments (saveEnrollment now (applyFeedback now r b e) st).2 e.simulationId
      ∧ ((∀ x ∈ st.enrollments, ∀ q, x.feedback.rating = some q → 1 ≤ q ∧ q ≤ 5) →
          ∃ S2, findSimulation (putFeedback now caller eid b st).2 e.simulationId = some S2
            ∧ 1 ≤ S2.metrics.averageRating ∧ S2.metrics.averageRating ≤ 5
            ∧ 1 ≤ S2.metrics.totalReviews) := by
  obtain ⟨_, hf2, henr, hS2⟩ :=
    putFeedback_result now caller eid b st e r S hfind howner hstatus hrating hlo hhi hS
  have hstep := putFeedback_owner now caller eid b st e r hfind howner hstatus hrating hlo hhi
  have hid : (applyFeedback now r b e).id = eid := findEnrollment_id st eid e hfind
  have hsaved : findEnrollment (saveEnrollment now (applyFeedback now r b e) st).2 eid
      = some (preSave now (applyFeedback now r b e)) := by
    have := findEnrollment_save now (applyFeedback now r b e) e st (by rw [hid]; exact hfind)
    rwa [hid] at this
  have hmem := mem_rated_of_find _ eid _ hsaved (by simp [preSave_feedback, applyFeedback])
  rw [preSave_simulationId] at hmem
  have hmem2 : preSave now (applyFeedback now r b e)
      ∈ ratedEnrollments (saveEnrollment now (applyFeedback now r b e) st).2 e.simulationId :=
    hmem
  have hsame : ratedEnrollments (putFeedback now caller eid b st).2 e.simulationId
      = ratedEnrollments (saveEnrollment now (applyFeedback now r b e) st).2 e.simulationId := by
    rw [hstep]
    rfl
  have hposR : 0 < (ratedEnrollments (saveEnrollment now (applyFeedback now r b e) st).2
      e.simulationId).length := List.length_pos_of_mem hmem2
  refine ⟨hmem2, Nat.pos_iff_ne_zero.mp hposR, hsame, ?_⟩
  intro hall
  have hpos : 0 < (ratingsOf (putFeedback now caller eid b st).2 e.simulationId).length := by
    rw [← length_rated, hsame]
    exact hposR
  have hrange : ∀ q ∈ ratingsOf (putFeedback now caller eid b st).2 e.simulationId,
      (1 : ℚ) ≤ q ∧ q ≤ 5 := by
    intro q hq
    obtain ⟨x, hx, hxq⟩ := mem_ratingsOf _ _ q hq
    rw [henr] at hx
    rcases mem_updateFirst _ _ _ _ hx with hx | hx
    · exact hall x hx q hxq
    · rw [hx, preSave_feedback] at hxq
      have : r = q := Option.some.inj hxq
      rw [← this]
      exact ⟨hlo, hhi⟩
  obtain ⟨hm1, hm2⟩ := mean_bounds 1 5 _ hrange hpos
  have hround := jsRound_bounds 10 50
    (10 * ((ratingsOf (putFeedback now caller eid b st).2 e.simulationId).sum /
      (ratingsOf (putFeedback now caller eid b st).2 e.simulationId).length))
    (by push_cast; linarith) (by push_cast; linarith)
  unfold jsRound at hround
  refine ⟨_, hS2, ?_, ?_, ?_⟩
  · show (1 : ℚ) ≤ ((⌊_⌋ : ℤ) : ℚ) / 10
    rw [le_div_iff₀ (by norm_num)]
    have : ((10 : ℤ) : ℚ) ≤ ((⌊10 *
        ((ratingsOf (putFeedback now caller eid b st).2 e.simulationId).sum /
          (ratingsOf (putFeedback now caller eid b st).2 e.simulationId).length)
        + 1 / 2⌋ : ℤ) : ℚ) := by exact_mod_cast hround.1
    linarith
  · show ((⌊_⌋ : ℤ) : ℚ) / 10 ≤ 5
    rw [div_le_iff₀ (by norm_num)]
    have : ((⌊10 *
        ((ratingsOf (putFeedback now caller eid b st).2 e.simulationId).sum /
          (ratingsOf (putFeedback now caller eid b st).2 e.simulationId).length)
        + 1 / 2⌋ : ℤ) : ℚ) ≤ ((50 : ℤ) : ℚ) := by exact_mod_cast hround.2
    linarith
  · show (1 : ℤ) ≤ ((ratingsOf (putFeedback now caller eid b st).2 e.simulationId).length : ℤ)
    exact_mod_cast hpos

/-- Witness of `rating_divisor_positive`: a rating of 5 on the completed
enrollment 100; one rated enrollment is read back. -/
theorem rating_divisor_positive_witness :
    (ratedEnrollments (putFeedback 3 userOne 100 (ratingBody 5) completedStore).2 10).length = 1 :=
  have h := rating_divisor_positive 3 userOne 100 (ratingBody 5) completedStore
    completedEnrollment 5 completedSimulation
    (by decide) (by decide) (by decide) rfl (by norm_num) (by norm_num) (by decide)
  (congrArg List.length h.2.2.1).trans (by with_unfolding_all decide)

/-! ## The range of `performance.score` and the growth of `timeSpent` -/

theorem validateProgressUpdate_none (b : ProgressBody) (h : validateProgressUpdate b = none) :
    (∀ t, b.timeSpent = some t → 0 ≤ t) ∧ (∀ s, b.score = some s → 0 ≤ s ∧ s ≤ 100) := by
  unfold validateProgressUpdate at h
  split_ifs at h with h1 h2 h3
  constructor
  · intro t ht
    rw [ht] at h2
    simp only [decide_eq_true_eq, not_or, not_lt] at h2
    exact h2.1
  · intro s hs
    rw [hs] at h3
    simp only [decide_eq_true_eq, not_or, not_lt] at h3
    exact h3

theorem scoresInRange_newEnrollment (newId : Id) (now : Time) (uid sid : Id) :
    scoresInRange (newEnrollment newId now uid sid) := by
  unfold scoresInRange
  simp [newEnrollment]

/-- The progress mutation with a valid body keeps the score invariant, and with
a score it stores an integer in 0..100. -/
theorem scoresInRange_applyProgress (now : Time) (b : ProgressBody) (e : Enrollment)
    (hvalid : validateProgressUpdate b = none) (hinv : scoresInRange e) :
    scoresInRange (applyProgress now b e)
      ∧ (∀ s, b.score = some s →
          ∃ n : ℤ, (applyProgress now b e).performance.score = some (n : ℚ)
            ∧ 0 ≤ n ∧ n ≤ 100) := by
  obtain ⟨_, hscore⟩ := validateProgressUpdate_none b hvalid
  cases hs : b.score with
  | none =>
    rw [scoresInRange, applyProgress_performance_none now b e hs]
    exact ⟨hinv, fun s h => by cases h⟩
  | some s =>
    obtain ⟨hassess, hsc⟩ := applyProgress_performance_some now b e s hs
    have hall : ∀ a ∈ (applyProgress now b e).performance.assessments,
        0 ≤ a.score ∧ a.score ≤ 100 := by
      intro a ha
      rw [hassess, List.mem_append, List.mem_singleton] at ha
      rcases ha with ha | ha
      · exact hinv.1 a ha
      · rw [ha]
        exact hscore s hs
    have hpos : 0 < ((applyProgress now b e).performance.assessments.map
        (fun a => a.score)).length := by
      rw [List.length_map, hassess]
      simp
    have hmean := mean_bounds 0 100
      ((applyProgress now b e).performance.assessments.map (fun a => a.score))
      (by
        intro x hx
        rw [List.mem_map] at hx
        obtain ⟨a, ha, hax⟩ := hx
        rw [← hax]
        exact hall a ha) hpos
    rw [List.length_map] at hmean
    have hround := jsRound_bounds 0 100
      (totalScore (applyProgress now b e).performance.assessments /
        (applyProgress now b e).performance.assessments.length)
      (by rw [totalScore_eq_sum]; push_cast; exact hmean.1)
      (by rw [totalScore_eq_sum]; push_cast; exact hmean.2)
    have hval : ∃ n : ℤ, (applyProgress now b e).performance.score = some (n : ℚ)
        ∧ 0 ≤ n ∧ n ≤ 100 := ⟨_, hsc, hround.1, hround.2⟩
    refine ⟨⟨hall, ?_⟩, fun s2 _ => hval⟩
    intro q hq
    obtain ⟨n, hn, h0, h100⟩ := hval
    rw [hn] at hq
    exact ⟨n, (Option.some.inj hq).symm, h0, h100⟩

/-- C29. For every stored enrollment that satisfies the score invariant (a new
enrollment does) and every request (any route, caller and arguments): the
enrollment satisfies the invariant afterwards, so `performance.score`, when
present, is an integer in 0..100, and `progress.timeSpent` has not decreased.
After a valid progress request of the owner that carries a score,
`performance.score` is present. -/
theorem score_in_range (now : Time) (caller : User) (req : Request) (st : Store) (eid : Id)
    (e : Enrollment) (hfind : findEnrollment st eid = some e) (hinv : scoresInRange e) :
    (∃ e2, findEnrollment (handle now caller req st).2 eid = some e2
        ∧ scoresInRange e2
        ∧ e.progress.timeSpent ≤ e2.progress.timeSpent
        ∧ (∀ b s, req = Request.progress eid b → validateProgressUpdate b = none →
            e.userId = caller.id → b.score = some s →
            ∃ n : ℤ, e2.performance.score = some (n : ℚ) ∧ 0 ≤ n ∧ n ≤ 100))
      ∧ (∀ newId uid sid, scoresInRange (newEnrollment newId now uid sid)) := by
  refine ⟨?_, fun newId uid sid => scoresInRange_newEnrollment newId now uid sid⟩
  rcases handle_find now caller req st eid e hfind with h | ⟨x, h, how, hx⟩
  · refine ⟨e, h, hinv, le_refl _, ?_⟩
    intro b s hreq hv hown hs
    exfalso
    have h2 : findEnrollment (putProgress now caller eid b st).2 eid = some e := by
      rw [hreq] at h
      exact h
    rw [putProgress_owner now caller eid b st e hfind hown hv] at h2
    have hid := findEnrollment_id st eid e hfind
    have h3 := findEnrollment_save now (applyProgress now b e) e st
      (by rw [applyProgress_id, hid]; exact hfind)
    rw [applyProgress_id, hid] at h3
    rw [h3] at h2
    have h4 := congrArg (fun z => z.progress.lastAccessed) (Option.some.inj h2)
    have h5 := congrArg (fun z => z.performance) (Option.some.inj h2)
    simp only [preSave_performance] at h5
    obtain ⟨hassess, _⟩ := applyProgress_performance_some now b e s hs
    rw [h5] at hassess
    have := congrArg List.length hassess
    simp at this
  · refine ⟨preSave now x, h, ?_, ?_, ?_⟩
    · unfold scoresInRange
      rw [preSave_performance]
      rcases hx with ⟨b, _, hv, hx⟩ | ⟨_, hx⟩ | ⟨b, r, _, _, _, _, _, hx⟩ | ⟨_, _, hx⟩
      · rw [hx]
        exact (scoresInRange_applyProgress now b e hv hinv).1
      · rw [hx]; exact hinv
      · rw [hx]; exact hinv
      · rw [hx]; exact hinv
    · rw [preSave_timeSpent]
      rcases hx with ⟨b, _, hv, hx⟩ | ⟨_, hx⟩ | ⟨b, r, _, _, _, _, _, hx⟩ | ⟨_, _, hx⟩
      · rw [hx, applyProgress_timeSpent]
        have ht := (validateProgressUpdate_none b hv).1
        cases hts : b.timeSpent with
        | none => simp
        | some t =>
          have := ht t hts
          simp only [Option.getD_some]
          linarith
      · rw [hx]; exact le_refl _
      · rw [hx]; exact le_refl _
      · rw [hx]; exact le_refl _
    · intro b s hreq hv _ hs
      rw [preSave_performance]
      rcases hx with ⟨b2, hreq2, _, hx⟩ | ⟨hreq2, _⟩ | ⟨b2, r, hreq2, _⟩ | ⟨hreq2, _⟩
      · rw [hreq] at hreq2
        have hb : b = b2 := by
          injection hreq2
        subst hb
        rw [hx]
        exact (scoresInRange_applyProgress now b e hv hinv).2 s hs
      · rw [hreq] at hreq2; cases hreq2
      · rw [hreq] at hreq2; cases hreq2
      · rw [hreq] at hreq2; cases hreq2

/-- Witness of `score_in_range`: scores 80 and 90 are stored, a third progress
request carries score 100; the stored score is an integer in 0..100. -/
theorem score_in_range_witness :
    ∃ e2, findEnrollment
        (handle 4 userOne (Request.progress 100 (scoreBody "m3" 100)) scoredStore).2 100
          = some e2
      ∧ ∃ n : ℤ, e2.performance.score = some (n : ℚ) ∧ 0 ≤ n ∧ n ≤ 100 :=
  have h := score_in_range 4 userOne (Request.progress 100 (scoreBody "m3" 100)) scoredStore
    100 scoredEnrollment (by with_unfolding_all decide) (by
      unfold scoresInRange
      constructor
      · intro a ha
        have : scoredEnrollment.performance.assessments.map (fun a => a.score) = [80, 90] := by
          with_unfolding_all decide
        have hmem : a.score ∈ ([80, 90] : List ℚ) := by
          rw [← this]
          exact List.mem_map_of_mem _ ha
        simp only [List.mem_cons, List.mem_singleton, List.not_mem_nil, or_false] at hmem
        rcases hmem with h | h <;> rw [h] <;> norm_num
      · intro s hs
        have : scoredEnrollment.performance.score = some 85 := by with_unfolding_all decide
        rw [this] at hs
        exact ⟨85, by rw [← Option.some.inj hs]; norm_num, by norm_num, by norm_num⟩)
  match h.1 with
  | ⟨e2, hfind2, _, _, hscore⟩ =>
    ⟨e2, hfind2, hscore (scoreBody "m3" 100) 100 rfl (by with_unfolding_all decide)
      (by decide) rfl⟩

/-! ## Who can change the metrics of a simulation -/

/-- C25, evaluated on the code. The admin request
`PUT /api/admin/simulations/10` with body `"metrics.enrollments": 999` is not
an enrollment operation; it is answered 200 and simulation 10 of
`enrolledStore` has `metrics.enrollments = 999` instead of 1 afterwards: the
route hands the body to the update unfiltered. -/
theorem admin_update_edits_metrics :
    (findSimulation enrolledStore 10).map (fun s => s.metrics.enrollments) = some 1
      ∧ (putSimulation 10 metricsEdit enrolledStore).1 = simulationUpdatedReply
      ∧ (findSimulation (putSimulation 10 metricsEdit enrolledStore).2 10).map
          (fun s => s.metrics.enrollments) = some 999
      ∧ (putSimulation 10 metricsEdit enrolledStore).2.enrollments = enrolledStore.enrollments := by
  decide

/-! ## Register, then log in -/

theorem utf16Length_empty : utf16Length "" = 0 := by decide

theorem validateRegister_none (env : AuthEnv) (b : RegisterBody)
    (h : validateRegister env b = none) :
    env.isEmail b.email = true ∧ b.password ≠ "" := by
  unfold validateRegister at h
  split_ifs at h with h1 h2 h3
  constructor
  · simpa using h2
  · intro hp
    rw [hp, utf16Length_empty] at h3
    omega

/-- The rules of `validateRegister` count UTF-16 code units: a name of one
character beyond U+FFFF has `length` 2 and passes, a name of 26 such characters
has `length` 52 and breaks the rule on `name`. -/
theorem validateRegister_counts_units :
    validateRegister sampleEnv emojiRegister = none
      ∧ validateRegister sampleEnv longEmojiRegister = some "name" := by
  decide

/-- C26. For every registration body that passes `validateRegister` and whose
email is not stored: registration answers 201 with the token of the new user
and stores exactly one more user; a login with the same email and password
answers 200 and returns that user (with the login time set); a second
registration with the same email, whatever its name, password and role, is
answered 400 and stores nothing, and when its body passes validation the reply
is "User already exists with this email". -/
theorem register_login_roundtrip (env : AuthEnv) (newId newId2 : Id) (now : Time)
    (b b2 : RegisterBody) (users : List Account)
    (hvalid : validateRegister env b = none)
    (hnone : findByEmail users b.email = none)
    (hsame : b2.email = b.email) :
    (postRegister env newId b users).1.code = 201
      ∧ (postRegister env newId b users).1.user = some (newAccount env newId b)
      ∧ (postRegister env newId b users).1.token = some (env.sign newId)
      ∧ (postRegister env newId b users).2 = users ++ [newAccount env newId b]
      ∧ (postRegister env newId b users).2.length = users.length + 1
      ∧ (postLogin env now { email := b.email, password := b.password }
          (postRegister env newId b users).2).1.code = 200
      ∧ (postLogin env now { email := b.email, password := b.password }
          (postRegister env newId b users).2).1.user
          = some { newAccount env newId b with lastLogin := some now }
      ∧ (postLogin env now { email := b.email, password := b.password }
          (postRegister env newId b users).2).1.token = some (env.sign newId)
      ∧ (postRegister env newId2 b2 (postRegister env newId b users).2).1.code = 400
      ∧ (postRegister env newId2 b2 (postRegister env newId b users).2).2
          = (postRegister env newId b users).2
      ∧ (validateRegister env b2 = none →
          (postRegister env newId2 b2 (postRegister env newId b users).2).1 = userExists) := by
  obtain ⟨hemail, hpwne⟩ := validateRegister_none env b hvalid
  have hreg : postRegister env newId b users =
      ({ code := 201, success := true, message := "User registered successfully",
         user := some (newAccount env newId b), token := some (env.sign newId) },
        users ++ [newAccount env newId b]) := by
    simp [postRegister, hvalid, hnone, newAccount]
  have hfound : findByEmail (users ++ [newAccount env newId b]) b.email
      = some (newAccount env newId b) := by
    unfold findByEmail at hnone ⊢
    rw [List.find?_append, hnone]
    simp [newAccount]
  have hlogin : validateLogin env { email := b.email, password := b.password } = none := by
    simp [validateLogin, hemail, hpwne]
  have hact : (newAccount env newId b).isActive = true := rfl
  have hph : (newAccount env newId b).passwordHash = env.hash b.password := rfl
  have hid : (newAccount env newId b).id = newId := rfl
  rw [hreg]
  refine ⟨rfl, rfl, rfl, rfl, by simp, ?_, ?_, ?_, ?_, ?_, ?_⟩
  · simp [postLogin, hlogin, hfound, hact, hph, comparePassword]
  · simp [postLogin, hlogin, hfound, hact, hph, comparePassword]
  · simp [postLogin, hlogin, hfound, hact, hph, comparePassword, hid]
  · cases hv : validateRegister env b2 with
    | some key => simp [postRegister, hv, authInvalid]
    | none => simp [postRegister, hv, hsame, hfound, userExists]
  · cases hv : validateRegister env b2 with
    | some key => simp [postRegister, hv]
    | none => simp [postRegister, hv, hsame, hfound]
  · intro hv
    simp [postRegister, hv, hsame, hfound]

/-- Witness of `register_login_roundtrip`: the body of the API test on an empty
user collection, a login with its email and password, and a second
registration with the same email and another name and password. -/
theorem register_login_roundtrip_witness :
    (postRegister sampleEnv 1 sampleRegister []).1.code = 201
      ∧ (postLogin sampleEnv 5 { email := "test@example.com", password := "password123" }
          (postRegister sampleEnv 1 sampleRegister []).2).1.code = 200
      ∧ (postRegister sampleEnv 2 sampleRegisterAgain
          (postRegister sampleEnv 1 sampleRegister []).2).1 = userExists :=
  have h := register_login_roundtrip sampleEnv 1 2 5 sampleRegister sampleRegisterAgain []
    (by decide) rfl rfl
  ⟨h.1, h.2.2.2.2.2.1, h.2.2.2.2.2.2.2.2.2.2 (by decide)⟩

/-! ## The profile update -/

theorem lookup_cons_eq {V : Type} (k k3 : String) (v3 : V) (rest : List (String × V)) :
    List.lookup k ((k3, v3) :: rest) = if k = k3 then some v3 else List.lookup k rest := by
  by_cases h : k = k3
  · subst h
    simp [List.lookup_cons]
  · have hb : (k == k3) = false := by simpa using h
    simp [List.lookup_cons, hb, h]

theorem lookup_objectSet {V : Type} (k : String) (v : V) (o : List (String × V)) (k2 : String) :
    (objectSet k v o).lookup k2 = if k2 = k then some v else o.lookup k2 := by
  induction o with
  | nil =>
    unfold objectSet
    rw [lookup_cons_eq]
  | cons kv rest ih =>
    obtain ⟨k3, v3⟩ := kv
    unfold objectSet
    by_cases h3 : k3 = k
    · subst h3
      simp only [if_true]
      rw [lookup_cons_eq, lookup_cons_eq]
      by_cases h : k2 = k3
      · simp [h]
      · simp [h]
    · simp only [h3, if_false]
      rw [lookup_cons_eq, lookup_cons_eq, ih]
      by_cases h23 : k2 = k3
      · have hne : k2 ≠ k := fun hk => h3 (h23 ▸ hk)
        simp [h23, hne, h23 ▸ hne]
      · simp [h23]

theorem lookup_eq_none_iff_not_mem {V : Type} (o : List (String × V)) (k : String) :
    o.lookup k = none ↔ k ∉ o.map (fun kv => kv.1) := by
  induction o with
  | nil => simp
  | cons kv rest ih =>
    obtain ⟨k3, v3⟩ := kv
    rw [lookup_cons_eq]
    by_cases h : k = k3
    · simp [h]
    · simp [h, ih]

theorem mem_keys_of_lookup {V : Type} (o : List (String × V)) (k : String) (v : V)
    (h : o.lookup k = some v) : k ∈ o.map (fun kv => kv.1) := by
  by_contra hn
  rw [(lookup_eq_none_iff_not_mem o k).mpr hn] at h
  cases h

/-- The loop of the profile handler over a list of keys, from any object. -/
theorem lookup_foldl_updates {V : Type} (body : List (String × V)) (ks : List String) :
    ∀ (acc : List (String × V)) (k : String),
      (ks.foldl
        (fun updates key =>
          if key ∈ allowedUpdates then
            match body.lookup key with
            | some v => objectSet key v updates
            | none => updates
          else updates) acc).lookup k
        = if k ∈ ks ∧ k ∈ allowedUpdates ∧ (body.lookup k).isSome = true then body.lookup k
          else acc.lookup k := by
  induction ks with
  | nil => intro acc k; simp
  | cons key rest ih =>
    intro acc k
    simp only [List.foldl_cons]
    rw [ih]
    by_cases hrest : k ∈ rest ∧ k ∈ allowedUpdates ∧ (body.lookup k).isSome = true
    · have : k ∈ key :: rest ∧ k ∈ allowedUpdates ∧ (body.lookup k).isSome = true :=
        ⟨List.mem_cons_of_mem _ hrest.1, hrest.2⟩
      simp only [hrest, this, and_self, if_true]
    · simp only [hrest, if_false]
      by_cases hkey : key ∈ allowedUpdates
      · cases hb : body.lookup key with
        | none =>
          simp only [hkey, if_true]
          by_cases hk : k = key
          · subst hk
            simp [hb]
          · have hcond : ¬ (k ∈ key :: rest ∧ k ∈ allowedUpdates
                ∧ (body.lookup k).isSome = true) := by
              rintro ⟨hm, ha, hs⟩
              rcases List.mem_cons.mp hm with h | h
              · exact hk h
              · exact hrest ⟨h, ha, hs⟩
            simp only [hcond, if_false]
        | some v =>
          simp only [hkey, if_true, lookup_objectSet]
          by_cases hk : k = key
          · subst hk
            simp [hb, hkey]
          · have hcond : ¬ (k ∈ key :: rest ∧ k ∈ allowedUpdates
                ∧ (body.lookup k).isSome = true) := by
              rintro ⟨hm, ha, hs⟩
              rcases List.mem_cons.mp hm with h | h
              · exact hk h
              · exact hrest ⟨h, ha, hs⟩
            simp only [hk, hcond, if_false]
      · simp only [hkey, if_false]
        have hcond : ¬ (k ∈ key :: rest ∧ k ∈ allowedUpdates
            ∧ (body.lookup k).isSome = true) := by
          rintro ⟨hm, ha, hs⟩
          rcases List.mem_cons.mp hm with h | h
          · exact hkey (h ▸ ha)
          · exact hrest ⟨h, ha, hs⟩
        simp only [hcond, if_false]

/-- The object `updates` holds, under each allowed key, what the body holds
under it, and nothing under any other key. -/
theorem lookup_profileUpdates {V : Type} (body : List (String × V)) (k : String) :
    (profileUpdates body).lookup k = if k ∈ allowedUpdates then body.lookup k else none := by
  unfold profileUpdates
  rw [lookup_foldl_updates]
  by_cases ha : k ∈ allowedUpdates
  · cases hb : body.lookup k with
    | none => simp [ha]
    | some v =>
      have hm := mem_keys_of_lookup body k v hb
      simp [ha, hm]
  · simp [ha]

theorem keys_objectSet {V : Type} (k : String) (v : V) (o : List (String × V)) :
    (objectSet k v o).map (fun kv => kv.1)
      = if k ∈ o.map (fun kv => kv.1) then o.map (fun kv => kv.1)
        else o.map (fun kv => kv.1) ++ [k] := by
  induction o with
  | nil => simp [objectSet]
  | cons kv rest ih =>
    obtain ⟨k3, v3⟩ := kv
    unfold objectSet
    by_cases h3 : k3 = k
    · subst h3
      simp
    · have hne : ¬ k = k3 := fun h => h3 h.symm
      simp only [h3, if_false, List.map_cons, ih, List.mem_cons, hne, false_or]
      by_cases hm : k ∈ rest.map (fun kv => kv.1)
      · simp [hm]
      · simp [hm]

theorem nodup_keys_objectSet {V : Type} (k : String) (v : V) (o : List (String × V))
    (h : (o.map (fun kv => kv.1)).Nodup) : ((objectSet k v o).map (fun kv => kv.1)).Nodup := by
  rw [keys_objectSet]
  by_cases hm : k ∈ o.map (fun kv => kv.1)
  · simpa [hm] using h
  · simp only [hm, if_false]
    rw [List.nodup_append]
    refine ⟨h, List.nodup_singleton k, ?_⟩
    intro a ha hb
    rw [List.mem_singleton] at hb
    exact hm (hb ▸ ha)

/-- The object `updates` of the profile handler has no key twice. -/
theorem nodup_keys_profileUpdates {V : Type} (body : List (String × V)) :
    ((profileUpdates body).map (fun kv => kv.1)).Nodup := by
  unfold profileUpdates
  have hgen : ∀ (ks : List String) (acc : List (String × V)),
      (acc.map (fun kv => kv.1)).Nodup →
      ((ks.foldl
        (fun updates key =>
          if key ∈ allowedUpdates then
            match body.lookup key with
            | some v => objectSet key v updates
            | none => updates
          else updates) acc).map (fun kv => kv.1)).Nodup := by
    intro ks
    induction ks with
    | nil => intro acc h; exact h
    | cons key rest ih =>
      intro acc h
      simp only [List.foldl_cons]
      apply ih
      by_cases hkey : key ∈ allowedUpdates
      · cases hb : body.lookup key with
        | none => simpa [hkey] using h
        | some v =>
          simp only [hkey, if_true]
          exact nodup_keys_objectSet key v acc h
      · simpa [hkey] using h
  exact hgen _ [] (by simp)

/-- Setting the keys of an object `updates` without a repeated key: a key of
`updates` gets its value, every other key of the document keeps its own. -/
theorem lookup_applyUpdates {V : Type} (updates : List (String × V)) :
    (updates.map (fun kv => kv.1)).Nodup →
    ∀ (doc : List (String × V)) (k : String),
      (applyUpdates updates doc).lookup k
        = if (updates.lookup k).isSome = true then updates.lookup k else doc.lookup k := by
  induction updates with
  | nil => intro _ doc k; rfl
  | cons kv rest ih =>
    obtain ⟨k3, v3⟩ := kv
    intro hnd doc k
    rw [List.map_cons, List.nodup_cons] at hnd
    have hstep : applyUpdates ((k3, v3) :: rest) doc = applyUpdates rest (objectSet k3 v3 doc) := by
      unfold applyUpdates
      rfl
    rw [hstep, ih hnd.2, lookup_objectSet, lookup_cons_eq]
    by_cases hk : k = k3
    · subst hk
      have hrest : rest.lookup k = none := (lookup_eq_none_iff_not_mem rest k).mpr hnd.1
      simp [hrest]
    · rw [if_neg hk, if_neg hk]

/-- C27. For every request body and every stored user document: the object
`updates` the handler builds holds under `name`, `profile` and `preferences`
what the body holds under them and holds no other key, and two bodies that
agree on the three keys give the same `updates`, key by key. The handler
stores, under the caller's `_id`, the caller's document with `updates` applied
and replies with it: in the stored document an allowed key that the body
carries has the body's value, and every other key, in particular `role`,
`email`, `isActive` and `passwordHash`, has its old value. The documents of
the other users are stored as they were, and without a stored document of the
caller nothing is stored. -/
theorem profile_update_filtered {V : Type} (body body2 : List (String × V))
    (callerId : Id) (users : List (Id × List (String × V))) :
    (∀ k, (profileUpdates body).lookup k
        = if k = "name" ∨ k = "profile" ∨ k = "preferences" then body.lookup k else none)
      ∧ ((∀ k ∈ allowedUpdates, body.lookup k = body2.lookup k) →
          ∀ k, (profileUpdates body).lookup k = (profileUpdates body2).lookup k)
      ∧ (∀ u, users.find? (fun x => x.1 == callerId) = some u →
          ∃ stored, (putProfile callerId body users).2.find? (fun x => x.1 == callerId)
              = some (u.1, stored)
            ∧ (putProfile callerId body users).1 = some stored
            ∧ stored = applyUpdates (profileUpdates body) u.2
            ∧ (∀ k v, (k = "name" ∨ k = "profile" ∨ k = "preferences") →
                body.lookup k = some v → stored.lookup k = some v)
            ∧ (∀ k, (k = "name" ∨ k = "profile" ∨ k = "preferences") →
                body.lookup k = none → stored.lookup k = u.2.lookup k)
            ∧ (∀ k, ¬ (k = "name" ∨ k = "profile" ∨ k = "preferences") →
                stored.lookup k = u.2.lookup k)
            ∧ stored.lookup "role" = u.2.lookup "role"
            ∧ stored.lookup "email" = u.2.lookup "email"
            ∧ stored.lookup "isActive" = u.2.lookup "isActive"
            ∧ stored.lookup "passwordHash" = u.2.lookup "passwordHash")
      ∧ (∀ uid, uid ≠ callerId →
          (putProfile callerId body users).2.find? (fun x => x.1 == uid)
            = users.find? (fun x => x.1 == uid))
      ∧ (putProfile callerId body users).2.map (fun x => x.1) = users.map (fun x => x.1)
      ∧ (users.find? (fun x => x.1 == callerId) = none →
          (putProfile callerId body users).2 = users
            ∧ (putProfile callerId body users).1 = none) := by
  have hupd : ∀ k, (profileUpdates body).lookup k
      = if k = "name" ∨ k = "profile" ∨ k = "preferences" then body.lookup k else none := by
    intro k
    rw [lookup_profileUpdates]
    simp [allowedUpdates]
  have hstored : ∀ (doc : List (String × V)) (k : String),
      (applyUpdates (profileUpdates body) doc).lookup k
        = if (k = "name" ∨ k = "profile" ∨ k = "preferences") ∧ (body.lookup k).isSome = true
          then body.lookup k else doc.lookup k := by
    intro doc k
    rw [lookup_applyUpdates _ (nodup_keys_profileUpdates body), hupd]
    by_cases ha : k = "name" ∨ k = "profile" ∨ k = "preferences"
    · rw [if_pos ha]
      simp only [ha, true_and]
    · rw [if_neg ha]
      simp [ha]
  have hkeep : ∀ (doc : List (String × V)) (k : String),
      ¬ (k = "name" ∨ k = "profile" ∨ k = "preferences") →
      (applyUpdates (profileUpdates body) doc).lookup k = doc.lookup k := by
    intro doc k hk
    rw [hstored]
    simp [hk]
  refine ⟨hupd, ?_, ?_, ?_, ?_, ?_⟩
  · intro hagree k
    rw [lookup_profileUpdates, lookup_profileUpdates]
    by_cases ha : k ∈ allowedUpdates
    · simp [ha, hagree k ha]
    · simp [ha]
  · intro u hu
    have hfind : (putProfile callerId body users).2.find? (fun x => x.1 == callerId)
        = some (u.1, applyUpdates (profileUpdates body) u.2) := by
      unfold putProfile
      simp only
      rw [find_updateFirst_same (fun x : Id × List (String × V) => x.1 == callerId)
        (fun x => (x.1, applyUpdates (profileUpdates body) x.2)) (fun x hx => hx), hu]
      rfl
    refine ⟨applyUpdates (profileUpdates body) u.2, hfind, ?_, rfl, ?_, ?_, hkeep u.2,
      hkeep u.2 _ (by decide), hkeep u.2 _ (by decide), hkeep u.2 _ (by decide),
      hkeep u.2 _ (by decide)⟩
    · show ((putProfile callerId body users).2.find? (fun x => x.1 == callerId)).map
        (fun x => x.2) = _
      rw [hfind]
      rfl
    · intro k v hk hb
      rw [hstored]
      simp [hk, hb]
    · intro k hk hb
      rw [hstored]
      simp [hb]
  · intro uid hne
    unfold putProfile
    simp only
    apply find_updateFirst_other
    · intro x hx
      have : x.1 = callerId := by simpa using hx
      simp [this, Ne.symm hne]
    · intro x hx
      have : x.1 = callerId := by simpa using hx
      simp [this, Ne.symm hne]
  · unfold putProfile
    simp only
    induction users with
    | nil => rfl
    | cons x xs ih =>
      unfold updateFirst
      by_cases hp : (x.1 == callerId) = true
      · simp [hp]
      · simp [hp, ih]
  · intro hnone
    have hsame : (putProfile callerId body users).2 = users := by
      unfold putProfile
      simp only
      induction users with
      | nil => rfl
      | cons x xs ih =>
        unfold updateFirst
        have hx : (x.1 == callerId) = false := by
          by_contra hc
          simp [List.find?_cons, hc] at hnone
        have hxs : xs.find? (fun y => y.1 == callerId) = none := by
          simpa [List.find?_cons, hx] using hnone
        simp [hx, ih hxs]
    refine ⟨hsame, ?_⟩
    show ((putProfile callerId body users).2.find? (fun x => x.1 == callerId)).map
      (fun x => x.2) = none
    rw [hsame, hnone]
    rfl

/-- Witness of `profile_update_filtered`: a body that also carries `role` and
`email`, sent by user 1 to a store of two users: the stored document of user 1
has the new name and its old role and email, and the document of user 2 is
stored as it was. -/
theorem profile_update_filtered_witness :
    (profileUpdates sampleProfileBody).lookup "role" = none
      ∧ (∃ stored, (putProfile 1 sampleProfileBody
            [(1, sampleUserDoc), (2, sampleUserDoc)]).2.find? (fun x => x.1 == 1)
              = some (1, stored)
          ∧ stored.lookup "name" = some "New Name"
          ∧ stored.lookup "role" = some "user"
          ∧ stored.lookup "email" = some "test@example.com")
      ∧ (putProfile 1 sampleProfileBody [(1, sampleUserDoc), (2, sampleUserDoc)]).2.find?
          (fun x => x.1 == 2) = some (2, sampleUserDoc) :=
  have h := profile_update_filtered sampleProfileBody sampleProfileBody 1
    [(1, sampleUserDoc), (2, sampleUserDoc)]
  match h.2.2.1 (1, sampleUserDoc) rfl with
  | ⟨stored, hfind, _, _, hset, _, _, hrole, hemail, _⟩ =>
    ⟨(h.1 "role").trans (by decide),
      ⟨stored, hfind, hset "name" "New Name" (Or.inl rfl) (by decide),
        hrole.trans (by decide), hemail.trans (by decide)⟩,
      (h.2.2.2.1 2 (by decide)).trans (by decide)⟩

/-! ## Rounding to a double -/

/-- The rounding on some inputs: 0.1, 0.2 and their sum of doubles
0.30000000000000004; a tie goes to the even neighbour (2^53 + 1 to 2^53,
2^53 + 3 to 2^53 + 4); below 2^-1022 the spacing is 2^-1074 (2^-1075 goes to
0, 3 * 2^-1075 to 2^-1073); a negative number mirrors its positive. -/
theorem roundDouble_examples :
    roundDouble (1 / 10) = 3602879701896397 / 36028797018963968
      ∧ roundDouble (2 / 10) = 3602879701896397 / 18014398509481984
      ∧ addDouble (roundDouble (1 / 10)) (roundDouble (2 / 10))
          = 1351079888211149 / 4503599627370496
      ∧ roundDouble 9007199254740993 = 9007199254740992
      ∧ roundDouble 9007199254740995 = 9007199254740996
      ∧ roundDouble (1 / 2 ^ 1075) = 0
      ∧ roundDouble (3 / 2 ^ 1075) = 1 / 2 ^ 1073
      ∧ roundDouble (-(1 / 10)) = -(3602879701896397 / 36028797018963968) := by
  decide!

theorem divRoundEven_one (m : Nat) : divRoundEven m 1 = m := by
  simp [divRoundEven, Nat.mod_one]

theorem log2Fuel_spec (fuel : Nat) :
    ∀ n, n ≤ fuel → 0 < n → 2 ^ log2Fuel fuel n ≤ n ∧ n < 2 ^ (log2Fuel fuel n + 1) := by
  induction fuel with
  | zero => intro n h hn; omega
  | succ fuel ih =>
    intro n h hn
    unfold log2Fuel
    by_cases h2 : 2 ≤ n
    · simp only [h2, if_true]
      obtain ⟨hlo, hhi⟩ := ih (n / 2) (by omega) (by omega)
      constructor
      · rw [pow_succ]
        omega
      · rw [pow_succ]
        omega
    · simp only [h2, if_false]
      constructor
      · simpa using hn
      · simp
        omega

theorem natLog2_spec (n : Nat) (hn : 0 < n) :
    2 ^ natLog2 n ≤ n ∧ n < 2 ^ (natLog2 n + 1) :=
  log2Fuel_spec n n (le_refl n) hn

theorem natLog2_one : natLog2 1 = 0 := by decide

/-- A whole number below 2^53 is a double. -/
theorem roundDouble_natCast (n : Nat) (h : n < 2 ^ 53) : roundDouble (n : ℚ) = n := by
  by_cases hn : n = 0
  · subst hn
    simp [roundDouble]
  have hpos : 0 < n := Nat.pos_of_ne_zero hn
  obtain ⟨hlo, hhi⟩ := natLog2_spec n hpos
  have he : natLog2 n < 53 := by
    by_contra hc
    have : 2 ^ 53 ≤ 2 ^ natLog2 n := Nat.pow_le_pow_right (by norm_num) (not_lt.mp hc)
    omega
  have hfl : floorLog2 n 1 = (natLog2 n : ℤ) := by
    simp [floorLog2, natLog2_one, hlo]
  have hx : ¬ ((n : ℚ) = 0) := by exact_mod_cast hn
  have hneg : ¬ ((n : ℚ) < 0) := by
    have : (0 : ℚ) ≤ (n : ℚ) := Nat.cast_nonneg n
    linarith
  unfold roundDouble
  simp only [hx, if_false, Rat.num_natCast, Rat.den_natCast, Int.natAbs_ofNat, hfl, hneg]
  have hmax : max (natLog2 n : ℤ) (-1022) = (natLog2 n : ℤ) := by
    apply max_eq_left
    omega
  rw [hmax]
  by_cases hg : (0 : ℤ) ≤ (natLog2 n : ℤ) - 52
  · have h52 : natLog2 n = 52 := by omega
    simp [h52, divRoundEven_one]
  · have hj : (-((natLog2 n : ℤ) - 52)).toNat = 52 - natLog2 n := by omega
    simp only [hg, if_false, hj, one_mul, divRoundEven_one]
    have hpow : ((2 ^ (52 - natLog2 n) : Nat) : ℚ) ≠ 0 := by positivity
    rw [Nat.cast_mul]
    field_simp

/-! ## When the rounded quotient rounds like the exact quotient -/

theorem divRoundEven_spec (n d : Nat) (hd : 0 < d) :
    2 * (divRoundEven n d * d) ≤ 2 * n + d ∧ 2 * n ≤ 2 * (divRoundEven n d * d) + d := by
  have hdm := Nat.div_add_mod n d
  have hr := Nat.mod_lt n hd
  have hk : n / d * d = d * (n / d) := Nat.mul_comm _ _
  unfold divRoundEven
  simp only
  split_ifs with h1 h2 h3
  · rw [hk]; omega
  · rw [add_mul, one_mul, hk]; omega
  · rw [hk]; omega
  · rw [add_mul, one_mul, hk]; omega

theorem floorLog2_lt (p q m : Nat) (hp : 0 < p) (hq : 0 < q) (h : p < 2 ^ m * q) :
    floorLog2 p q < (m : ℤ) := by
  obtain ⟨hp1, hp2⟩ := natLog2_spec p hp
  obtain ⟨hq1, hq2⟩ := natLog2_spec q hq
  have hle : natLog2 p ≤ m + natLog2 q := by
    by_contra hc
    have h1 : 2 ^ (m + natLog2 q + 1) ≤ 2 ^ natLog2 p :=
      Nat.pow_le_pow_right (by norm_num) (by omega)
    have h2 : 2 ^ m * q < 2 ^ m * 2 ^ (natLog2 q + 1) :=
      Nat.mul_lt_mul_of_pos_left hq2 (by positivity)
    have h3 : 2 ^ m * 2 ^ (natLog2 q + 1) = 2 ^ (m + natLog2 q + 1) := by
      rw [← pow_add]
      congr 1
    omega
  unfold floorLog2
  simp only
  by_cases hnn : (0 : ℤ) ≤ (natLog2 p : ℤ) - (natLog2 q : ℤ)
  · simp only [hnn, if_true]
    split_ifs with hc
    · have hlt : 2 ^ ((natLog2 p : ℤ) - (natLog2 q : ℤ)).toNat < 2 ^ m := by
        by_contra hge
        have : 2 ^ m * q ≤ 2 ^ ((natLog2 p : ℤ) - (natLog2 q : ℤ)).toNat * q :=
          Nat.mul_le_mul_right q (not_lt.mp hge)
        omega
      have := (Nat.pow_lt_pow_iff_right (by norm_num : 1 < 2)).mp hlt
      omega
    · omega
  · simp only [hnn, if_false]
    split_ifs with hc
    · omega
    · omega

/-- A positive rational below 128 is rounded to a multiple `k / 2 ^ j` of a
power of two with `j ≥ 46`, and `k` is the nearest natural to `x * 2 ^ j`. -/
theorem roundDouble_small (x : ℚ) (hx : 0 < x) (hlt : x < 128) :
    ∃ j k : Nat, 46 ≤ j ∧ roundDouble x = (k : ℚ) / (2 : ℚ) ^ j
      ∧ (k : ℚ) ≤ x * (2 : ℚ) ^ j + 1 / 2 ∧ x * (2 : ℚ) ^ j ≤ (k : ℚ) + 1 / 2 := by
  have hnum : 0 < x.num := Rat.num_pos.mpr hx
  have hden : 0 < x.den := x.den_pos
  have hdenq : (0 : ℚ) < (x.den : ℚ) := by exact_mod_cast hden
  have hxeq : ((x.num.natAbs : ℕ) : ℚ) / (x.den : ℚ) = x := by
    have h1 : ((x.num.natAbs : ℕ) : ℤ) = x.num := Int.natAbs_of_nonneg hnum.le
    have h2 : ((x.num.natAbs : ℕ) : ℚ) = ((x.num : ℤ) : ℚ) := by
      rw [← Int.cast_natCast, h1]
    rw [h2]
    exact Rat.num_div_den x
  have hp : 0 < x.num.natAbs := Int.natAbs_pos.mpr hnum.ne'
  have hpq : x.num.natAbs < 2 ^ 7 * x.den := by
    have h1 : ((x.num.natAbs : ℕ) : ℚ) < 128 * (x.den : ℚ) := by
      rw [← hxeq] at hlt
      rwa [div_lt_iff₀ hdenq] at hlt
    have h2 : ((x.num.natAbs : ℕ) : ℚ) < ((2 ^ 7 * x.den : ℕ) : ℚ) := by
      push_cast
      linarith
    exact_mod_cast h2
  have hfl := floorLog2_lt x.num.natAbs x.den 7 hp hden hpq
  have hg : ¬ (0 : ℤ) ≤ max (floorLog2 x.num.natAbs x.den) (-1022) - 52 := by
    have : max (floorLog2 x.num.natAbs x.den) (-1022) < 7 := max_lt hfl (by norm_num)
    omega
  have hj : 46 ≤ (-(max (floorLog2 x.num.natAbs x.den) (-1022) - 52)).toNat := by
    have : max (floorLog2 x.num.natAbs x.den) (-1022) < 7 := max_lt hfl (by norm_num)
    omega
  refine ⟨(-(max (floorLog2 x.num.natAbs x.den) (-1022) - 52)).toNat,
    divRoundEven (x.num.natAbs *
      2 ^ (-(max (floorLog2 x.num.natAbs x.den) (-1022) - 52)).toNat) x.den, hj, ?_, ?_, ?_⟩
  · unfold roundDouble
    simp only [hx.ne', if_false, hg, not_lt.mpr hx.le]
    push_cast
    rfl
  · obtain ⟨h1, _⟩ := divRoundEven_spec (x.num.natAbs *
      2 ^ (-(max (floorLog2 x.num.natAbs x.den) (-1022) - 52)).toNat) x.den hden
    generalize (-(max (floorLog2 x.num.natAbs x.den) (-1022) - 52)).toNat = j at h1 ⊢
    generalize divRoundEven (x.num.natAbs * 2 ^ j) x.den = k at h1 ⊢
    have h1q : (2 : ℚ) * ((k : ℚ) * (x.den : ℚ))
        ≤ 2 * (((x.num.natAbs : ℕ) : ℚ) * (2 : ℚ) ^ j) + (x.den : ℚ) := by
      exact_mod_cast h1
    have hxa : ((x.num.natAbs : ℕ) : ℚ) = x * (x.den : ℚ) := (div_eq_iff hdenq.ne').mp hxeq
    rw [hxa] at h1q
    have : (x.den : ℚ) * (2 * (k : ℚ)) ≤ (x.den : ℚ) * (2 * (x * (2 : ℚ) ^ j) + 1) := by
      linarith
    have := le_of_mul_le_mul_left this hdenq
    linarith
  · obtain ⟨_, h2⟩ := divRoundEven_spec (x.num.natAbs *
      2 ^ (-(max (floorLog2 x.num.natAbs x.den) (-1022) - 52)).toNat) x.den hden
    generalize (-(max (floorLog2 x.num.natAbs x.den) (-1022) - 52)).toNat = j at h2 ⊢
    generalize divRoundEven (x.num.natAbs * 2 ^ j) x.den = k at h2 ⊢
    have h2q : (2 : ℚ) * (((x.num.natAbs : ℕ) : ℚ) * (2 : ℚ) ^ j)
        ≤ 2 * ((k : ℚ) * (x.den : ℚ)) + (x.den : ℚ) := by
      exact_mod_cast h2
    have hxa : ((x.num.natAbs : ℕ) : ℚ) = x * (x.den : ℚ) := (div_eq_iff hdenq.ne').mp hxeq
    rw [hxa] at h2q
    have : (x.den : ℚ) * (2 * (x * (2 : ℚ) ^ j)) ≤ (x.den : ℚ) * (2 * (k : ℚ) + 1) := by
      linarith
    have := le_of_mul_le_mul_left this hdenq
    linarith

/-- Rounding a quotient of naturals to a double does not change what
`Math.round` makes of it, for a divisor below 2^46 and a quotient below 128. -/
theorem jsRound_roundDouble_div (t n : Nat) (hn : 0 < n) (hn46 : n < 2 ^ 46)
    (ht : t < 128 * n) : jsRound (roundDouble ((t : ℚ) / n)) = jsRound ((t : ℚ) / n) := by
  by_cases ht0 : t = 0
  · subst ht0
    simp [roundDouble]
  have hnq : (0 : ℚ) < (n : ℚ) := by exact_mod_cast hn
  have htq : (0 : ℚ) < (t : ℚ) := by exact_mod_cast Nat.pos_of_ne_zero ht0
  have hx : (0 : ℚ) < (t : ℚ) / n := div_pos htq hnq
  have hlt : (t : ℚ) / n < 128 := by
    rw [div_lt_iff₀ hnq]
    exact_mod_cast ht
  obtain ⟨j, k, hj, hround, hk1, hk2⟩ := roundDouble_small ((t : ℚ) / n) hx hlt
  rw [hround]
  unfold jsRound
  generalize hm : ⌊(t : ℚ) / n + 1 / 2⌋ = m
  have hm1 : (m : ℚ) ≤ (t : ℚ) / n + 1 / 2 := by
    rw [← hm]
    exact Int.floor_le _
  have hm2 : (t : ℚ) / n + 1 / 2 < (m : ℚ) + 1 := by
    rw [← hm]
    exact Int.lt_floor_add_one _
  have hP : (0 : ℚ) < (2 : ℚ) ^ j := by positivity
  have hPn : (n : ℚ) < (2 : ℚ) ^ j := by
    have h1 : (2 : ℚ) ^ 46 ≤ (2 : ℚ) ^ j := pow_le_pow_right₀ (by norm_num) hj
    have h2 : (n : ℚ) < (2 : ℚ) ^ 46 := by exact_mod_cast hn46
    linarith
  -- the exact quotient stays 1 / (2 n) below the next half-integer
  have hgap : (t : ℚ) / n ≤ (m : ℚ) + 1 / 2 - 1 / (2 * n) := by
    have h1 : (2 : ℚ) * t < (2 * (m : ℚ) + 1) * n := by
      have := (div_lt_iff₀ hnq).mp (by linarith : (t : ℚ) / n < (m : ℚ) + 1 / 2)
      linarith
    have h2 : (2 : ℤ) * t < (2 * m + 1) * n := by exact_mod_cast h1
    have h3 : (2 : ℤ) * t + 1 ≤ (2 * m + 1) * n := by omega
    have h4 : (2 : ℚ) * t + 1 ≤ (2 * (m : ℚ) + 1) * n := by exact_mod_cast h3
    rw [div_le_iff₀ hnq]
    have h5 : ((m : ℚ) + 1 / 2 - 1 / (2 * n)) * n = ((2 * (m : ℚ) + 1) * n - 1) / 2 := by
      field_simp
      ring
    rw [h5]
    linarith
  rw [Int.floor_eq_iff]
  constructor
  · -- the lower half-integer is a multiple of the spacing
    have hj1 : j = (j - 1) + 1 := by omega
    have hPeq : (2 : ℚ) ^ j = 2 * (2 : ℚ) ^ (j - 1) := by
      conv_lhs => rw [hj1, pow_succ]
      ring
    have hA : (((2 * m - 1) * 2 ^ (j - 1) : ℤ) : ℚ) = ((m : ℚ) - 1 / 2) * (2 : ℚ) ^ j := by
      rw [hPeq]
      push_cast
      ring
    have h1 : ((m : ℚ) - 1 / 2) * (2 : ℚ) ^ j ≤ (k : ℚ) + 1 / 2 := by
      have : ((m : ℚ) - 1 / 2) * (2 : ℚ) ^ j ≤ (t : ℚ) / n * (2 : ℚ) ^ j :=
        mul_le_mul_of_nonneg_right (by linarith) hP.le
      linarith
    have h2 : (((2 * m - 1) * 2 ^ (j - 1) : ℤ) : ℚ) < (((k : ℤ) + 1 : ℤ) : ℚ) := by
      rw [hA]
      push_cast
      linarith
    have h3 : (2 * m - 1) * 2 ^ (j - 1) < (k : ℤ) + 1 := by exact_mod_cast h2
    have h4 : (2 * m - 1) * 2 ^ (j - 1) ≤ (k : ℤ) := by omega
    have h5 : ((m : ℚ) - 1 / 2) * (2 : ℚ) ^ j ≤ (k : ℚ) := by
      rw [← hA]
      exact_mod_cast h4
    have h6 : (m : ℚ) - 1 / 2 ≤ (k : ℚ) / (2 : ℚ) ^ j := by
      rw [le_div_iff₀ hP]
      exact h5
    linarith
  · have h1 : (1 : ℚ) / (2 * n) * (2 : ℚ) ^ j > 1 / 2 := by
      have : (1 : ℚ) / (2 * n) * (2 : ℚ) ^ j = (2 : ℚ) ^ j / n / 2 := by
        field_simp
        ring
      rw [this]
      have : (1 : ℚ) < (2 : ℚ) ^ j / n := by
        rw [lt_div_iff₀ hnq]
        linarith
      linarith
    have h2 : (t : ℚ) / n * (2 : ℚ) ^ j ≤ ((m : ℚ) + 1 / 2 - 1 / (2 * n)) * (2 : ℚ) ^ j :=
      mul_le_mul_of_nonneg_right hgap hP.le
    have h3 : (k : ℚ) < ((m : ℚ) + 1 / 2) * (2 : ℚ) ^ j := by
      have : ((m : ℚ) + 1 / 2 - 1 / (2 * n)) * (2 : ℚ) ^ j
          = ((m : ℚ) + 1 / 2) * (2 : ℚ) ^ j - 1 / (2 * n) * (2 : ℚ) ^ j := by ring
      linarith
    have h4 : (k : ℚ) / (2 : ℚ) ^ j < (m : ℚ) + 1 / 2 := by
      rw [div_lt_iff₀ hP]
      exact h3
    linarith

/-- The sum of doubles of whole numbers up to 100 is their exact sum, as long
as it stays below 2^53. -/
theorem foldl_addDouble_whole (l : List ℚ) :
    ∀ a : Nat, (∀ x ∈ l, ∃ n : Nat, x = n ∧ n ≤ 100) → a + 100 * l.length < 2 ^ 53 →
      ∃ t : Nat, l.foldl addDouble (a : ℚ) = t ∧ (t : ℚ) = a + l.sum
        ∧ t ≤ a + 100 * l.length := by
  induction l with
  | nil =>
    intro a _ _
    exact ⟨a, rfl, by simp, by simp⟩
  | cons x xs ih =>
    intro a hall hlt
    obtain ⟨n, hxn, hn⟩ := hall x (List.mem_cons_self x xs)
    have hlen : (x :: xs).length = xs.length + 1 := rfl
    rw [hlen] at hlt
    have hstep : addDouble (a : ℚ) x = ((a + n : Nat) : ℚ) := by
      unfold addDouble
      rw [hxn, ← Nat.cast_add]
      exact roundDouble_natCast (a + n) (by omega)
    obtain ⟨t, ht1, ht2, ht3⟩ := ih (a + n)
      (fun y hy => hall y (List.mem_cons_of_mem x hy)) (by omega)
    refine ⟨t, ?_, ?_, ?_⟩
    · rw [List.foldl_cons, hstep]
      exact ht1
    · rw [ht2, List.sum_cons, hxn]
      push_cast
      ring
    · rw [hlen]
      omega

/-- For whole-number scores up to 100, fewer than 2^46 of them, the code's
`Math.round(total / count)` is the exact mean rounded to the nearest integer. -/
theorem roundedMean64_whole (l : List ℚ) (hall : ∀ x ∈ l, ∃ n : Nat, x = n ∧ n ≤ 100)
    (hpos : 0 < l.length) (hlen : l.length < 2 ^ 46) :
    roundedMean64 l = ⌊l.sum / l.length + 1 / 2⌋ := by
  obtain ⟨t, ht1, ht2, ht3⟩ := foldl_addDouble_whole l 0 hall (by omega)
  have hsum : sumDouble l = t := by
    unfold sumDouble
    exact_mod_cast ht1
  have hexact : (t : ℚ) = l.sum := by
    rw [ht2]
    simp
  unfold roundedMean64 divDouble
  rw [hsum, jsRound_roundDouble_div t l.length hpos hlen (by omega), hexact]
  rfl

/-! ## The progress route computing with doubles -/

theorem applyProgress64_id (now : Time) (b : ProgressBody) (e : Enrollment) :
    (applyProgress64 now b e).id = e.id := by
  unfold applyProgress64
  rfl

/-- The progress route computing with doubles, on a stored enrollment, called by
its owner with a body that passes validation once parsed: the reply and what
`findById` returns afterwards. -/
theorem putProgress64_owner (now : Time) (caller : User) (eid : Id) (b : ProgressBody)
    (st : Store) (e : Enrollment) (hfind : findEnrollment st eid = some e)
    (howner : e.userId = caller.id)
    (hvalid : validateProgressUpdate (parseProgressBody b) = none) :
    (putProgress64 now caller eid b st).1
        = progressReply (preSave now (applyProgress64 now (parseProgressBody b) e))
      ∧ findEnrollment (putProgress64 now caller eid b st).2 eid
        = some (preSave now (applyProgress64 now (parseProgressBody b) e)) := by
  have hid := findEnrollment_id st eid e hfind
  have hstep : putProgress64 now caller eid b st =
      (progressReply (preSave now (applyProgress64 now (parseProgressBody b) e)),
        (saveEnrollment now (applyProgress64 now (parseProgressBody b) e) st).2) := by
    simp [putProgress64, hvalid, progressHandler64, hfind, howner, saveEnrollment]
  rw [hstep]
  refine ⟨rfl, ?_⟩
  have := findEnrollment_save now (applyProgress64 now (parseProgressBody b) e) e st
    (by rw [applyProgress64_id, hid]; exact hfind)
  rwa [applyProgress64_id, hid] at this

theorem applyProgress64_completedModules (now : Time) (b : ProgressBody) (e : Enrollment) :
    (applyProgress64 now b e).progress.completedModules =
      if b.isCompleted = some true ∧ ¬ b.moduleId ∈ e.progress.completedModules then
        e.progress.completedModules ++ [b.moduleId]
      else e.progress.completedModules := by
  unfold applyProgress64
  rfl

theorem applyProgress64_lastAccessed (now : Time) (b : ProgressBody) (e : Enrollment) :
    (applyProgress64 now b e).progress.lastAccessed = some now := by
  unfold applyProgress64
  rfl

theorem applyProgress64_timeSpent (now : Time) (b : ProgressBody) (e : Enrollment) :
    (applyProgress64 now b e).progress.timeSpent =
      match b.timeSpent with
      | some t => if t ≠ 0 then addDouble e.progress.timeSpent t else e.progress.timeSpent
      | none => e.progress.timeSpent := by
  unfold applyProgress64
  rfl

/-- C24. For every progress request of the owner on a stored enrollment, with a
body that passes validation as parsed, on the route that computes with doubles:
the request is answered 200; when the `moduleId` is already in the
completed-module list the list is stored unchanged; a `timeSpent` that reads as
a number other than 0 is added to `progress.timeSpent` by the addition of
doubles (`+=`), which for whole numbers with a sum below 2^53 is the exact sum;
a `timeSpent` that is absent or reads as 0 leaves `progress.timeSpent` as it
is; and `progress.lastAccessed` is the current time, whatever the body. -/
theorem resubmit_progress (now : Time) (caller : User) (eid : Id) (b : ProgressBody)
    (st : Store) (e : Enrollment) (hfind : findEnrollment st eid = some e)
    (howner : e.userId = caller.id)
    (hvalid : validateProgressUpdate (parseProgressBody b) = none) :
    ∃ e2, findEnrollment (putProgress64 now caller eid b st).2 eid = some e2
      ∧ (putProgress64 now caller eid b st).1 = progressReply e2
      ∧ (b.moduleId ∈ e.progress.completedModules →
          e2.progress.completedModules = e.progress.completedModules)
      ∧ (∀ t, b.timeSpent = some t → roundDouble t ≠ 0 →
          e2.progress.timeSpent = addDouble e.progress.timeSpent (roundDouble t))
      ∧ (∀ m n : Nat, e.progress.timeSpent = m → b.timeSpent = some (n : ℚ) → m + n < 2 ^ 53 →
          e2.progress.timeSpent = ((m + n : Nat) : ℚ))
      ∧ (∀ t, b.timeSpent = some t → roundDouble t = 0 →
          e2.progress.timeSpent = e.progress.timeSpent)
      ∧ (b.timeSpent = none → e2.progress.timeSpent = e.progress.timeSpent)
      ∧ e2.progress.lastAccessed = some now := by
  obtain ⟨hreply, hfind2⟩ := putProgress64_owner now caller eid b st e hfind howner hvalid
  refine ⟨_, hfind2, hreply, ?_, ?_, ?_, ?_, ?_, ?_⟩
  · intro hmem
    rw [preSave_completedModules, applyProgress64_completedModules]
    simp [parseProgressBody, hmem]
  · intro t ht h0
    rw [preSave_timeSpent, applyProgress64_timeSpent]
    simp [parseProgressBody, ht, h0]
  · intro m n hm hn hlt
    rw [preSave_timeSpent, applyProgress64_timeSpent]
    have hrn : roundDouble (n : ℚ) = n := roundDouble_natCast n (by omega)
    by_cases h0 : n = 0
    · subst h0
      have hr0 : roundDouble (0 : ℚ) = 0 := by simp [roundDouble]
      simp [parseProgressBody, hn, hr0, hm]
    · have hq : ¬ ((n : ℚ) = 0) := by exact_mod_cast h0
      simp only [parseProgressBody, hn, Option.map_some', hrn, hm, ne_eq, hq, not_false_eq_true,
        if_true, addDouble]
      rw [← Nat.cast_add]
      exact roundDouble_natCast (m + n) hlt
  · intro t ht h0
    rw [preSave_timeSpent, applyProgress64_timeSpent]
    simp [parseProgressBody, ht, h0]
  · intro hnone
    rw [preSave_timeSpent, applyProgress64_timeSpent]
    simp [parseProgressBody, hnone]
  · rw [preSave_lastAccessed, applyProgress64_lastAccessed]

/-- Witness of `resubmit_progress`: module `m1`, already in the list, submitted
again at time 7 with a time written 0.2 on an enrollment that holds 0.1: the
list stays `["m1"]` and the stored time is 0.30000000000000004, the double
1351079888211149 / 2^52. -/
theorem resubmit_progress_witness :
    ∃ e2, findEnrollment (putProgress64 7 userOne 100 (timeBody (2 / 10)) tenthStore).2 100
        = some e2
      ∧ e2.progress.completedModules = ["m1"]
      ∧ e2.progress.timeSpent = 1351079888211149 / 4503599627370496
      ∧ e2.progress.lastAccessed = some 7 :=
  have h := resubmit_progress 7 userOne 100 (timeBody (2 / 10)) tenthStore tenthEnrollment
    (by decide!) (by decide) (by decide!)
  match h with
  | ⟨e2, hfind2, _, hlist, htime, _, _, _, hlast⟩ =>
    ⟨e2, hfind2, (hlist (by decide!)).trans (by decide!),
      (htime (2 / 10) rfl (by decide!)).trans (by decide!), hlast⟩

/-! ## Assessments and the overall score, computed with doubles -/

theorem totalScore64_eq_sumDouble (as : List Assessment) :
    totalScore64 as = sumDouble (as.map (fun a => a.score)) := by
  unfold totalScore64 sumDouble
  rw [List.foldl_map]

theorem applyProgress64_performance_some (now : Time) (b : ProgressBody) (e : Enrollment)
    (s : ℚ) (hs : b.score = some s) :
    (applyProgress64 now b e).performance.assessments =
        e.performance.assessments ++
          [{ moduleId := b.moduleId, score := s, maxScore := 100, completedAt := now,
             timeSpent := b.timeSpent.getD 0 }]
      ∧ (applyProgress64 now b e).performance.score =
        some ((roundedMean64
          ((applyProgress64 now b e).performance.assessments.map (fun a => a.score)) : ℤ) : ℚ) := by
  unfold applyProgress64
  simp [hs, roundedMean64, totalScore64_eq_sumDouble]

theorem applyProgress64_performance_none (now : Time) (b : ProgressBody) (e : Enrollment)
    (hs : b.score = none) : (applyProgress64 now b e).performance = e.performance := by
  unfold applyProgress64
  simp only [hs]

/-- C6 as stated fails: enrollment 100 holds one assessment with score 1 and
its owner submits a score written 1.9999999999999998, which passes validation.
The handler stores the two scores 1 and 2 - 2^-52 (the double that text reads
as) and `performance.score = 2`: the sum of the two doubles is rounded to 3,
the quotient is 1.5. The mean of the stored scores rounded to the nearest
integer, `⌊mean + 1/2⌋`, is 1, and so is that of the scores as written. -/
theorem progress_score_not_rounded_mean :
    validateProgressUpdate (parseProgressBody nearTwoBody) = none
      ∧ (findEnrollment onePointStore 100).map
          (fun e => e.performance.assessments.map (fun a => a.score)) = some [1]
      ∧ (findEnrollment (putProgress64 3 userOne 100 nearTwoBody onePointStore).2 100).map
          (fun e => e.performance.assessments.map (fun a => a.score))
          = some [1, 9007199254740991 / 4503599627370496]
      ∧ (findEnrollment (putProgress64 3 userOne 100 nearTwoBody onePointStore).2 100).map
          (fun e => e.performance.score) = some (some 2)
      ∧ ⌊(([1, 9007199254740991 / 4503599627370496] : List ℚ)).sum / 2 + 1 / 2⌋ = 1
      ∧ ⌊(([1, 19999999999999998 / 10000000000000000] : List ℚ)).sum / 2 + 1 / 2⌋ = 1 := by
  refine ⟨by decide!, by decide!, by decide!, by decide!, ?_, ?_⟩
  · rw [Int.floor_eq_iff]
    constructor <;> norm_num
  · rw [Int.floor_eq_iff]
    constructor <;> norm_num

/-- C6, amended. For every progress request of the owner on a stored
enrollment, with a body that passes validation as parsed, on the route that
computes with doubles: when the body carries a score, the stored assessments
are the old ones followed by the one assessment with the body's `moduleId`, the
score as the double it reads as, `maxScore = 100`, `completedAt = now` and
`timeSpent` the body's `timeSpent` or 0, and `performance.score` is
`Math.round(total / count)`, where `total` is the sum of all assessment scores
taken from the left with every partial sum rounded to a double and the quotient
is rounded to a double (90 when the scores are 80, 90, 100); when all the
scores are whole numbers from 0 to 100 and there are fewer than 2^46 of them,
this is the exact mean rounded to the nearest integer, `⌊mean + 1/2⌋`; when the
body carries no score, assessments and `performance.score` are unchanged. -/
theorem progress_score_rounds_double (now : Time) (caller : User) (eid : Id)
    (b : ProgressBody) (st : Store) (e : Enrollment) (hfind : findEnrollment st eid = some e)
    (howner : e.userId = caller.id)
    (hvalid : validateProgressUpdate (parseProgressBody b) = none) :
    ∃ e2, findEnrollment (putProgress64 now caller eid b st).2 eid = some e2
      ∧ (∀ s, b.score = some s →
          e2.performance.assessments =
              e.performance.assessments ++
                [{ moduleId := b.moduleId, score := roundDouble s, maxScore := 100,
                   completedAt := now, timeSpent := (b.timeSpent.map roundDouble).getD 0 }]
            ∧ e2.performance.score =
              some ((roundedMean64 (e2.performance.assessments.map (fun a => a.score)) : ℤ) : ℚ)
            ∧ (e2.performance.assessments.map (fun a => a.score) = [80, 90, 100] →
                e2.performance.score = some 90)
            ∧ ((∀ a ∈ e2.performance.assessments, ∃ n : Nat, a.score = n ∧ n ≤ 100) →
                e2.performance.assessments.length < 2 ^ 46 →
                e2.performance.score =
                  some ((⌊(e2.performance.assessments.map (fun a => a.score)).sum /
                    e2.performance.assessments.length + 1 / 2⌋ : ℤ) : ℚ)))
      ∧ (b.score = none →
          e2.performance.assessments = e.performance.assessments
            ∧ e2.performance.score = e.performance.score) := by
  obtain ⟨_, hfind2⟩ := putProgress64_owner now caller eid b st e hfind howner hvalid
  refine ⟨_, hfind2, ?_, ?_⟩
  · intro s hs
    rw [preSave_performance]
    obtain ⟨hassess, hscore⟩ :=
      applyProgress64_performance_some now (parseProgressBody b) e (roundDouble s)
        (by simp [parseProgressBody, hs])
    refine ⟨hassess, hscore, ?_, ?_⟩
    · intro hthree
      rw [hscore, hthree]
      decide!
    · intro hwhole hlen
      rw [hscore]
      have hpos : 0 < ((applyProgress64 now (parseProgressBody b) e).performance.assessments.map
          (fun a => a.score)).length := by
        rw [List.length_map, hassess]
        simp
      have := roundedMean64_whole
        ((applyProgress64 now (parseProgressBody b) e).performance.assessments.map
          (fun a => a.score))
        (by
          intro x hx
          obtain ⟨a, ha, rfl⟩ := List.mem_map.mp hx
          exact hwhole a ha)
        hpos (by rw [List.length_map]; exact hlen)
      rw [this, List.length_map]
  · intro hs
    rw [preSave_performance,
      applyProgress64_performance_none now (parseProgressBody b) e (by simp [parseProgressBody, hs])]
    exact ⟨rfl, rfl⟩

/-- Witness of `progress_score_rounds_double`: after the scores 80 and 90, a
request with score 100 on enrollment 100 stores `performance.score = 90`. -/
theorem progress_score_rounds_double_witness :
    ∃ e2, findEnrollment (putProgress64 4 userOne 100 (scoreBody "m3" 100) scoredStore64).2 100
        = some e2
      ∧ e2.performance.score = some 90 :=
  have h := progress_score_rounds_double 4 userOne 100 (scoreBody "m3" 100) scoredStore64
    scoredEnrollment64 (by decide!) (by decide) (by decide!)
  match h with
  | ⟨e2, hfind2, hsome, _⟩ =>
    ⟨e2, hfind2, (hsome 100 rfl).2.2.1 (by
      rw [(hsome 100 rfl).1]
      decide!)⟩

/-! ## The feedback route computing with doubles -/

theorem totalRating64_rated (st : Store) (sid : Id) :
    totalRating64 (ratedEnrollments st sid) = sumDouble (ratingsOf st sid) := by
  unfold totalRating64 ratedEnrollments ratingsOf sumDouble
  rw [← rated_map_rating, List.foldl_map]

/-- A successful feedback request on the route that computes with doubles: the
reply, the stored enrollment, the list of enrollments, and the recomputed
metrics of the stored simulation. -/
theorem putFeedback64_result (now : Time) (caller : User) (eid : Id) (b : FeedbackBody)
    (st : Store) (e : Enrollment) (q : ℚ) (S : Simulation)
    (hfind : findEnrollment st eid = some e) (howner : e.userId = caller.id)
    (hstatus : e.status = Status.completed)
    (hrating : b.rating = some q) (hlo : 1 ≤ roundDouble q) (hhi : roundDouble q ≤ 5)
    (hS : findSimulation st e.simulationId = some S) :
    (putFeedback64 now caller eid b st).1
        = feedbackReply (preSave now (applyFeedback now (roundDouble q) (parseFeedbackBody b) e))
      ∧ findEnrollment (putFeedback64 now caller eid b st).2 eid
          = some (preSave now (applyFeedback now (roundDouble q) (parseFeedbackBody b) e))
      ∧ (putFeedback64 now caller eid b st).2.enrollments
          = updateFirst (fun y => y.id == eid)
              (fun _ => preSave now (applyFeedback now (roundDouble q) (parseFeedbackBody b) e))
              st.enrollments
      ∧ findSimulation (putFeedback64 now caller eid b st).2 e.simulationId
          = some { S with metrics := { S.metrics with
              averageRating :=
                oneDecimalMean64 (ratingsOf (putFeedback64 now caller eid b st).2 e.simulationId),
              totalReviews :=
                ((ratingsOf (putFeedback64 now caller eid b st).2 e.simulationId).length : ℤ) } } := by
  have hne : roundDouble q ≠ 0 := by
    intro h0
    rw [h0] at hlo
    exact absurd hlo (by norm_num)
  have hparsed : (parseFeedbackBody b).rating = some (roundDouble q) := by
    simp [parseFeedbackBody, hrating]
  have hstep : putFeedback64 now caller eid b st =
      (feedbackReply (preSave now (applyFeedback now (roundDouble q) (parseFeedbackBody b) e)),
        updateMetrics
          (saveEnrollment now (applyFeedback now (roundDouble q) (parseFeedbackBody b) e) st).2
          e.simulationId
          (fun m => { m with
            averageRating :=
              divDouble ((jsRound (mulDouble
                (divDouble
                  (totalRating64 (ratedEnrollments
                    (saveEnrollment now
                      (applyFeedback now (roundDouble q) (parseFeedbackBody b) e) st).2
                    e.simulationId))
                  (ratedEnrollments
                    (saveEnrollment now
                      (applyFeedback now (roundDouble q) (parseFeedbackBody b) e) st).2
                    e.simulationId).length) 10) : ℤ) : ℚ) 10,
            totalReviews :=
              (ratedEnrollments
                (saveEnrollment now
                  (applyFeedback now (roundDouble q) (parseFeedbackBody b) e) st).2
                e.simulationId).length })) := by
    simp [putFeedback64, hparsed, hfind, howner, hstatus, hne, not_lt.mpr hlo, not_lt.mpr hhi,
      saveEnrollment, preSave_simulationId, applyFeedback]
  have hid : (applyFeedback now (roundDouble q) (parseFeedbackBody b) e).id = eid :=
    findEnrollment_id st eid e hfind
  have hsaved : findEnrollment
      (saveEnrollment now (applyFeedback now (roundDouble q) (parseFeedbackBody b) e) st).2 eid
      = some (preSave now (applyFeedback now (roundDouble q) (parseFeedbackBody b) e)) := by
    have := findEnrollment_save now (applyFeedback now (roundDouble q) (parseFeedbackBody b) e)
      e st (by rw [hid]; exact hfind)
    rwa [hid] at this
  have hratings : ratingsOf (putFeedback64 now caller eid b st).2 e.simulationId
      = ratingsOf
          (saveEnrollment now (applyFeedback now (roundDouble q) (parseFeedbackBody b) e) st).2
          e.simulationId := by
    rw [hstep]
    rfl
  rw [hratings]
  rw [hstep]
  refine ⟨rfl, ?_, ?_, ?_⟩
  · rw [findEnrollment_updateMetrics]
    exact hsaved
  · show (saveEnrollment now (applyFeedback now (roundDouble q) (parseFeedbackBody b) e)
      st).2.enrollments = _
    rw [saveEnrollment_enrollments, hid]
  · simp only [findSimulation_updateMetrics, findSimulation_save, hS, Option.map_some',
      length_rated, totalRating64_rated, oneDecimalMean64]

/-- Rewriting the first match of `find?`, a rated enrollment of simulation
`sid`, by another rated enrollment of `sid`: in the list of the ratings of
`sid` the old rating is replaced by the new one, in its place. -/
theorem ratings_updateFirst_split (p : Enrollment → Bool) (sid : Id) (y : Enrollment)
    (r1 r2 : ℚ) (hy : y.simulationId = sid) (hyr : y.feedback.rating = some r2) :
    ∀ (l : List Enrollment) (x : Enrollment), l.find? p = some x → x.simulationId = sid →
      x.feedback.rating = some r1 →
      ∃ pre post : List ℚ,
        (l.filter (fun e => e.simulationId == sid)).filterMap (fun e => e.feedback.rating)
            = pre ++ r1 :: post
          ∧ ((updateFirst p (fun _ => y) l).filter (fun e => e.simulationId == sid)).filterMap
              (fun e => e.feedback.rating) = pre ++ r2 :: post := by
  intro l
  induction l with
  | nil => intro x h; simp at h
  | cons z zs ih =>
    intro x h hx hxr
    unfold updateFirst
    by_cases hp : p z = true
    · have hz : z = x := by simpa [List.find?_cons, hp] using h
      subst hz
      refine ⟨[], (zs.filter (fun e => e.simulationId == sid)).filterMap
        (fun e => e.feedback.rating), ?_, ?_⟩
      · simp [List.filter_cons, hx, List.filterMap_cons, hxr]
      · simp [hp, List.filter_cons, hy, List.filterMap_cons, hyr]
    · have h2 : zs.find? p = some x := by simpa [List.find?_cons, hp] using h
      obtain ⟨pre, post, h3, h4⟩ := ih x h2 hx hxr
      simp only [hp, Bool.false_eq_true, if_false, List.filter_cons]
      by_cases hzs : z.simulationId = sid
      · cases hzr : z.feedback.rating with
        | none =>
          refine ⟨pre, post, ?_, ?_⟩
          · simp [hzs, List.filterMap_cons, hzr, h3]
          · simp [hzs, List.filterMap_cons, hzr, h4]
        | some q =>
          refine ⟨q :: pre, post, ?_, ?_⟩
          · simp [hzs, List.filterMap_cons, hzr, h3]
          · simp [hzs, List.filterMap_cons, hzr, h4]
      · refine ⟨pre, post, ?_, ?_⟩
        · simp [hzs, h3]
        · simp [hzs, h4]

/-- C7 as stated fails: simulation 10 has two completed enrollments, the first
carries a rating written 1.1017834439738432, and the owner of the second
submits a rating written 1.1982165560261564. The request is answered 200 and
the handler stores `totalReviews = 2` and, as `averageRating`, the double
nearest to 1.2: the sum of the two doubles is rounded to the double nearest to
2.3, the quotient to the one nearest to 1.15, the product to 11.5, and
`Math.round` gives 12. The mean of the two stored ratings rounded to one
decimal place, `⌊10 * mean + 1/2⌋ / 10`, is 1.1, and so is that of the ratings
as written; the double nearest to 1.1 is another double. -/
theorem average_rating_not_rounded_mean :
    (putFeedback64 6 userTwo 101 secondRatingBody firstRatedStore).1.code = 200
      ∧ ratingsOf (putFeedback64 6 userTwo 101 secondRatingBody firstRatedStore).2 10
          = [2480995753861791 / 2251799813685248, 5396287635228557 / 4503599627370496]
      ∧ (findSimulation (putFeedback64 6 userTwo 101 secondRatingBody firstRatedStore).2 10).map
          (fun s => (s.metrics.totalReviews, s.metrics.averageRating))
          = some (2, roundDouble (12 / 10))
      ∧ roundDouble (12 / 10) = 5404319552844595 / 4503599627370496
      ∧ ((⌊10 * ((([2480995753861791 / 2251799813685248,
            5396287635228557 / 4503599627370496] : List ℚ)).sum / 2) + 1 / 2⌋ : ℤ) : ℚ) / 10
          = 11 / 10
      ∧ ((⌊10 * ((([11017834439738432 / 10000000000000000,
            11982165560261564 / 10000000000000000] : List ℚ)).sum / 2) + 1 / 2⌋ : ℤ) : ℚ) / 10
          = 11 / 10
      ∧ roundDouble (11 / 10) ≠ roundDouble (12 / 10) := by
  refine ⟨by decide!, by decide!, by decide!, by decide!, ?_, ?_, by decide!⟩
  · have h : ⌊10 * ((([2480995753861791 / 2251799813685248,
        5396287635228557 / 4503599627370496] : List ℚ)).sum / 2) + 1 / 2⌋ = 11 := by
      rw [Int.floor_eq_iff]
      constructor <;> norm_num
    rw [h]
    norm_num
  · have h : ⌊10 * ((([11017834439738432 / 10000000000000000,
        11982165560261564 / 10000000000000000] : List ℚ)).sum / 2) + 1 / 2⌋ = 11 := by
      rw [Int.floor_eq_iff]
      constructor <;> norm_num
    rw [h]
    norm_num

/-- C7, amended. For every feedback request by the owner of a stored, completed
enrollment of a stored simulation `S`, with a rating that reads as a double in
1..5, on the route that computes with doubles: the request is answered 200 and,
in the resulting store, `S.metrics.totalReviews` is the number of enrollments
of `S` carrying a rating (at least 1) and `S.metrics.averageRating` is
`Math.round(average * 10) / 10` for `average = total / count`, where `total` is
the sum of those ratings taken from the left and every sum, quotient and
product is rounded to a double; the other metrics are kept and the previous
`averageRating` and `totalReviews` are not read. -/
theorem feedback_recomputes_double (now : Time) (caller : User) (eid : Id)
    (b : FeedbackBody) (st : Store) (e : Enrollment) (q : ℚ) (S : Simulation)
    (hfind : findEnrollment st eid = some e) (howner : e.userId = caller.id)
    (hstatus : e.status = Status.completed)
    (hrating : b.rating = some q) (hlo : 1 ≤ roundDouble q) (hhi : roundDouble q ≤ 5)
    (hS : findSimulation st e.simulationId = some S) :
    (putFeedback64 now caller eid b st).1.code = 200
      ∧ ∃ S2, findSimulation (putFeedback64 now caller eid b st).2 e.simulationId = some S2
        ∧ S2.metrics.totalReviews
            = ((ratingsOf (putFeedback64 now caller eid b st).2 e.simulationId).length : ℤ)
        ∧ 0 < (ratingsOf (putFeedback64 now caller eid b st).2 e.simulationId).length
        ∧ roundDouble q ∈ ratingsOf (putFeedback64 now caller eid b st).2 e.simulationId
        ∧ S2.metrics.averageRating
            = oneDecimalMean64 (ratingsOf (putFeedback64 now caller eid b st).2 e.simulationId)
        ∧ S2.metrics.enrollments = S.metrics.enrollments
        ∧ S2.metrics.completions = S.metrics.completions
        ∧ S2.metrics.averageScore = S.metrics.averageScore := by
  obtain ⟨hreply, hfind2, _, hS2⟩ :=
    putFeedback64_result now caller eid b st e q S hfind howner hstatus hrating hlo hhi hS
  have hmem : roundDouble q
      ∈ ratingsOf (putFeedback64 now caller eid b st).2 e.simulationId := by
    unfold ratingsOf
    rw [List.mem_filterMap]
    refine ⟨preSave now (applyFeedback now (roundDouble q) (parseFeedbackBody b) e), ?_, ?_⟩
    · rw [List.mem_filter]
      refine ⟨List.mem_of_find?_eq_some hfind2, ?_⟩
      simp [preSave_simulationId, applyFeedback]
    · rw [preSave_feedback]
      rfl
  refine ⟨by rw [hreply]; rfl, _, hS2, rfl, List.length_pos_of_mem hmem, hmem, rfl, rfl, rfl, rfl⟩

/-- Witness of `feedback_recomputes_double`: a rating of 5 on the completed
enrollment 100 stores `totalReviews = 1` and `averageRating = 5`. -/
theorem feedback_recomputes_double_witness :
    ∃ S2, findSimulation (putFeedback64 3 userOne 100 (ratingBody 5) completedStore).2 10
        = some S2
      ∧ S2.metrics.totalReviews = 1 ∧ S2.metrics.averageRating = 5 :=
  have h := feedback_recomputes_double 3 userOne 100 (ratingBody 5) completedStore
    completedEnrollment 5 completedSimulation
    (by decide) (by decide) (by decide) rfl (by decide!) (by decide!) (by decide)
  match h with
  | ⟨_, S2, hS2, htotal, _, _, haverage, _⟩ =>
    ⟨S2, hS2, htotal.trans (by decide!), haverage.trans (by decide!)⟩

/-! ## Feedback submitted again, computed with doubles -/

/-- C22. Two feedback requests with ratings that read as doubles `r1`, then
`r2` (both in 1..5) by the owner of a stored, completed enrollment of a stored
simulation, on the route that computes with doubles: the second is answered
200; after it the stored feedback holds the rating, review and recommendation
of the second body (with `reviewDate` the second time); the list of the ratings
of the simulation after the second request is the list after the first with
`r1` replaced by `r2` in its place, so it has the same length and
`totalReviews` is what it was after the first; and `averageRating` is
recomputed from that list, in which `r1` no longer occurs at that place. -/
theorem feedback_overwrites (now1 now2 : Time) (caller : User) (eid : Id)
    (b1 b2 : FeedbackBody) (st : Store) (e : Enrollment) (q1 q2 : ℚ) (S : Simulation)
    (hfind : findEnrollment st eid = some e) (howner : e.userId = caller.id)
    (hstatus : e.status = Status.completed)
    (hr1 : b1.rating = some q1) (hlo1 : 1 ≤ roundDouble q1) (hhi1 : roundDouble q1 ≤ 5)
    (hr2 : b2.rating = some q2) (hlo2 : 1 ≤ roundDouble q2) (hhi2 : roundDouble q2 ≤ 5)
    (hS : findSimulation st e.simulationId = some S) :
    (putFeedback64 now2 caller eid b2 (putFeedback64 now1 caller eid b1 st).2).1.code = 200
      ∧ (∃ e2, findEnrollment (putFeedback64 now2 caller eid b2
            (putFeedback64 now1 caller eid b1 st).2).2 eid = some e2
          ∧ e2.feedback = { rating := some (roundDouble q2), review := b2.review,
                            wouldRecommend := b2.wouldRecommend, reviewDate := some now2 })
      ∧ ∃ pre post : List ℚ,
          ratingsOf (putFeedback64 now1 caller eid b1 st).2 e.simulationId
              = pre ++ roundDouble q1 :: post
          ∧ ratingsOf (putFeedback64 now2 caller eid b2
                (putFeedback64 now1 caller eid b1 st).2).2 e.simulationId
              = pre ++ roundDouble q2 :: post
          ∧ ∃ S1 S2,
              findSimulation (putFeedback64 now1 caller eid b1 st).2 e.simulationId = some S1
              ∧ findSimulation (putFeedback64 now2 caller eid b2
                  (putFeedback64 now1 caller eid b1 st).2).2 e.simulationId = some S2
              ∧ S1.metrics.totalReviews = ((pre ++ roundDouble q1 :: post).length : ℤ)
              ∧ S2.metrics.totalReviews = S1.metrics.totalReviews
              ∧ S1.metrics.averageRating = oneDecimalMean64 (pre ++ roundDouble q1 :: post)
              ∧ S2.metrics.averageRating = oneDecimalMean64 (pre ++ roundDouble q2 :: post) := by
  obtain ⟨_, hf1, _, hS1⟩ :=
    putFeedback64_result now1 caller eid b1 st e q1 S hfind howner hstatus hr1 hlo1 hhi1 hS
  have hsim1 : (preSave now1 (applyFeedback now1 (roundDouble q1) (parseFeedbackBody b1)
      e)).simulationId = e.simulationId := by
    rw [preSave_simulationId]; rfl
  have hown1 : (preSave now1 (applyFeedback now1 (roundDouble q1) (parseFeedbackBody b1)
      e)).userId = caller.id := by
    rw [preSave_userId]; exact howner
  have hst1 : (preSave now1 (applyFeedback now1 (roundDouble q1) (parseFeedbackBody b1)
      e)).status = Status.completed := by
    rw [preSave_status]; exact hstatus
  have hrat1 : (preSave now1 (applyFeedback now1 (roundDouble q1) (parseFeedbackBody b1)
      e)).feedback.rating = some (roundDouble q1) := by
    rw [preSave_feedback]; rfl
  rw [← hsim1] at hS1
  obtain ⟨hreply, hf2, henr2, hS2⟩ :=
    putFeedback64_result now2 caller eid b2 (putFeedback64 now1 caller eid b1 st).2
      (preSave now1 (applyFeedback now1 (roundDouble q1) (parseFeedbackBody b1) e)) q2 _
      hf1 hown1 hst1 hr2 hlo2 hhi2 hS1
  rw [hsim1] at hS1 hS2
  obtain ⟨pre, post, hbefore, hafter⟩ := ratings_updateFirst_split (fun y => y.id == eid)
    e.simulationId
    (preSave now2 (applyFeedback now2 (roundDouble q2) (parseFeedbackBody b2)
      (preSave now1 (applyFeedback now1 (roundDouble q1) (parseFeedbackBody b1) e))))
    (roundDouble q1) (roundDouble q2)
    (by rw [preSave_simulationId]; exact hsim1) (by rw [preSave_feedback]; rfl)
    (putFeedback64 now1 caller eid b1 st).2.enrollments
    (preSave now1 (applyFeedback now1 (roundDouble q1) (parseFeedbackBody b1) e)) hf1 hsim1 hrat1
  rw [← henr2] at hafter
  have hbefore2 : ratingsOf (putFeedback64 now1 caller eid b1 st).2 e.simulationId
      = pre ++ roundDouble q1 :: post := hbefore
  have hafter2 : ratingsOf (putFeedback64 now2 caller eid b2
      (putFeedback64 now1 caller eid b1 st).2).2 e.simulationId
      = pre ++ roundDouble q2 :: post := hafter
  refine ⟨by rw [hreply]; rfl, ⟨_, hf2, ?_⟩, pre, post, hbefore2, hafter2, _, _, hS1, hS2,
    ?_, ?_, ?_, ?_⟩
  · rw [preSave_feedback]
    rfl
  · simp only [hbefore2]
  · simp only [hbefore2, hafter2, List.length_append, List.length_cons]
  · simp only [hbefore2]
  · simp only [hafter2]

/-- Witness of `feedback_overwrites`: ratings 5, then 2, on the completed
enrollment 100: the stored rating is 2 and the average is 2. -/
theorem feedback_overwrites_witness :
    (∃ e2, findEnrollment
        (putFeedback64 4 userOne 100 (ratingBody 2)
          (putFeedback64 3 userOne 100 (ratingBody 5) completedStore).2).2 100 = some e2
      ∧ e2.feedback.rating = some 2)
    ∧ (findSimulation
        (putFeedback64 4 userOne 100 (ratingBody 2)
          (putFeedback64 3 userOne 100 (ratingBody 5) completedStore).2).2 10).map
        (fun s => (s.metrics.totalReviews, s.metrics.averageRating)) = some (1, 2) :=
  have h := feedback_overwrites 3 4 userOne 100 (ratingBody 5) (ratingBody 2) completedStore
    completedEnrollment 5 2 completedSimulation
    (by decide) (by decide) (by decide) rfl (by decide!) (by decide!) rfl (by decide!)
    (by decide!) (by decide)
  match h with
  | ⟨_, ⟨e2, hfind2, hfeedback⟩, _⟩ =>
    ⟨⟨e2, hfind2, by rw [hfeedback]; decide!⟩, by decide!⟩

end Blixora
